import Mathlib

/-!
# pot-play-storage: deduplicating, reference-counted blob store

A shallow embedding of `internal/service/storage.go` (the `StorageService`),
of the metadata store it drives (`internal/repository/file.go`), of the file
model (`internal/model/file.go`), of the header validator
(`pkg/validator/file.go`) and of a storage backend seen as a map from paths to
byte strings (`pkg/storage/interface.go`).

Conventions.
* Go `int`/`int64` values are `Int`; no arithmetic of the service can overflow
  before the database rejects the statement, and a rejected statement is a
  failed call (see `Faults`).
* Go strings are Lean `String`s (valid UTF-8); uploaded content is a list of
  bytes.
* `uuid.NewString()` and `time.Now()` are inputs of an operation (`Env`).
* Every call of a collaborator is recorded in `World.log`, in call order.
* Two uploads running at once are a schedule of their calls (`interleave`);
  one call is one step on the state.
-/

namespace PotPlay

/-! ## crypto/sha256 and encoding/hex (Go standard library, FIPS 180-4) -/

namespace SHA256

/-- Words are naturals below `2^32`. -/
def mask32 : Nat := 4294967296

def rotr (x n : Nat) : Nat := ((x >>> n) ||| (x <<< (32 - n))) % mask32

def smallSigma0 (x : Nat) : Nat := (rotr x 7 ^^^ rotr x 18) ^^^ (x >>> 3)

def smallSigma1 (x : Nat) : Nat := (rotr x 17 ^^^ rotr x 19) ^^^ (x >>> 10)

def bigSigma0 (x : Nat) : Nat := (rotr x 2 ^^^ rotr x 13) ^^^ rotr x 22

def bigSigma1 (x : Nat) : Nat := (rotr x 6 ^^^ rotr x 11) ^^^ rotr x 25

def ch (x y z : Nat) : Nat := (x &&& y) ^^^ ((mask32 - 1 - x) &&& z)

def maj (x y z : Nat) : Nat := ((x &&& y) ^^^ (x &&& z)) ^^^ (y &&& z)

/-- Round constants. -/
def K : List Nat :=
  [0x428a2f98, 0x71374491, 0xb5c0fbcf, 0xe9b5dba5, 0x3956c25b, 0x59f111f1, 0x923f82a4, 0xab1c5ed5,
   0xd807aa98, 0x12835b01, 0x243185be, 0x550c7dc3, 0x72be5d74, 0x80deb1fe, 0x9bdc06a7, 0xc19bf174,
   0xe49b69c1, 0xefbe4786, 0x0fc19dc6, 0x240ca1cc, 0x2de92c6f, 0x4a7484aa, 0x5cb0a9dc, 0x76f988da,
   0x983e5152, 0xa831c66d, 0xb00327c8, 0xbf597fc7, 0xc6e00bf3, 0xd5a79147, 0x06ca6351, 0x14292967,
   0x27b70a85, 0x2e1b2138, 0x4d2c6dfc, 0x53380d13, 0x650a7354, 0x766a0abb, 0x81c2c92e, 0x92722c85,
   0xa2bfe8a1, 0xa81a664b, 0xc24b8b70, 0xc76c51a3, 0xd192e819, 0xd6990624, 0xf40e3585, 0x106aa070,
   0x19a4c116, 0x1e376c08, 0x2748774c, 0x34b0bcb5, 0x391c0cb3, 0x4ed8aa4a, 0x5b9cca4f, 0x682e6ff3,
   0x748f82ee, 0x78a5636f, 0x84c87814, 0x8cc70208, 0x90befffa, 0xa4506ceb, 0xbef9a3f7, 0xc67178f2]

/-- Initial hash value. -/
def H0 : List Nat :=
  [0x6a09e667, 0xbb67ae85, 0x3c6ef372, 0xa54ff53a, 0x510e527f, 0x9b05688c, 0x1f83d9ab, 0x5be0cd19]

/-- Big-endian encoding of `x` on `n` bytes. -/
def beBytes : Nat → Nat → List Nat
  | 0, _ => []
  | n + 1, x => beBytes n (x / 256) ++ [x % 256]

/-- Padding: a `1` bit, zeros up to 56 mod 64, then the bit length on 8 bytes. -/
def pad (msg : List Nat) : List Nat :=
  let l := msg.length
  msg ++ [0x80] ++ List.replicate ((119 - l % 64) % 64) 0 ++ beBytes 8 (8 * l)

/-- Big-endian words of a byte list (4 bytes per word). -/
def toWords : List Nat → List Nat
  | a :: b :: c :: d :: rest => (((a * 256 + b) * 256 + c) * 256 + d) :: toWords rest
  | _ => []

/-- Message schedule: extends the 16 words of a block by `n` more words. The
list is kept newest first. -/
def extend : Nat → List Nat → List Nat
  | 0, w => w
  | n + 1, w =>
    let x := (smallSigma1 (w.getD 1 0) + w.getD 6 0 + smallSigma0 (w.getD 14 0) + w.getD 15 0) % mask32
    extend n (x :: w)

def schedule (block : List Nat) : List Nat := (extend 48 block.reverse).reverse

/-- One round of the compression function on the working variables
`[a, b, c, d, e, f, g, h]`. -/
def round (s : List Nat) (kw : Nat × Nat) : List Nat :=
  match s with
  | [a, b, c, d, e, f, g, h] =>
    let t1 := (h + bigSigma1 e + ch e f g + kw.1 + kw.2) % mask32
    let t2 := (bigSigma0 a + maj a b c) % mask32
    [(t1 + t2) % mask32, a, b, c, (d + t1) % mask32, e, f, g]
  | _ => s

def compress (h : List Nat) (block : List Nat) : List Nat :=
  List.zipWith (fun x y => (x + y) % mask32) h ((K.zip (schedule block)).foldl round h)

/-- Processes the padded message 16 words at a time (`n` bounds the number of
blocks). -/
def blocks : Nat → List Nat → List Nat → List Nat
  | 0, h, _ => h
  | n + 1, h, ws =>
    match ws with
    | [] => h
    | _ => blocks n (compress h (ws.take 16)) (ws.drop 16)

/-- The 32-byte digest of a byte string. -/
def sum256 (msg : List UInt8) : List Nat :=
  let ws := toWords (pad (msg.map UInt8.toNat))
  (blocks ws.length H0 ws).flatMap (beBytes 4)

end SHA256

/-- Package encoding/hex: the lowercase hexadecimal digit of a value below 16. -/
def hexDigit (n : Nat) : Char :=
  if n < 10 then Char.ofNat (48 + n) else Char.ofNat (87 + n)

/-- Function `hex.EncodeToString`: two lowercase digits per byte. -/
def hexEncodeToString (bs : List Nat) : String :=
  String.mk (bs.flatMap (fun b => [hexDigit (b / 16), hexDigit (b % 16)]))

/-- The checksum computed by `Upload`: `hex.EncodeToString(hasher.Sum(nil))`
after the whole content went through the tee reader. -/
def checksumOf (content : List UInt8) : String :=
  hexEncodeToString (SHA256.sum256 content)

/-- ASCII bytes of a string literal (used for concrete inputs). -/
def bytesOf (s : String) : List UInt8 := s.toList.map (fun c => UInt8.ofNat c.toNat)

/-! ## internal/model/file.go -/

namespace model

/-- Unique file content with reference counting (a row of table `storage`). -/
structure Storage where
  Hash : String
  Size : Int
  ContentType : String
  StoragePath : String
  ReferenceCount : Int
  CreatedAt : Nat
  UpdatedAt : Nat
  deriving DecidableEq, Repr

/-- File record that references stored content. `Storage` is the embedded
pointer (`none` is `nil`); the last four fields are the legacy fields. -/
structure File where
  ID : String
  Name : String
  StorageHash : String
  CreatedAt : Nat
  Storage : Option Storage
  Size : Int
  ContentType : String
  StoragePath : String
  Checksum : String
  deriving DecidableEq, Repr

/-- File upload metadata. -/
structure FileHeader where
  Name : String
  Size : Int
  ContentType : String
  deriving DecidableEq, Repr

def File.GetSize (f : File) : Int :=
  match f.Storage with
  | some s => s.Size
  | none => f.Size

def File.GetContentType (f : File) : String :=
  match f.Storage with
  | some s => s.ContentType
  | none => f.ContentType

def File.GetStoragePath (f : File) : String :=
  match f.Storage with
  | some s => s.StoragePath
  | none => f.StoragePath

def File.GetChecksum (f : File) : String :=
  if f.StorageHash ≠ "" then f.StorageHash else f.Checksum

end model

/-! ## pkg/validator/file.go -/

namespace validator

def MaxFileSize : Int := 100 * 1024 * 1024

def MaxFilenameLen : Nat := 255

def MinFilenameLen : Nat := 1

def AllowedTypes : List (String × List String) :=
  [(".jpg", ["image/jpeg"]), (".jpeg", ["image/jpeg"]), (".png", ["image/png"]),
   (".gif", ["image/gif"]), (".webp", ["image/webp"]), (".avif", ["image/avif"]),
   (".mp4", ["video/mp4"]), (".avi", ["video/x-msvideo"]), (".mov", ["video/quicktime"]),
   (".pdf", ["application/pdf"]), (".txt", ["text/plain", "text/plain; charset=utf-8"]),
   (".zip", ["application/zip"])]

def DangerousTypes : List String :=
  [".exe", ".bat", ".cmd", ".com", ".scr", ".pif", ".vbs", ".js", ".jar", ".sh", ".bash", ".ps1",
   ".php", ".asp", ".jsp", ".py", ".rb", ".pl", ".cgi", ".dll", ".so", ".dylib", ".app", ".deb",
   ".rpm", ".msi", ".dmg", ".iso"]

/-- Scan of `filepath.Ext` from the last character backwards: stops at a path
separator, returns the suffix starting at the first dot met. -/
def extScan : List Char → List Char → List Char
  | [], _ => []
  | c :: rest, acc =>
    if c = '/' then [] else if c = '.' then '.' :: acc else extScan rest (c :: acc)

/-- Function `filepath.Ext` (Unix path separator). -/
def Ext (path : String) : String := String.mk (extScan path.toList.reverse [])

/-- Function `strings.TrimSuffix`. -/
def TrimSuffix (s suffix : String) : String :=
  if suffix.toList.isSuffixOf s.toList then
    String.mk (s.toList.take (s.toList.length - suffix.toList.length))
  else s

/-- Tests whether `sub` occurs in `l` (`strings.Contains` on characters). -/
def containsChars (sub : List Char) : List Char → Bool
  | [] => sub.isEmpty
  | c :: rest => sub.isPrefixOf (c :: rest) || containsChars sub rest

/-- Function `strings.Contains`. -/
def Contains (s sub : String) : Bool := containsChars sub.toList s.toList

/-- Function `strings.HasPrefix`. -/
def HasPrefix (s pre : String) : Bool := pre.toList.isPrefixOf s.toList

/-- Function `unicode.IsControl`: the C0 and C1 control characters. -/
def IsControl (c : Char) : Bool := c.toNat < 32 || (127 ≤ c.toNat && c.toNat < 160)

/-- Rune mapping of `strings.ToUpper`, exact on every rune whose image is an
ASCII letter (`a`-`z`, dotless i, long s); another rune is left as it is, which
changes no comparison with the ASCII table of reserved names. -/
def upperRune (c : Char) : Char :=
  if c.toNat = 0x131 then 'I' else if c.toNat = 0x17F then 'S' else c.toUpper

/-- Rune mapping of `strings.ToLower`, exact on every rune whose image is an
ASCII letter (`A`-`Z`, dotted capital I, Kelvin sign); another rune is left as
it is, which changes no lookup in the ASCII tables of extensions. -/
def lowerRune (c : Char) : Char :=
  if c.toNat = 0x130 then 'i' else if c.toNat = 0x212A then 'k' else c.toLower

def ToUpper (s : String) : String := String.mk (s.toList.map upperRune)

def ToLower (s : String) : String := String.mk (s.toList.map lowerRune)

def dangerousChars : List Char := ['<', '>', ':', '"', '|', '?', '*', Char.ofNat 0]

def reservedNames : List String :=
  ["CON", "PRN", "AUX", "NUL",
   "COM1", "COM2", "COM3", "COM4", "COM5", "COM6", "COM7", "COM8", "COM9",
   "LPT1", "LPT2", "LPT3", "LPT4", "LPT5", "LPT6", "LPT7", "LPT8", "LPT9"]

/-- The character loop of `ValidateFilename`: the first offending character
decides the error, and `%c` prints it. -/
def checkChars : List Char → Option String
  | [] => none
  | c :: rest =>
    if c ∈ dangerousChars then
      some ("filename contains invalid character: " ++ String.singleton c)
    else if IsControl c then some "filename contains control character"
    else checkChars rest

/-- Function `ValidateFilename`; `none` is the `nil` error. -/
def ValidateFilename (filename : String) : Option String :=
  if filename.utf8ByteSize < MinFilenameLen then some "filename too short"
  else if filename.utf8ByteSize > MaxFilenameLen then some "filename too long (max 255 characters)"
  else
    match checkChars filename.toList with
    | some e => some e
    | none =>
      let baseFilename := ToUpper (TrimSuffix filename (Ext filename))
      if baseFilename ∈ reservedNames then some ("filename uses reserved name: " ++ baseFilename)
      else if Contains filename ".." || Contains filename "/" || Contains filename "\\" then
        some "filename contains path traversal characters"
      else if HasPrefix filename "." then some "hidden files not allowed"
      else none

/-- Function `ValidateFileExtension`. -/
def ValidateFileExtension (filename : String) : Option String :=
  let ext := ToLower (Ext filename)
  if ext = "" then some "file must have an extension"
  else if ext ∈ DangerousTypes then some ("dangerous file type not allowed: " ++ ext)
  else if (AllowedTypes.lookup ext).isNone then some ("unsupported file type: " ++ ext)
  else none

/-- Function `ValidateContentType`. -/
def ValidateContentType (filename contentType : String) : Option String :=
  let ext := ToLower (Ext filename)
  match AllowedTypes.lookup ext with
  | none => some ("file extension not allowed: " ++ ext)
  | some allowedMimeTypes =>
    if contentType ∈ allowedMimeTypes then none
    else some ("content type " ++ contentType ++ " does not match file extension " ++ ext)

/-- Function `ValidateFileSize`. -/
def ValidateFileSize (size : Int) : Option String :=
  if size ≤ 0 then some "file size must be greater than 0"
  else if size > MaxFileSize then some "file too large (max 104857600 bytes)"
  else none

/-- Function `ValidateFile` on a non-nil header. -/
def ValidateFile (header : model.FileHeader) : Option String :=
  match ValidateFilename header.Name with
  | some e => some ("invalid filename: " ++ e)
  | none =>
    match ValidateFileExtension header.Name with
    | some e => some ("invalid file extension: " ++ e)
    | none =>
      match ValidateFileSize header.Size with
      | some e => some ("invalid file size: " ++ e)
      | none =>
        if header.ContentType ≠ "" then
          match ValidateContentType header.Name header.ContentType with
          | some e => some ("invalid content type: " ++ e)
          | none => none
        else none

end validator

/-! ## The world the service acts on -/

/-- Errors returned by the validator, the metadata store and the backend. -/
inductive Err where
  | validation (msg : String)
  | noRows
  | duplicateKey
  | nullScan
  | database (op : String)
  | backend (op : String)
  | notExist (path : String)
  deriving DecidableEq, Repr

deriving instance DecidableEq for Except

/-- Outcome imposed on the backend `Put`: success, failure before any byte is
stored, or failure after the first `n` bytes reached the location. -/
inductive PutFault where
  | ok
  | fails
  | failsAfter (n : Nat)
  deriving DecidableEq, Repr

/-- Failures imposed on the collaborator calls of one service operation (each
is called at most once per operation). A failed database statement changes no
row; `cacheDown` makes every cache command fail. -/
structure Faults where
  put : PutFault
  backendGet : Bool
  backendDelete : Bool
  getStorageByHash : Bool
  createStorage : Bool
  incrementStorageRef : Bool
  decrementStorageRef : Bool
  deleteStorage : Bool
  createFileReference : Bool
  getByID : Bool
  getStorageHashByFileID : Bool
  deleteByID : Bool
  cacheDown : Bool
  list : Bool
  deriving DecidableEq, Repr

/-- Every call succeeds. -/
def Faults.none : Faults :=
  ⟨.ok, false, false, false, false, false, false, false, false, false, false, false, false,
    false⟩

/-- Inputs of one operation: the two identifiers drawn by `uuid.NewString()`
(candidate location, file identifier), `time.Now()`, the database clock
`CURRENT_TIMESTAMP`, and the failures met. -/
structure Env where
  path : String
  fileID : String
  now : Nat
  dbNow : Nat
  faults : Faults
  deriving DecidableEq, Repr

/-- A row of table `files` as written by `CreateFileReference`: the legacy
columns (size, content_type, storage_path, checksum) are NULL in such a row. -/
structure FileRow where
  id : String
  name : String
  storage_hash : String
  created_at : Nat
  deriving DecidableEq, Repr

/-- Decoded content of a cache entry. -/
inductive Cached where
  | file (f : model.File)
  | list (fs : List model.File)
  deriving DecidableEq, Repr

/-- Calls made to the backend (`Put`, `Get`, `Delete`) and to the repository. -/
inductive Call where
  | Put (path : String) (size : Int)
  | Get (path : String)
  | Delete (path : String)
  | GetStorageByHash (hash : String)
  | CreateStorage (s : model.Storage)
  | IncrementStorageRef (hash : String)
  | DecrementStorageRef (hash : String)
  | DeleteStorage (hash : String)
  | CreateFileReference (file : model.File)
  | GetByID (id : String)
  | GetStorageHashByFileID (id : String)
  | DeleteByID (id : String)
  | List
  deriving DecidableEq, Repr

/-- State of the system: the two tables, the cache, the objects held by the
backend, and the calls made so far. -/
structure World where
  storage : List model.Storage
  files : List FileRow
  cache : List (String × Cached)
  objects : List (String × List UInt8)
  log : List Call
  deriving DecidableEq, Repr

/-- The empty store. -/
def World.empty : World := ⟨[], [], [], [], []⟩

def World.record (w : World) (c : Call) : World := { w with log := w.log ++ [c] }

/-- Blob row of a hash (`SELECT ... FROM storage WHERE hash = $1`, first row). -/
def World.blob (w : World) (hash : String) : Option model.Storage :=
  w.storage.find? (fun s => s.Hash = hash)

/-- Object stored at a location. -/
def World.object (w : World) (path : String) : Option (List UInt8) :=
  w.objects.lookup path

/-- Number of rows of `files` whose storage hash is `hash`. -/
def World.refs (w : World) (hash : String) : Nat :=
  w.files.countP (fun f => f.storage_hash = hash)

/-! ## pkg/storage/interface.go: a backend as a map from paths to bytes

Every backend of the repository (`LocalStorage`, `SeaweedFSSimpleStorage`,
`SeaweedFSStorage`) and both test doubles copy the reader to its end and return
the number of bytes copied; none looks at the declared `size`. -/

namespace Backend

def Put (w : World) (ft : Faults) (path : String) (reader : List UInt8) (size : Int) :
    Except Err Int × World :=
  let w1 := w.record (.Put path size)
  match ft.put with
  | .fails => (.error (.backend "Put"), w1)
  | .failsAfter n =>
    (.error (.backend "Put"),
      { w1 with objects := (path, reader.take n) :: w.objects.filter (fun o => o.1 ≠ path) })
  | .ok =>
    (.ok (reader.length : Int),
      { w1 with objects := (path, reader) :: w.objects.filter (fun o => o.1 ≠ path) })

def Get (w : World) (ft : Faults) (path : String) : Except Err (List UInt8) × World :=
  let w1 := w.record (.Get path)
  if ft.backendGet then (.error (.backend "Get"), w1)
  else
    match w.objects.lookup path with
    | some data => (.ok data, w1)
    | none => (.error (.notExist path), w1)

def Delete (w : World) (ft : Faults) (path : String) : Option Err × World :=
  let w1 := w.record (.Delete path)
  if ft.backendDelete then (some (.backend "Delete"), w1)
  else (none, { w1 with objects := w.objects.filter (fun o => o.1 ≠ path) })

end Backend

/-! ## internal/repository/file.go -/

namespace FileRepository

/-- Modelled from the spec: the schema of table `storage` is not among the
sources; the content hash is its primary key ("for a given hash, at most one
Blob row exists"), so an INSERT of a hash already present is rejected. -/
def storageKeyTaken (rows : List model.Storage) (hash : String) : Bool :=
  rows.any (fun s => s.Hash = hash)

/-- Redis `DEL key`. -/
def cacheDel (w : World) (ft : Faults) (key : String) : World :=
  if ft.cacheDown then w else { w with cache := w.cache.filter (fun kv => kv.1 ≠ key) }

/-- Redis `SET key value` with a time to live (one hour for a file, ten
minutes for the list); the operations of a run fall within it, so an entry
stays until it is deleted or replaced. -/
def cacheSet (w : World) (ft : Faults) (key : String) (v : Cached) : World :=
  if ft.cacheDown then w
  else { w with cache := (key, v) :: w.cache.filter (fun kv => kv.1 ≠ key) }

/-- Redis `GET key`; `none` is an error (missing key or outage). -/
def cacheGet (w : World) (ft : Faults) (key : String) : Option Cached :=
  if ft.cacheDown then none else w.cache.lookup key

/-- A file after `json.Marshal` and `json.Unmarshal`: the fields tagged
`json:"-"` (both storage paths) are not serialised. -/
def jsonFile (f : model.File) : model.File :=
  { f with
    StoragePath := "",
    Storage := f.Storage.map (fun s => { s with StoragePath := "" }) }

def GetStorageByHash (w : World) (ft : Faults) (hash : String) :
    Except Err model.Storage × World :=
  let w1 := w.record (.GetStorageByHash hash)
  if ft.getStorageByHash then (.error (.database "GetStorageByHash"), w1)
  else
    match w.storage.find? (fun s => s.Hash = hash) with
    | some s => (.ok s, w1)
    | none => (.error .noRows, w1)

def CreateStorage (w : World) (ft : Faults) (storage : model.Storage) : Option Err × World :=
  let w1 := w.record (.CreateStorage storage)
  if ft.createStorage then (some (.database "CreateStorage"), w1)
  else if storageKeyTaken w.storage storage.Hash then (some .duplicateKey, w1)
  else (none, { w1 with storage := w.storage ++ [storage] })

/-- Effect on a row of `UPDATE storage SET reference_count = reference_count + 1,
updated_at = CURRENT_TIMESTAMP WHERE hash = $1`. -/
def incRow (hash : String) (t : Nat) (s : model.Storage) : model.Storage :=
  if s.Hash = hash then { s with ReferenceCount := s.ReferenceCount + 1, UpdatedAt := t } else s

/-- Effect on a row of `UPDATE storage SET reference_count = reference_count - 1,
updated_at = CURRENT_TIMESTAMP WHERE hash = $1`. -/
def decRow (hash : String) (t : Nat) (s : model.Storage) : model.Storage :=
  if s.Hash = hash then { s with ReferenceCount := s.ReferenceCount - 1, UpdatedAt := t } else s

def IncrementStorageRef (w : World) (e : Env) (hash : String) : Option Err × World :=
  let w1 := w.record (.IncrementStorageRef hash)
  if e.faults.incrementStorageRef then (some (.database "IncrementStorageRef"), w1)
  else (none, { w1 with storage := w.storage.map (incRow hash e.dbNow) })

/-- Returns the new count of the updated row; on an error the count returned
is the zero value of `newCount`. -/
def DecrementStorageRef (w : World) (e : Env) (hash : String) : (Int × Option Err) × World :=
  let w1 := w.record (.DecrementStorageRef hash)
  if e.faults.decrementStorageRef then ((0, some (.database "DecrementStorageRef")), w1)
  else
    match w.storage.find? (fun s => s.Hash = hash) with
    | none => ((0, some .noRows), w1)
    | some s =>
      ((s.ReferenceCount - 1, none), { w1 with storage := w.storage.map (decRow hash e.dbNow) })

/-- Statement `DELETE FROM storage WHERE hash = $1 AND reference_count = 0`. -/
def DeleteStorage (w : World) (ft : Faults) (hash : String) : Option Err × World :=
  let w1 := w.record (.DeleteStorage hash)
  if ft.deleteStorage then (some (.database "DeleteStorage"), w1)
  else
    (none, { w1 with storage :=
      w.storage.filter (fun s => ¬ (s.Hash = hash ∧ s.ReferenceCount = 0)) })

def CreateFileReference (w : World) (ft : Faults) (file : model.File) : Option Err × World :=
  let w1 := w.record (.CreateFileReference file)
  if ft.createFileReference then (some (.database "CreateFileReference"), w1)
  else
    (none, cacheDel
      { w1 with files := w.files ++ [⟨file.ID, file.Name, file.StorageHash, file.CreatedAt⟩] }
      ft "file_list")

/-- The file built from a joined row of `files` and `storage`. -/
def joined (f : FileRow) (s : model.Storage) : model.File :=
  { ID := f.id, Name := f.name, StorageHash := f.storage_hash, CreatedAt := f.created_at,
    Storage := some s, Size := s.Size, ContentType := s.ContentType,
    StoragePath := s.StoragePath, Checksum := s.Hash }

/-- Query of `GetByID` on the new schema: `files JOIN storage ON
storage_hash = hash WHERE id = $1`, first row. -/
def joinByID (w : World) (id : String) : Option model.File :=
  match w.files.find? (fun f => f.id = id) with
  | none => none
  | some f =>
    match w.storage.find? (fun s => s.Hash = f.storage_hash) with
    | none => none
    | some s => some (joined f s)

/-- Fallback of `GetByID` to the legacy columns: no row, or a row whose legacy
columns are NULL and cannot be scanned. -/
def legacyByID (w : World) (id : String) : Except Err model.File :=
  match w.files.find? (fun f => f.id = id) with
  | none => .error .noRows
  | some _ => .error .nullScan

def GetByID (w : World) (ft : Faults) (id : String) : Except Err model.File × World :=
  let w1 := w.record (.GetByID id)
  let cacheKey := "file:" ++ id
  match cacheGet w ft cacheKey with
  | some (.file f) => (.ok f, w1)
  | _ =>
    if ft.getByID then (.error (.database "GetByID"), w1)
    else
      match joinByID w id with
      | some file => (.ok file, cacheSet w1 ft cacheKey (.file (jsonFile file)))
      | none =>
        match legacyByID w id with
        | .error err => (.error err, w1)
        | .ok file => (.ok file, cacheSet w1 ft cacheKey (.file (jsonFile file)))

def GetStorageHashByFileID (w : World) (ft : Faults) (id : String) : Except Err String × World :=
  let w1 := w.record (.GetStorageHashByFileID id)
  if ft.getStorageHashByFileID then (.error (.database "GetStorageHashByFileID"), w1)
  else
    match w.files.find? (fun f => f.id = id) with
    | none => (.error .noRows, w1)
    | some f =>
      if f.storage_hash ≠ "" then (.ok f.storage_hash, w1)
      else (.error .nullScan, w1)

def DeleteByID (w : World) (ft : Faults) (id : String) : Option Err × World :=
  let w1 := w.record (.DeleteByID id)
  let w2 :=
    if ft.deleteByID then w1 else { w1 with files := w.files.filter (fun f => f.id ≠ id) }
  let w3 := cacheDel (cacheDel w2 ft ("file:" ++ id)) ft "file_list"
  (if ft.deleteByID then some (.database "DeleteByID") else none, w3)

/-- Rows of `files JOIN storage ON storage_hash = hash`, in table order. -/
def joinAll (w : World) : List model.File :=
  w.files.filterMap (fun f =>
    (w.storage.find? (fun s => s.Hash = f.storage_hash)).map (joined f))

/-- Clause `ORDER BY f.created_at DESC`; rows created at the same instant keep
their table order. -/
def orderByCreatedDesc (fs : List model.File) : List model.File :=
  fs.insertionSort (fun a b => b.CreatedAt ≤ a.CreatedAt)

/-- Method `List`: the cached list when the entry `file_list` decodes, else the
joined rows, newest first, which are then cached. The fallback to the legacy
columns runs only when the first query fails, and fails with it. -/
def List (w : World) (ft : Faults) : Except Err (List model.File) × World :=
  let w1 := w.record .List
  let cacheKey := "file_list"
  match cacheGet w ft cacheKey with
  | some (.list files) => (.ok files, w1)
  | _ =>
    if ft.list then (.error (.database "List"), w1)
    else
      let files := orderByCreatedDesc (joinAll w)
      (.ok files, cacheSet w1 ft cacheKey (.list (files.map jsonFile)))

end FileRepository

/-! ## internal/service/storage.go -/

namespace StorageService

def Upload (w : World) (e : Env) (reader : List UInt8) (header : model.FileHeader) :
    Except Err model.File × World :=
  match validator.ValidateFile header with
  | some msg => (.error (.validation msg), w)
  | none =>
    let path := e.path
    match Backend.Put w e.faults path reader header.Size with
    | (.error err, w1) => (.error err, w1)
    | (.ok size, w1) =>
      let checksum := checksumOf reader
      match FileRepository.GetStorageByHash w1 e.faults checksum with
      | (.ok existingStorage, w2) =>
        -- Duplicate content found, delete the newly uploaded file
        let w3 := (Backend.Delete w2 e.faults path).2
        match FileRepository.IncrementStorageRef w3 e checksum with
        | (some err, w4) => (.error err, w4)
        | (none, w4) =>
          let file : model.File :=
            { ID := e.fileID, Name := header.Name, StorageHash := checksum, CreatedAt := e.now,
              Storage := some existingStorage, Size := existingStorage.Size,
              ContentType := existingStorage.ContentType,
              StoragePath := existingStorage.StoragePath, Checksum := existingStorage.Hash }
          match FileRepository.CreateFileReference w4 e.faults file with
          | (some err, w5) =>
            -- If file creation fails, decrement the reference count
            (.error err, (FileRepository.DecrementStorageRef w5 e checksum).2)
          | (none, w5) => (.ok file, w5)
      | (.error _, w2) =>
        -- No duplicate found, create new storage record
        let storageRecord : model.Storage :=
          { Hash := checksum, Size := size, ContentType := header.ContentType,
            StoragePath := path, ReferenceCount := 1, CreatedAt := e.now, UpdatedAt := e.now }
        match FileRepository.CreateStorage w2 e.faults storageRecord with
        | (some err, w3) => (.error err, (Backend.Delete w3 e.faults path).2)
        | (none, w3) =>
          let file : model.File :=
            { ID := e.fileID, Name := header.Name, StorageHash := checksum, CreatedAt := e.now,
              Storage := some storageRecord, Size := size, ContentType := header.ContentType,
              StoragePath := path, Checksum := checksum }
          match FileRepository.CreateFileReference w3 e.faults file with
          | (some err, w4) =>
            -- If file creation fails, clean up storage
            let w5 := (FileRepository.DeleteStorage w4 e.faults checksum).2
            (.error err, (Backend.Delete w5 e.faults path).2)
          | (none, w4) => (.ok file, w4)

def Download (w : World) (e : Env) (id : String) :
    Except Err (List UInt8 × model.File) × World :=
  match FileRepository.GetByID w e.faults id with
  | (.error err, w1) => (.error err, w1)
  | (.ok file, w1) =>
    let storagePath := file.GetStoragePath
    match Backend.Get w1 e.faults storagePath with
    | (.error err, w2) => (.error err, w2)
    | (.ok reader, w2) => (.ok (reader, file), w2)

def Delete (w : World) (e : Env) (id : String) : Option Err × World :=
  match FileRepository.GetStorageHashByFileID w e.faults id with
  | (.error err, w1) => (some err, w1)
  | (.ok storageHash, w1) =>
    match FileRepository.DeleteByID w1 e.faults id with
    | (some err, w2) => (some err, w2)
    | (none, w2) =>
      -- Even if we can't decrement, the file is deleted, so continue
      match FileRepository.DecrementStorageRef w2 e storageHash with
      | ((newRefCount, _), w3) =>
        if newRefCount = 0 then
          match FileRepository.GetStorageByHash w3 e.faults storageHash with
          | (.error _, w4) => (none, w4)
          | (.ok storage, w4) =>
            let w5 := (Backend.Delete w4 e.faults storage.StoragePath).2
            let w6 := (FileRepository.DeleteStorage w5 e.faults storageHash).2
            (none, w6)
        else (none, w3)

def List (w : World) (e : Env) : Except Err (List model.File) × World :=
  FileRepository.List w e.faults

end StorageService

/-! ## path/filepath (Go standard library, Unix) -/

namespace filepath

/-- Path elements: the pieces between separators. -/
def splitSep : List Char → List (List Char)
  | [] => [[]]
  | c :: rest =>
    if c = '/' then [] :: splitSep rest
    else
      match splitSep rest with
      | [] => [[c]]
      | x :: xs => (c :: x) :: xs

/-- Elements joined by separators. -/
def joinSep : List (List Char) → List Char
  | [] => []
  | [x] => x
  | x :: y :: rest => x ++ '/' :: joinSep (y :: rest)

/-- One turn of the loop of `Clean`; `buf` holds the elements written so far,
last one first. An empty element and `.` are dropped; `..` removes the last
element written when that one is a name, is kept at the start of a path that
is not rooted, and is dropped at the root. -/
def cleanStep (rooted : Bool) (buf : List (List Char)) (elem : List Char) : List (List Char) :=
  if elem = [] ∨ elem = ['.'] then buf
  else if elem = ['.', '.'] then
    match buf with
    | top :: rest =>
      if top ≠ ['.', '.'] then rest else if rooted then buf else elem :: buf
    | [] => if rooted then [] else [elem]
  else elem :: buf

def cleanChars (path : List Char) : List Char :=
  match path with
  | [] => ['.']
  | c :: _ =>
    let rooted : Bool := c = '/'
    let out := joinSep ((splitSep path).foldl (cleanStep rooted) []).reverse
    if rooted then '/' :: out else if out = [] then ['.'] else out

/-- Elements kept by `Clean`: non-empty and free of separators. -/
def nameLike (e : List Char) : Prop := e ≠ [] ∧ '/' ∉ e

/-- Function `filepath.Clean`. -/
def Clean (path : String) : String := String.mk (cleanChars path.toList)

/-- Function `filepath.Join`: the elements from the first non-empty one on,
joined by separators and cleaned. -/
def Join : List String → String
  | [] => ""
  | e :: rest =>
    if e = "" then Join rest
    else String.mk (cleanChars (joinSep ((e :: rest).map String.toList)))

/-- Function `filepath.IsAbs`. -/
def IsAbs (path : String) : Bool := validator.HasPrefix path "/"

/-- Function `filepath.Abs`; `wd` is the result of `os.Getwd` (`none` when it
fails). -/
def Abs (wd : Option String) (path : String) : Option String :=
  if IsAbs path then some (Clean path)
  else
    match wd with
    | none => none
    | some d => some (Join [d, path])

/-- Function `filepath.Dir`: the cleaned part of the path up to its last
separator. -/
def Dir (path : String) : String :=
  String.mk (cleanChars (path.toList.reverse.dropWhile (fun c => c ≠ '/')).reverse)

end filepath

/-- Function `strings.TrimPrefix`. -/
def TrimPrefix (s pre : String) : String :=
  if pre.toList.isPrefixOf s.toList then String.mk (s.toList.drop pre.toList.length) else s

/-! ## pkg/storage/local.go

The filesystem is a map from paths to file contents; directories are not
represented, and a failure of a system call is imposed from outside. -/

/-- Calls of package `os` made by the local backend. -/
inductive Syscall where
  | MkdirAll (path : String)
  | Create (path : String)
  | Open (path : String)
  | Remove (path : String)
  deriving DecidableEq, Repr

/-- The filesystem seen by the process: working directory (`none` when
`os.Getwd` fails), files, and the system calls made so far. -/
structure Disk where
  wd : Option String
  files : List (String × List UInt8)
  calls : List Syscall
  deriving DecidableEq, Repr

/-- Failures imposed on the system calls of one operation; `copyFails` gives
the number of bytes written before `io.Copy` fails. -/
structure DiskFaults where
  mkdirFails : Bool
  createFails : Bool
  copyFails : Option Nat
  openFails : Bool
  removeFails : Bool
  deriving DecidableEq, Repr

def DiskFaults.none : DiskFaults := ⟨false, false, Option.none, false, false⟩

def Disk.call (d : Disk) (c : Syscall) : Disk := { d with calls := d.calls ++ [c] }

structure LocalStorage where
  basePath : String
  deriving DecidableEq, Repr

namespace LocalStorage

/-- The prefixes of system directories refused by `sanitizePath`. -/
def sensitive (cleanPath : String) : Bool :=
  validator.HasPrefix cleanPath "etc/" || validator.HasPrefix cleanPath "var/" ||
  validator.HasPrefix cleanPath "usr/" || validator.HasPrefix cleanPath "home/" ||
  validator.HasPrefix cleanPath "root/" || validator.HasPrefix cleanPath "sys/" ||
  validator.HasPrefix cleanPath "proc/"

def sanitizePath (s : LocalStorage) (wd : Option String) (userPath : String) :
    Except String String :=
  -- Clean the path to resolve any . or .. components
  let cleanPath := filepath.Clean userPath
  -- Remove any leading slashes to prevent absolute path access
  let cleanPath := TrimPrefix cleanPath "/"
  -- Check for path traversal attempts
  if validator.Contains cleanPath ".." then
    .error ("path traversal detected: " ++ userPath)
  else if sensitive cleanPath then
    .error ("access to system directories not allowed: " ++ cleanPath)
  else
    -- Create the full path and ensure it's within the base directory
    let fullPath := filepath.Join [s.basePath, cleanPath]
    match filepath.Abs wd fullPath with
    | none => .error "failed to resolve absolute path"
    | some absFullPath =>
      match filepath.Abs wd s.basePath with
      | none => .error "failed to resolve base path"
      | some absBasePath =>
        if !validator.HasPrefix absFullPath (absBasePath ++ "/") && absFullPath ≠ absBasePath then
          .error ("path outside base directory: " ++ userPath)
        else .ok cleanPath

/-- Method `Put`; the result is the pair returned by the Go method (bytes
written, error). The error texts are the prefixes set by `fmt.Errorf`, without
the text of the wrapped error of package `os`. -/
def Put (s : LocalStorage) (d : Disk) (ft : DiskFaults) (path : String) (reader : List UInt8)
    (_size : Int) : (Int × Option String) × Disk :=
  match s.sanitizePath d.wd path with
  | .error err => ((0, some ("invalid path: " ++ err)), d)
  | .ok cleanPath =>
    let fullPath := filepath.Join [s.basePath, cleanPath]
    let dir := filepath.Dir fullPath
    let d1 := d.call (.MkdirAll dir)
    if ft.mkdirFails then ((0, some "failed to create directory"), d1)
    else
      let d2 := d1.call (.Create fullPath)
      if ft.createFails then ((0, some "failed to create file"), d2)
      else
        match ft.copyFails with
        | some n =>
          ((((reader.take n).length : Int), some "write failed"),
            { d2 with files :=
                (fullPath, reader.take n) :: d.files.filter (fun o => o.1 ≠ fullPath) })
        | none =>
          (((reader.length : Int), none),
            { d2 with files := (fullPath, reader) :: d.files.filter (fun o => o.1 ≠ fullPath) })

/-- Method `Get`; a returned handle is given as the bytes it streams. A path
with no file in the map fails at `os.Open`; a directory, which `os.Open` opens
and on which every read fails, is not in the map. -/
def Get (s : LocalStorage) (d : Disk) (ft : DiskFaults) (path : String) :
    Except String (List UInt8) × Disk :=
  match s.sanitizePath d.wd path with
  | .error err => (.error ("invalid path: " ++ err), d)
  | .ok cleanPath =>
    let fullPath := filepath.Join [s.basePath, cleanPath]
    let d1 := d.call (.Open fullPath)
    if ft.openFails then (.error "failed to open file", d1)
    else
      match d.files.lookup fullPath with
      | none => (.error "failed to open file", d1)
      | some data => (.ok data, d1)

/-- Method `Delete`; `os.Remove` fails when the map has no file at the path.
An empty directory, which `os.Remove` removes, is not in the map. -/
def Delete (s : LocalStorage) (d : Disk) (ft : DiskFaults) (path : String) :
    Option String × Disk :=
  match s.sanitizePath d.wd path with
  | .error err => (some ("invalid path: " ++ err), d)
  | .ok cleanPath =>
    let fullPath := filepath.Join [s.basePath, cleanPath]
    let d1 := d.call (.Remove fullPath)
    if ft.removeFails then (some "failed to delete file", d1)
    else
      match d.files.lookup fullPath with
      | none => (some "failed to delete file", d1)
      | some _ => (none, { d1 with files := d.files.filter (fun o => o.1 ≠ fullPath) })

end LocalStorage

/-! ## pkg/storage/seaweedfs_simple.go and pkg/storage/seaweedfs.go

The remote server is a function from requests to outcomes of `client.Do`. -/

/-- An entry of a directory listing (`DirectoryEntry`), with the fields the
backends read. -/
structure DirectoryEntry where
  FullPath : String
  Mode : Int
  Size : Int
  Name : String
  deriving DecidableEq, Repr

/-- A request sent by a remote backend. -/
structure Request where
  method : String
  url : String
  deriving DecidableEq, Repr

/-- Outcome of building and sending a request: `http.NewRequestWithContext`
fails, `client.Do` fails, or a response arrives with its status code and its
body decoded as a `DirectoryListResponse` (`none` when the body does not
decode). -/
inductive HTTPOutcome where
  | requestError (msg : String)
  | transportError (msg : String)
  | response (status : Int) (entries : Option (List DirectoryEntry))
  deriving DecidableEq, Repr

/-- Function `strings.Replace(s, old, new, 1)` on characters. -/
def replaceFirst (old new : List Char) : List Char → List Char
  | [] => if old.isEmpty then new else []
  | c :: rest =>
    if old.isPrefixOf (c :: rest) then new ++ (c :: rest).drop old.length
    else c :: replaceFirst old new rest

/-- The part of a string before its last separator (`s[:strings.LastIndex(s, "/")]`). -/
def beforeLastSlash (s : String) : String :=
  String.mk ((s.toList.reverse.dropWhile (fun c => c ≠ '/')).drop 1).reverse

/-- Test `entry.Mode&0x4000 == 0` on a Go `int`. -/
def notDirectory (mode : Int) : Bool := Int.land mode 0x4000 = 0

structure SeaweedFSSimpleStorage where
  masterURL : String
  filerURL : String
  deriving DecidableEq, Repr

namespace SeaweedFSSimpleStorage

def Delete (s : SeaweedFSSimpleStorage) (remote : Request → HTTPOutcome) (path : String) :
    Option String :=
  match remote ⟨"DELETE", s.filerURL ++ "/" ++ path⟩ with
  | .requestError err => some err
  | .transportError err => some err
  | .response status _ =>
    if status = 404 then none
    else if status ≠ 204 ∧ status ≠ 200 then
      some ("failed to delete file: status " ++ toString status)
    else none

/-- The loop of `List` over the entries, appending to `files`. -/
def collect (pre : String) (files : List String) : List DirectoryEntry → List String
  | [] => files
  | entry :: rest =>
    if notDirectory entry.Mode then
      let fullPath := TrimPrefix entry.FullPath "/"
      if pre = "" ∨ validator.HasPrefix fullPath pre then collect pre (files ++ [fullPath]) rest
      else collect pre files rest
    else collect pre files rest

/-- The URL listed: the root, or the directory that contains the prefix. -/
def listURL (s : SeaweedFSSimpleStorage) (pre : String) : String :=
  if pre ≠ "" ∧ validator.Contains pre "/" then
    s.filerURL ++ "/" ++ beforeLastSlash pre ++ "/?pretty=y"
  else s.filerURL ++ "/?pretty=y"

def List (s : SeaweedFSSimpleStorage) (remote : Request → HTTPOutcome) (pre : String) :
    Except String (List String) :=
  match remote ⟨"GET", s.listURL pre⟩ with
  | .requestError err => .error err
  | .transportError err => .error err
  | .response status body =>
    if status = 404 then .ok []
    else if status ≠ 200 then .error ("failed to list files: status " ++ toString status)
    else
      match body with
      | none => .error "invalid character"
      | some entries => .ok (collect pre [] entries)

end SeaweedFSSimpleStorage

structure SeaweedFSStorage where
  masterURL : String
  deriving DecidableEq, Repr

namespace SeaweedFSStorage

def Delete (s : SeaweedFSStorage) (remote : Request → HTTPOutcome) (path : String) :
    Option String :=
  let filerURL := String.mk (replaceFirst ":9333".toList ":8888".toList s.masterURL.toList)
  match remote ⟨"DELETE", filerURL ++ "/" ++ path⟩ with
  | .requestError err => some err
  | .transportError err => some err
  | .response status _ =>
    if status = 404 then none
    else if status ≠ 204 ∧ status ≠ 200 then
      some ("failed to delete file: status " ++ toString status)
    else none

end SeaweedFSStorage

/-! ## pkg/errors/security.go -/

namespace errors

def sensitiveKeywords : List String :=
  ["/etc/", "/var/", "/usr/", "/home/", "/root/", "no such file or directory",
   "permission denied", "access denied"]

/-- Function `SanitizeError`; the argument is `none` for a nil error and the
text of `err.Error()` otherwise. -/
def SanitizeError (err : Option String) : String :=
  match err with
  | none => ""
  | some errMsg =>
    if validator.Contains errMsg "/" then "file operation failed"
    else if validator.Contains errMsg "postgres://" || validator.Contains errMsg "password" then
      "database connection failed"
    else
      let lowerErrMsg := validator.ToLower errMsg
      if sensitiveKeywords.any (fun keyword => validator.Contains lowerErrMsg keyword) then
        "operation failed"
      else if validator.Contains lowerErrMsg "connection refused" then "service unavailable"
      else if validator.Contains lowerErrMsg "timeout" then "request timeout"
      else "internal server error"

/-- The messages `SanitizeError` can return. -/
def safeMessages : List String :=
  ["", "file operation failed", "database connection failed", "operation failed",
   "service unavailable", "request timeout", "internal server error"]

end errors

/-! ## pkg/validator/file.go: SanitizeFilename

The function measures and slices its argument by bytes, so the name is a list
of bytes here; every character it tests is ASCII. -/

namespace validator

/-- The class `[<>:"|?*\x00-\x1f]` of the regular expression. -/
def dangerousByte (b : UInt8) : Bool :=
  b.toNat < 32 || b.toNat = 60 || b.toNat = 62 || b.toNat = 58 || b.toNat = 34 ||
  b.toNat = 124 || b.toNat = 63 || b.toNat = 42

/-- Bytes of the cutset `" ."` of `strings.Trim`. -/
def spaceOrDot (b : UInt8) : Bool := b.toNat = 32 || b.toNat = 46

/-- Function `strings.Trim(s, " .")`. -/
def trimSpaceDot (s : List UInt8) : List UInt8 :=
  ((s.dropWhile spaceOrDot).reverse.dropWhile spaceOrDot).reverse

/-- Scan of `filepath.Ext` on bytes, from the last byte backwards. -/
def extScanBytes : List UInt8 → List UInt8 → List UInt8
  | [], _ => []
  | b :: rest, acc =>
    if b.toNat = 47 then [] else if b.toNat = 46 then b :: acc else extScanBytes rest (b :: acc)

/-- Function `filepath.Ext` on bytes. -/
def ExtBytes (path : List UInt8) : List UInt8 := extScanBytes path.reverse []

/-- Function `strings.TrimSuffix` on bytes. -/
def TrimSuffixBytes (s suffix : List UInt8) : List UInt8 :=
  if suffix.isSuffixOf s then s.take (s.length - suffix.length) else s

/-- Bytes of `unnamed_file`. -/
def unnamedFile : List UInt8 := bytesOf "unnamed_file"

def SanitizeFilename (filename : List UInt8) : List UInt8 :=
  -- Replace dangerous characters with underscore
  let sanitized := filename.map (fun b => if dangerousByte b then (95 : UInt8) else b)
  -- Remove leading/trailing spaces and dots
  let sanitized := trimSpaceDot sanitized
  -- Limit length
  let sanitized :=
    if sanitized.length > MaxFilenameLen then
      let ext := ExtBytes sanitized
      let nameOnly := TrimSuffixBytes sanitized ext
      let maxNameLen : Int := (MaxFilenameLen : Int) - (ext.length : Int)
      if maxNameLen > 0 then nameOnly.take maxNameLen.toNat ++ ext else sanitized
    else sanitized
  -- Ensure we have a valid filename
  if sanitized = [] then unnamedFile else sanitized

end validator

/-! ## Concrete inputs -/

def helloWorld : List UInt8 := bytesOf "Hello, World!"

def env1 : Env := ⟨"p1", "f1", 10, 11, Faults.none⟩

def env2 : Env := ⟨"p2", "f2", 20, 21, Faults.none⟩

def header1 : model.FileHeader := ⟨"file1.txt", 13, "text/plain"⟩

def header2 : model.FileHeader := ⟨"file2.txt", 13, "text/plain"⟩


/-! ## Sequential runs -/

/-- A client request. -/
inductive Op where
  | upload (e : Env) (reader : List UInt8) (header : model.FileHeader)
  | delete (e : Env) (id : String)

/-- State after a request. -/
def step (w : World) : Op → World
  | .upload e reader header => (StorageService.Upload w e reader header).2
  | .delete e id => (StorageService.Delete w e id).2

/-- A request of a run in which every metadata-store and backend call
succeeds; the identifier drawn for a new file is not in use. -/
def Op.succeeds (w : World) : Op → Prop
  | .upload e _ _ => e.faults = Faults.none ∧ ∀ f ∈ w.files, f.id ≠ e.fileID
  | .delete e _ => e.faults = Faults.none

/-- States reachable from the empty store by sequential requests. -/
inductive Reachable : World → Prop where
  | empty : Reachable World.empty
  | step (w : World) (op : Op) : Reachable w → op.succeeds w → Reachable (step w op)

/-- Reference counts agree with the file records, and no file dangles. -/
def RefCountInv (w : World) : Prop :=
  (∀ s ∈ w.storage, s.ReferenceCount = (w.refs s.Hash : Int) ∧ 1 ≤ s.ReferenceCount) ∧
  (∀ f ∈ w.files, ∃ s ∈ w.storage, s.Hash = f.storage_hash)

/-- File identifiers are pairwise distinct. -/
def IdsUnique (w : World) : Prop := (w.files.map (fun f => f.id)).Nodup

/-- Row of `files` written for a file record. -/
def rowOf (f : model.File) : FileRow := ⟨f.ID, f.Name, f.StorageHash, f.CreatedAt⟩

/-- The file returned by `Upload` when the content is already stored. -/
def hitFile (e : Env) (header : model.FileHeader) (checksum : String) (s : model.Storage) :
    model.File :=
  { ID := e.fileID, Name := header.Name, StorageHash := checksum, CreatedAt := e.now,
    Storage := some s, Size := s.Size, ContentType := s.ContentType,
    StoragePath := s.StoragePath, Checksum := s.Hash }

/-- The storage record created by `Upload` for new content. -/
def newRecord (e : Env) (header : model.FileHeader) (reader : List UInt8) : model.Storage :=
  { Hash := checksumOf reader, Size := reader.length, ContentType := header.ContentType,
    StoragePath := e.path, ReferenceCount := 1, CreatedAt := e.now, UpdatedAt := e.now }

/-- The file returned by `Upload` for new content. -/
def missFile (e : Env) (header : model.FileHeader) (reader : List UInt8) : model.File :=
  { ID := e.fileID, Name := header.Name, StorageHash := checksumOf reader, CreatedAt := e.now,
    Storage := some (newRecord e header reader), Size := reader.length,
    ContentType := header.ContentType, StoragePath := e.path, Checksum := checksumOf reader }

/-- SHA-256 of "Hello, World!" in lowercase hexadecimal. -/
def helloHash : String := "dffd6021bb2bd5b0af676290809ec3a53191dd81c7f70a4b28688a362182986f"

/-- The store after "Hello, World!" was uploaded as `file1.txt` and `file2.txt`. -/
def twoRefs : World :=
  (StorageService.Upload (StorageService.Upload World.empty env1 helloWorld header1).2
    env2 helloWorld header2).2

/-- The blob of `twoRefs`. -/
def twoRefsBlob : model.Storage := ⟨helloHash, 13, "text/plain", "p1", 2, 10, 21⟩

def env3 : Env := ⟨"p3", "f3", 30, 31, Faults.none⟩

/-- The store after "Hello, World!" was uploaded as `file1.txt`. -/
def oneRef : World := (StorageService.Upload World.empty env1 helloWorld header1).2

/-- The blob of `oneRef`. -/
def oneRefBlob : model.Storage := ⟨helloHash, 13, "text/plain", "p1", 1, 10, 10⟩

/-- A valid header that declares another size and content type than the stored blob. -/
def headerOther : model.FileHeader := ⟨"b.txt", 99, "text/plain; charset=utf-8"⟩

/-- A valid header that declares 14 bytes. -/
def header14 : model.FileHeader := ⟨"file1.txt", 14, "text/plain"⟩

/-- An upload during which `CreateFileReference` fails. -/
def envRefFails : Env := ⟨"p2", "f2", 20, 21, { Faults.none with createFileReference := true }⟩

/-- An upload during which `CreateFileReference` and then `DecrementStorageRef` fail. -/
def envRefDecFail : Env :=
  ⟨"p2", "f2", 20, 21,
    { Faults.none with createFileReference := true, decrementStorageRef := true }⟩

/-- An upload during which `IncrementStorageRef` fails. -/
def envIncFails : Env := ⟨"p2", "f2", 20, 21, { Faults.none with incrementStorageRef := true }⟩

/-- A delete during which `DecrementStorageRef` fails. -/
def envDecFails : Env := ⟨"p3", "f3", 30, 31, { Faults.none with decrementStorageRef := true }⟩

/-- The store `oneRef` after a first download of file `f1`, which fills the cache. -/
def oneRefRead : World := (StorageService.Download oneRef env3 "f1").2

/-- A delete during which every step after `DeleteByID` fails. -/
def envCleanupFails : Env :=
  ⟨"p3", "f3", 30, 31,
    { Faults.none with
      decrementStorageRef := true
      getStorageByHash := true
      backendDelete := true
      deleteStorage := true }⟩

/-- A delete of the last reference during which the physical delete and
`DeleteStorage` fail. -/
def envPhysicalFails : Env :=
  ⟨"p3", "f3", 30, 31, { Faults.none with backendDelete := true, deleteStorage := true }⟩

/-- A delete during which the lookup of the file record fails. -/
def envLookupFails : Env :=
  ⟨"p3", "f3", 30, 31, { Faults.none with getStorageHashByFileID := true }⟩

/-- The cleaned path computed by `sanitizePath`: `filepath.Clean`, then one
leading separator removed. -/
def cleaned (userPath : String) : String := TrimPrefix (filepath.Clean userPath) "/"

/-- The last test of `sanitizePath` passes: both paths resolve, and the
resolved full path is the resolved base or starts with it and a separator. -/
def resolvesInside (s : LocalStorage) (wd : Option String) (cleanPath : String) : Bool :=
  match filepath.Abs wd (filepath.Join [s.basePath, cleanPath]), filepath.Abs wd s.basePath with
  | some absFullPath, some absBasePath =>
    validator.HasPrefix absFullPath (absBasePath ++ "/") || absFullPath = absBasePath
  | _, _ => false

/-- A local backend rooted at `/data`. -/
def dataStore : LocalStorage := ⟨"/data"⟩

/-- An empty filesystem, the process running in `/`. -/
def emptyDisk : Disk := ⟨some "/", [], []⟩

/-- The creation of the file fails (as it does on a directory). -/
def createFailsOnly : DiskFaults := { DiskFaults.none with createFails := true }

/-- The store `oneRef` after a `List`, which fills the entry `file_list`. -/
def oneRefListed : World := (FileRepository.List oneRef Faults.none).2

/-- A second file record for the blob of `oneRef`. -/
def secondFile : model.File := hitFile env2 header2 helloHash oneRefBlob

/-- The same inputs, every compensating step succeeding: the failures of the
backend `Delete`, of `DecrementStorageRef` and of `DeleteStorage` are cleared. -/
def withoutCompensationFaults (e : Env) : Env :=
  { e with faults :=
      { e.faults with
        backendDelete := false
        decrementStorageRef := false
        deleteStorage := false } }

/-- An upload during which the backend `Delete` fails. -/
def envDeleteFails : Env := ⟨"p2", "f2", 20, 21, { Faults.none with backendDelete := true }⟩

/-- An upload whose `Put` fails after 5 bytes reached the candidate location. -/
def envPutBreaks : Env := ⟨"p1", "f1", 10, 11, { Faults.none with put := .failsAfter 5 }⟩

/-- Contents of a second file. -/
def helloUniverse : List UInt8 := bytesOf "Hello, Universe!"

/-- The name `a.` followed by 300 letters `b`: its extension has 301 bytes. -/
def longExtension : List UInt8 := bytesOf ("a." ++ String.mk (List.replicate 300 'b'))

/-- The listing of the test server: one regular file. -/
def testListing : List DirectoryEntry := [⟨"/test-file", 33188, 12, "test-file"⟩]

/-- A remote backend and a server that answers every request with the test listing. -/
def simpleStore : SeaweedFSSimpleStorage := ⟨"http://master:9333", "http://master:8888"⟩

/-- The listing as the specification words it: the entries that are not
directories, in response order, each as its `FullPath` without one leading
separator, kept when the prefix is empty or starts the stripped path. -/
def listedPaths (pre : String) (entries : List DirectoryEntry) : List String :=
  ((entries.filter (fun en => notDirectory en.Mode)).map
    (fun en => TrimPrefix en.FullPath "/")).filter
      (fun fullPath => pre = "" ∨ validator.HasPrefix fullPath pre)

/-- A full remote backend. -/
def fullStore : SeaweedFSStorage := ⟨"http://master:9333"⟩

/-- Sequential deletes, each request with its own environment. -/
def deleteEach (w : World) : List (Env × String) → World
  | [] => w
  | r :: rest => deleteEach (StorageService.Delete w r.1 r.2).2 rest

/-- Every cache command fails: the cache server does not answer. -/
def cacheOutage : Faults := { Faults.none with cacheDown := true }

/-- The store `oneRefRead` after a `List`: the cache holds the entry of file
`f1` and the entry `file_list`. -/
def oneRefCached : World := (FileRepository.List oneRefRead Faults.none).2

/-- The file `f1` of `oneRef` as the cache holds it. -/
def cachedFirst : model.File :=
  FileRepository.jsonFile (FileRepository.joined ⟨"f1", "file1.txt", helloHash, 10⟩ oneRefBlob)

/-! ## Concurrent uploads

`Upload` calls the backend and the repository one call after the other, with
no transaction and no lock around them: every repository method it calls
executes one SQL statement on the connection pool (`CreateFileReference` then
sends one cache command), and the backend calls of two uploads act on two
different candidate locations. A call is therefore one step on the state, and
between two calls of one upload the other upload may make its own. -/

/-- The call an `Upload` makes next, with the local variables it holds there. -/
inductive UploadAt where
  /-- Entry: `ValidateFile`, then `s.storage.Put`. -/
  | put
  /-- After `Put`: `s.repo.GetStorageByHash`. -/
  | getStorageByHash (size : Int)
  /-- Duplicate content found: `s.storage.Delete` of the newly uploaded file. -/
  | deleteDuplicate (existingStorage : model.Storage)
  /-- Then `s.repo.IncrementStorageRef`. -/
  | incrementStorageRef (existingStorage : model.Storage)
  /-- Then `s.repo.CreateFileReference` for the existing storage. -/
  | createReference (existingStorage : model.Storage)
  /-- File creation failed: `s.repo.DecrementStorageRef`, then `return nil, err`. -/
  | decrementStorageRef (err : Err)
  /-- No duplicate found: `s.repo.CreateStorage`. -/
  | createStorage (size : Int)
  /-- Then `s.repo.CreateFileReference` for the new storage. -/
  | createFile (size : Int)
  /-- File creation failed: `s.repo.DeleteStorage`. -/
  | deleteStorage (err : Err)
  /-- Last call of a failed miss path: `s.storage.Delete`, then `return nil, err`. -/
  | deleteObject (err : Err)
  /-- The call has returned. -/
  | returned (result : Except Err model.File)
  deriving DecidableEq, Repr

/-- The next call of an `Upload` with inputs `e`, `reader`, `header`, made on
the state `w`; the branches are those of `Upload`. -/
def uploadStep (e : Env) (reader : List UInt8) (header : model.FileHeader) (w : World) :
    UploadAt → UploadAt × World
  | .put =>
    match validator.ValidateFile header with
    | some msg => (.returned (.error (.validation msg)), w)
    | none =>
      match Backend.Put w e.faults e.path reader header.Size with
      | (.error err, w1) => (.returned (.error err), w1)
      | (.ok size, w1) => (.getStorageByHash size, w1)
  | .getStorageByHash size =>
    match FileRepository.GetStorageByHash w e.faults (checksumOf reader) with
    | (.ok existingStorage, w1) => (.deleteDuplicate existingStorage, w1)
    | (.error _, w1) => (.createStorage size, w1)
  | .deleteDuplicate existingStorage =>
    (.incrementStorageRef existingStorage, (Backend.Delete w e.faults e.path).2)
  | .incrementStorageRef existingStorage =>
    match FileRepository.IncrementStorageRef w e (checksumOf reader) with
    | (some err, w1) => (.returned (.error err), w1)
    | (none, w1) => (.createReference existingStorage, w1)
  | .createReference existingStorage =>
    let file : model.File :=
      { ID := e.fileID, Name := header.Name, StorageHash := checksumOf reader,
        CreatedAt := e.now, Storage := some existingStorage, Size := existingStorage.Size,
        ContentType := existingStorage.ContentType,
        StoragePath := existingStorage.StoragePath, Checksum := existingStorage.Hash }
    match FileRepository.CreateFileReference w e.faults file with
    | (some err, w1) => (.decrementStorageRef err, w1)
    | (none, w1) => (.returned (.ok file), w1)
  | .decrementStorageRef err =>
    (.returned (.error err), (FileRepository.DecrementStorageRef w e (checksumOf reader)).2)
  | .createStorage size =>
    let storageRecord : model.Storage :=
      { Hash := checksumOf reader, Size := size, ContentType := header.ContentType,
        StoragePath := e.path, ReferenceCount := 1, CreatedAt := e.now, UpdatedAt := e.now }
    match FileRepository.CreateStorage w e.faults storageRecord with
    | (some err, w1) => (.deleteObject err, w1)
    | (none, w1) => (.createFile size, w1)
  | .createFile size =>
    let storageRecord : model.Storage :=
      { Hash := checksumOf reader, Size := size, ContentType := header.ContentType,
        StoragePath := e.path, ReferenceCount := 1, CreatedAt := e.now, UpdatedAt := e.now }
    let file : model.File :=
      { ID := e.fileID, Name := header.Name, StorageHash := checksumOf reader,
        CreatedAt := e.now, Storage := some storageRecord, Size := size,
        ContentType := header.ContentType, StoragePath := e.path,
        Checksum := checksumOf reader }
    match FileRepository.CreateFileReference w e.faults file with
    | (some err, w1) => (.deleteStorage err, w1)
    | (none, w1) => (.returned (.ok file), w1)
  | .deleteStorage err =>
    (.deleteObject err, (FileRepository.DeleteStorage w e.faults (checksumOf reader)).2)
  | .deleteObject err => (.returned (.error err), (Backend.Delete w e.faults e.path).2)
  | .returned result => (.returned result, w)

/-- An `Upload` running alone for `n` calls. -/
def uploadRun (e : Env) (reader : List UInt8) (header : model.FileHeader) :
    Nat → World → UploadAt → UploadAt × World
  | 0, w, pc => (pc, w)
  | n + 1, w, pc =>
    uploadRun e reader header n (uploadStep e reader header w pc).2
      (uploadStep e reader header w pc).1

/-- An `Upload` request: what is drawn during the call, the content, the header. -/
structure UploadCall where
  env : Env
  reader : List UInt8
  header : model.FileHeader
  deriving DecidableEq, Repr

/-- Two uploads in progress on one store. -/
structure Concurrent where
  world : World
  first : UploadAt
  second : UploadAt
  deriving DecidableEq, Repr

/-- Both uploads at their entry. -/
def Concurrent.start (w : World) : Concurrent := ⟨w, .put, .put⟩

/-- A schedule names, call by call, the upload that makes its next call:
`false` the first, `true` the second. -/
def interleave (a b : UploadCall) : List Bool → Concurrent → Concurrent
  | [], c => c
  | false :: rest, c =>
    interleave a b rest
      ⟨(uploadStep a.env a.reader a.header c.world c.first).2,
        (uploadStep a.env a.reader a.header c.world c.first).1, c.second⟩
  | true :: rest, c =>
    interleave a b rest
      ⟨(uploadStep b.env b.reader b.header c.world c.second).2, c.first,
        (uploadStep b.env b.reader b.header c.world c.second).1⟩

/-- The upload of "Hello, World!" as `file1.txt`. -/
def call1 : UploadCall := ⟨env1, helloWorld, header1⟩

/-- The upload of the same content as `file2.txt`. -/
def call2 : UploadCall := ⟨env2, helloWorld, header2⟩

/-- Both uploads store their candidate and look the hash up before either
creates the record: `Put`, `Put`, `GetStorageByHash`, `GetStorageByHash`,
`CreateStorage`, `CreateStorage`, then the second deletes its candidate and the
first creates its file record. -/
def raceSchedule : List Bool := [false, true, false, true, false, true, true, false]

/-- The first upload makes its four calls, then the second its five. -/
def serialSchedule : List Bool := [false, false, false, false, true, true, true, true, true]

/-- The part of `Upload` run when the lookup finds the blob: its calls up to
`CreateFileReference`, and the successful return. -/
def UploadAt.onHitPath : UploadAt → Bool
  | .put => true
  | .getStorageByHash _ => true
  | .deleteDuplicate _ => true
  | .incrementStorageRef _ => true
  | .createReference _ => true
  | .returned (.ok _) => true
  | _ => false

/-- Increments an upload on the hit path has made so far. -/
def UploadAt.increments : UploadAt → Int
  | .createReference _ => 1
  | .returned (.ok _) => 1
  | _ => 0

/-- Calls of the two uploads in turn, five each. -/
def alternatingSchedule : List Bool :=
  [false, true, false, true, false, true, false, true, false, true]

/-- The upload of "Hello, World!" as a third file. -/
def call3 : UploadCall := ⟨env3, helloWorld, ⟨"file3.txt", 13, "text/plain"⟩⟩

/-! ## Theorems -/

theorem filter_ne_cons_filter_ne {α : Type} (p : String) (x : α) (l : List (String × α)) :
    ((p, x) :: l.filter (fun o => o.1 ≠ p)).filter (fun o => o.1 ≠ p)
      = l.filter (fun o => o.1 ≠ p) := by
  simp [List.filter_cons, List.filter_filter]

theorem keyTaken_eq_false {rows : List model.Storage} {hash : String}
    (h : rows.find? (fun s => s.Hash = hash) = none) :
    FileRepository.storageKeyTaken rows hash = false := by
  simp only [FileRepository.storageKeyTaken]
  rw [List.any_eq_false]
  intro s hs
  simpa using List.find?_eq_none.mp h s hs

/-- Upload of content already stored, every call succeeding. -/
theorem upload_hit (w : World) (e : Env) (reader : List UInt8) (header : model.FileHeader)
    (s : model.Storage)
    (hv : validator.ValidateFile header = none) (hf : e.faults = Faults.none)
    (hb : w.blob (checksumOf reader) = some s) :
    StorageService.Upload w e reader header
      = (.ok (hitFile e header (checksumOf reader) s),
          { storage := w.storage.map (FileRepository.incRow (checksumOf reader) e.dbNow),
            files := w.files ++ [rowOf (hitFile e header (checksumOf reader) s)],
            cache := w.cache.filter (fun kv => kv.1 ≠ "file_list"),
            objects := w.objects.filter (fun o => o.1 ≠ e.path),
            log := w.log ++ [.Put e.path header.Size, .GetStorageByHash (checksumOf reader),
              .Delete e.path, .IncrementStorageRef (checksumOf reader),
              .CreateFileReference (hitFile e header (checksumOf reader) s)] }) := by
  unfold World.blob at hb
  unfold StorageService.Upload
  simp only [hv, hf, Faults.none, Backend.Put, World.record, FileRepository.GetStorageByHash, hb]
  simp [Backend.Delete, World.record, FileRepository.IncrementStorageRef, hf, Faults.none,
      FileRepository.CreateFileReference, FileRepository.cacheDel, hitFile, rowOf,
      List.filter_filter]

/-- Upload of new content, every call succeeding. -/
theorem upload_miss (w : World) (e : Env) (reader : List UInt8) (header : model.FileHeader)
    (hv : validator.ValidateFile header = none) (hf : e.faults = Faults.none)
    (hb : w.blob (checksumOf reader) = none) :
    StorageService.Upload w e reader header
      = (.ok (missFile e header reader),
          { storage := w.storage ++ [newRecord e header reader],
            files := w.files ++ [rowOf (missFile e header reader)],
            cache := w.cache.filter (fun kv => kv.1 ≠ "file_list"),
            objects := (e.path, reader) :: w.objects.filter (fun o => o.1 ≠ e.path),
            log := w.log ++ [.Put e.path header.Size, .GetStorageByHash (checksumOf reader),
              .CreateStorage (newRecord e header reader),
              .CreateFileReference (missFile e header reader)] }) := by
  unfold World.blob at hb
  unfold StorageService.Upload
  simp only [hv, hf, Faults.none, Backend.Put, World.record, FileRepository.GetStorageByHash, hb]
  simp [World.record, FileRepository.CreateStorage, keyTaken_eq_false hb,
      FileRepository.CreateFileReference, FileRepository.cacheDel, missFile, newRecord, rowOf]

theorem decRow_StoragePath (h : String) (t : Nat) (s : model.Storage) :
    (FileRepository.decRow h t s).StoragePath = s.StoragePath := by
  unfold FileRepository.decRow; split <;> rfl

theorem decRow_Hash (h : String) (t : Nat) (s : model.Storage) :
    (FileRepository.decRow h t s).Hash = s.Hash := by
  unfold FileRepository.decRow; split <;> rfl

theorem incRow_StoragePath (h : String) (t : Nat) (s : model.Storage) :
    (FileRepository.incRow h t s).StoragePath = s.StoragePath := by
  unfold FileRepository.incRow; split <;> rfl

theorem incRow_Hash (h : String) (t : Nat) (s : model.Storage) :
    (FileRepository.incRow h t s).Hash = s.Hash := by
  unfold FileRepository.incRow; split <;> rfl

theorem find?_map_incRow (l : List model.Storage) (h : String) (t : Nat) :
    (l.map (FileRepository.incRow h t)).find? (fun s => s.Hash = h)
      = (l.find? (fun s => s.Hash = h)).map (FileRepository.incRow h t) := by
  induction l with
  | nil => rfl
  | cons a l ih =>
    by_cases ha : a.Hash = h
    · simp [List.find?_cons, FileRepository.incRow, ha]
    · simp [List.find?_cons, FileRepository.incRow, ha, ih]

theorem find?_map_decRow (l : List model.Storage) (h : String) (t : Nat) :
    (l.map (FileRepository.decRow h t)).find? (fun s => s.Hash = h)
      = (l.find? (fun s => s.Hash = h)).map (FileRepository.decRow h t) := by
  induction l with
  | nil => rfl
  | cons a l ih =>
    by_cases ha : a.Hash = h
    · simp [List.find?_cons, FileRepository.decRow, ha]
    · simp [List.find?_cons, FileRepository.decRow, ha, ih]

/-- Delete of an unknown identifier: the lookup fails and nothing changes. -/
theorem delete_unknown (w : World) (e : Env) (id : String)
    (hnone : w.files.find? (fun f => f.id = id) = none) :
    (StorageService.Delete w e id).1.isSome ∧
    (StorageService.Delete w e id).2
      = { w with log := w.log ++ [.GetStorageHashByFileID id] } := by
  unfold StorageService.Delete
  by_cases hft : e.faults.getStorageHashByFileID = true
  · simp [FileRepository.GetStorageHashByFileID, hft, World.record]
  · simp [FileRepository.GetStorageHashByFileID, hft, World.record, hnone]

/-- Delete of a file whose row carries no storage hash: the lookup fails. -/
theorem delete_nohash (w : World) (e : Env) (id : String) (f : FileRow)
    (hsome : w.files.find? (fun f => f.id = id) = some f) (hh : f.storage_hash = "") :
    (StorageService.Delete w e id).1.isSome ∧
    (StorageService.Delete w e id).2
      = { w with log := w.log ++ [.GetStorageHashByFileID id] } := by
  unfold StorageService.Delete
  by_cases hft : e.faults.getStorageHashByFileID = true
  · simp [FileRepository.GetStorageHashByFileID, hft, World.record]
  · simp [FileRepository.GetStorageHashByFileID, hft, World.record, hsome, hh]

/-- Delete of a file whose blob row is missing, every call succeeding. -/
theorem delete_dangling (w : World) (e : Env) (id : String) (f : FileRow)
    (hf : e.faults = Faults.none)
    (hsome : w.files.find? (fun f => f.id = id) = some f) (hh : f.storage_hash ≠ "")
    (hb : w.blob f.storage_hash = none) :
    (StorageService.Delete w e id).1 = none ∧
    (StorageService.Delete w e id).2.files = w.files.filter (fun f => f.id ≠ id) ∧
    (StorageService.Delete w e id).2.storage = w.storage ∧
    (StorageService.Delete w e id).2.objects = w.objects := by
  unfold World.blob at hb
  unfold StorageService.Delete
  simp [FileRepository.GetStorageHashByFileID, hf, Faults.none, World.record, hsome, hh,
    FileRepository.DeleteByID, FileRepository.cacheDel, FileRepository.DecrementStorageRef, hb,
    FileRepository.GetStorageByHash]

/-- Delete of a file that is not the last reference of its blob. -/
theorem delete_shared (w : World) (e : Env) (id : String) (f : FileRow) (s : model.Storage)
    (hf : e.faults = Faults.none)
    (hsome : w.files.find? (fun f => f.id = id) = some f) (hh : f.storage_hash ≠ "")
    (hb : w.blob f.storage_hash = some s) (hc : s.ReferenceCount - 1 ≠ 0) :
    (StorageService.Delete w e id).1 = none ∧
    (StorageService.Delete w e id).2.files = w.files.filter (fun f => f.id ≠ id) ∧
    (StorageService.Delete w e id).2.storage
      = w.storage.map (FileRepository.decRow f.storage_hash e.dbNow) ∧
    (StorageService.Delete w e id).2.objects = w.objects := by
  unfold World.blob at hb
  unfold StorageService.Delete
  simp [FileRepository.GetStorageHashByFileID, hf, Faults.none, World.record, hsome, hh,
    FileRepository.DeleteByID, FileRepository.cacheDel, FileRepository.DecrementStorageRef, hb,
    hc]

/-- Delete of the last reference of a blob. -/
theorem delete_last (w : World) (e : Env) (id : String) (f : FileRow) (s : model.Storage)
    (hf : e.faults = Faults.none)
    (hsome : w.files.find? (fun f => f.id = id) = some f) (hh : f.storage_hash ≠ "")
    (hb : w.blob f.storage_hash = some s) (hc : s.ReferenceCount - 1 = 0) :
    (StorageService.Delete w e id).1 = none ∧
    (StorageService.Delete w e id).2.files = w.files.filter (fun f => f.id ≠ id) ∧
    (StorageService.Delete w e id).2.storage
      = (w.storage.map (FileRepository.decRow f.storage_hash e.dbNow)).filter
          (fun s => ¬ (s.Hash = f.storage_hash ∧ s.ReferenceCount = 0)) ∧
    (StorageService.Delete w e id).2.objects
      = w.objects.filter (fun o => o.1 ≠ s.StoragePath) := by
  have hb2 := find?_map_decRow w.storage f.storage_hash e.dbNow
  unfold World.blob at hb
  rw [hb] at hb2
  unfold StorageService.Delete
  simp [FileRepository.GetStorageHashByFileID, hf, Faults.none, World.record, hsome, hh,
    FileRepository.DeleteByID, FileRepository.cacheDel, FileRepository.DecrementStorageRef, hb,
    hc, FileRepository.GetStorageByHash, Backend.Delete, hb2,
    FileRepository.DeleteStorage, decRow_StoragePath]

/-- Upload with an invalid header: nothing is called, nothing changes. -/
theorem upload_invalid (w : World) (e : Env) (reader : List UInt8) (header : model.FileHeader)
    (msg : String) (hv : validator.ValidateFile header = some msg) :
    StorageService.Upload w e reader header = (.error (.validation msg), w) := by
  unfold StorageService.Upload
  simp [hv]

theorem blob_of_mem {w : World} {h : String} {s : model.Storage}
    (hs : s ∈ w.storage) (hh : s.Hash = h) : ∃ s0, w.blob h = some s0 := by
  unfold World.blob
  cases hfind : w.storage.find? (fun s => s.Hash = h) with
  | some s0 => exact ⟨s0, rfl⟩
  | none =>
    have := List.find?_eq_none.mp hfind s hs
    simp [hh] at this

theorem blob_mem {w : World} {h : String} {s : model.Storage} (hb : w.blob h = some s) :
    s ∈ w.storage ∧ s.Hash = h := by
  unfold World.blob at hb
  refine ⟨List.mem_of_find?_eq_some hb, ?_⟩
  simpa using List.find?_some hb

theorem blob_none_ne {w : World} {h : String} (hb : w.blob h = none) :
    ∀ s ∈ w.storage, s.Hash ≠ h := by
  unfold World.blob at hb
  intro s hs
  simpa using List.find?_eq_none.mp hb s hs

theorem countP_filter_id (l : List FileRow) (p : FileRow → Bool) (id : String) (f : FileRow)
    (hnd : (l.map (fun f => f.id)).Nodup)
    (hfind : l.find? (fun f => f.id = id) = some f) :
    (l.filter (fun f => f.id ≠ id)).countP p + (if p f then 1 else 0) = l.countP p := by
  induction l with
  | nil => simp at hfind
  | cons a l ih =>
    rw [List.map_cons, List.nodup_cons] at hnd
    by_cases ha : a.id = id
    · have hfa : f = a := by simpa [List.find?_cons, ha] using hfind.symm
      subst hfa
      have hl : l.filter (fun f => f.id ≠ id) = l := by
        rw [List.filter_eq_self]
        intro b hb
        have : b.id ≠ f.id := by
          intro hbe
          exact hnd.1 (hbe ▸ List.mem_map_of_mem (fun f => f.id) hb)
        simpa [ha] using this
      simp only [List.filter_cons, ha, ne_eq, not_true_eq_false, decide_False, hl]
      rw [List.countP_cons]
      simp
    · have hfl : l.find? (fun f => f.id = id) = some f := by
        simpa [List.find?_cons, ha] using hfind
      have := ih hnd.2 hfl
      simp only [ne_eq] at this
      simp only [List.filter_cons, ha, ne_eq, not_false_eq_true, decide_True, if_true]
      rw [List.countP_cons, List.countP_cons]
      omega

theorem refs_append (w : World) (r : FileRow) (h : String) (fs : List FileRow)
    (hfs : fs = w.files ++ [r]) :
    fs.countP (fun f => f.storage_hash = h) = w.refs h + (if r.storage_hash = h then 1 else 0) := by
  subst hfs
  unfold World.refs
  rw [List.countP_append]
  by_cases hr : r.storage_hash = h <;> simp [List.countP_cons, hr]

theorem inv_upload (w : World) (e : Env) (reader : List UInt8) (header : model.FileHeader)
    (hf : e.faults = Faults.none) (hfresh : ∀ f ∈ w.files, f.id ≠ e.fileID)
    (hinv : RefCountInv w) (hids : IdsUnique w) :
    RefCountInv (StorageService.Upload w e reader header).2 ∧
    IdsUnique (StorageService.Upload w e reader header).2 := by
  cases hv : validator.ValidateFile header with
  | some msg => rw [upload_invalid w e reader header msg hv]; exact ⟨hinv, hids⟩
  | none =>
    have hidsNew : ∀ (r : FileRow), r.id = e.fileID →
        ((w.files ++ [r]).map (fun f => f.id)).Nodup := by
      intro r hr
      rw [List.map_append, List.nodup_append]
      refine ⟨hids, by simp, ?_⟩
      intro a ha1 ha2
      obtain ⟨f, hfm, hfa⟩ := List.mem_map.mp ha1
      simp only [List.map_cons, List.map_nil, List.mem_singleton] at ha2
      exact hfresh f hfm (by rw [hfa, ha2, hr])
    cases hb : w.blob (checksumOf reader) with
    | none =>
      rw [upload_miss w e reader header hv hf hb]
      refine ⟨⟨?_, ?_⟩, hidsNew _ rfl⟩
      · intro s hs
        simp only [List.mem_append, List.mem_singleton] at hs
        show s.ReferenceCount = ((List.countP _ _ : Nat) : Int) ∧ _
        rw [refs_append w (rowOf (missFile e header reader)) s.Hash _ rfl]
        rcases hs with hs | hs
        · have hne : s.Hash ≠ checksumOf reader := blob_none_ne hb s hs
          have := hinv.1 s hs
          simp [rowOf, missFile, Ne.symm hne, this.1.symm, this.2]
        · subst hs
          have h0 : w.refs (checksumOf reader) = 0 := by
            unfold World.refs
            rw [List.countP_eq_zero]
            intro f hfm hfh
            obtain ⟨s, hs, hsh⟩ := hinv.2 f hfm
            exact blob_none_ne hb s hs (by simpa [hsh] using hfh)
          simp [rowOf, missFile, newRecord, h0]
      · intro f hfm
        simp only [List.mem_append, List.mem_singleton] at hfm
        rcases hfm with hfm | hfm
        · obtain ⟨s, hs, hsh⟩ := hinv.2 f hfm
          exact ⟨s, List.mem_append_left _ hs, hsh⟩
        · subst hfm
          exact ⟨newRecord e header reader, by simp, rfl⟩
    | some s0 =>
      rw [upload_hit w e reader header s0 hv hf hb]
      refine ⟨⟨?_, ?_⟩, hidsNew _ rfl⟩
      · intro s hs
        simp only [List.mem_map] at hs
        obtain ⟨s1, hs1, rfl⟩ := hs
        show (FileRepository.incRow _ _ s1).ReferenceCount = ((List.countP _ _ : Nat) : Int) ∧ _
        rw [refs_append w (rowOf (hitFile e header (checksumOf reader) s0)) _ _ rfl]
        have := hinv.1 s1 hs1
        rw [incRow_Hash]
        by_cases hh : s1.Hash = checksumOf reader
        · simp [FileRepository.incRow, hh, rowOf, hitFile]
          rw [hh] at this
          omega
        · simp [FileRepository.incRow, hh, rowOf, hitFile, Ne.symm hh]
          exact this
      · intro f hfm
        simp only [List.mem_append, List.mem_singleton] at hfm
        rcases hfm with hfm | hfm
        · obtain ⟨s, hs, hsh⟩ := hinv.2 f hfm
          exact ⟨_, List.mem_map_of_mem _ hs, by rw [incRow_Hash]; exact hsh⟩
        · subst hfm
          exact ⟨_, List.mem_map_of_mem _ (blob_mem hb).1, by
            rw [incRow_Hash]; exact (blob_mem hb).2⟩

theorem inv_delete (w : World) (e : Env) (id : String)
    (hf : e.faults = Faults.none) (hinv : RefCountInv w) (hids : IdsUnique w) :
    RefCountInv (StorageService.Delete w e id).2 ∧
    IdsUnique (StorageService.Delete w e id).2 := by
  cases hfind : w.files.find? (fun f => f.id = id) with
  | none => rw [(delete_unknown w e id hfind).2]; exact ⟨hinv, hids⟩
  | some f =>
    by_cases hh : f.storage_hash = ""
    · rw [(delete_nohash w e id f hfind hh).2]; exact ⟨hinv, hids⟩
    · have hfm : f ∈ w.files := List.mem_of_find?_eq_some hfind
      obtain ⟨s1, hs1, hs1h⟩ := hinv.2 f hfm
      obtain ⟨s0, hb⟩ := blob_of_mem hs1 hs1h
      have hs0 := blob_mem hb
      have hcount := hinv.1 s0 hs0.1
      rw [hs0.2] at hcount
      have hrefs : ∀ h : String,
          ((w.files.filter (fun f => f.id ≠ id)).countP (fun f => f.storage_hash = h) : Int)
            + (if f.storage_hash = h then 1 else 0) = (w.refs h : Int) := by
        intro h
        have := countP_filter_id w.files (fun f => f.storage_hash = h) id f hids hfind
        unfold World.refs
        rw [← this]
        by_cases hfh : f.storage_hash = h <;> simp [hfh]
      have hsub : ((w.files.filter (fun f => f.id ≠ id)).map (fun f => f.id)).Nodup :=
        List.Nodup.sublist (List.Sublist.map _ (List.filter_sublist _)) hids
      by_cases hc : s0.ReferenceCount - 1 = 0
      · obtain ⟨_, hfiles, hstor, _⟩ := delete_last w e id f s0 hf hfind hh hb hc
        unfold RefCountInv IdsUnique World.refs
        rw [hfiles, hstor]
        refine ⟨⟨?_, ?_⟩, hsub⟩
        · intro s hs
          rw [List.mem_filter, List.mem_map] at hs
          obtain ⟨⟨s2, hs2, rfl⟩, hkeep⟩ := hs
          have h2 := hinv.1 s2 hs2
          by_cases h2h : s2.Hash = f.storage_hash
          · exfalso
            rw [h2h] at h2
            simp [FileRepository.decRow, h2h] at hkeep
            omega
          · have hr := hrefs s2.Hash
            simp only [FileRepository.decRow, h2h, if_false, Ne.symm h2h] at hr ⊢
            omega
        · intro g hg
          rw [List.mem_filter] at hg
          obtain ⟨s2, hs2, hs2h⟩ := hinv.2 g hg.1
          have hgh : g.storage_hash ≠ f.storage_hash := by
            intro hgh
            have hr := hrefs f.storage_hash
            have hpos : 0 < (w.files.filter (fun f => f.id ≠ id)).countP
                (fun x => x.storage_hash = f.storage_hash) :=
              List.countP_pos_iff.mpr ⟨g, List.mem_filter.mpr hg, by simpa using hgh⟩
            simp only [if_true] at hr
            omega
          have h2h : s2.Hash ≠ f.storage_hash := by rw [hs2h]; exact hgh
          refine ⟨s2, ?_, hs2h⟩
          rw [List.mem_filter]
          refine ⟨?_, by simp [h2h]⟩
          have : FileRepository.decRow f.storage_hash e.dbNow s2 = s2 := by
            simp [FileRepository.decRow, h2h]
          rw [← this]
          exact List.mem_map_of_mem _ hs2
      · obtain ⟨_, hfiles, hstor, _⟩ := delete_shared w e id f s0 hf hfind hh hb hc
        unfold RefCountInv IdsUnique World.refs
        rw [hfiles, hstor]
        refine ⟨⟨?_, ?_⟩, hsub⟩
        · intro s hs
          rw [List.mem_map] at hs
          obtain ⟨s2, hs2, rfl⟩ := hs
          have h2 := hinv.1 s2 hs2
          rw [decRow_Hash]
          have hr := hrefs s2.Hash
          by_cases h2h : s2.Hash = f.storage_hash
          · rw [h2h] at h2 hr
            simp only [FileRepository.decRow, h2h, if_true] at hr ⊢
            omega
          · simp only [FileRepository.decRow, h2h, if_false, Ne.symm h2h] at hr ⊢
            omega
        · intro g hg
          rw [List.mem_filter] at hg
          obtain ⟨s2, hs2, hs2h⟩ := hinv.2 g hg.1
          exact ⟨_, List.mem_map_of_mem _ hs2, by rw [decRow_Hash]; exact hs2h⟩

theorem inv_reachable (w : World) (hr : Reachable w) : RefCountInv w ∧ IdsUnique w := by
  induction hr with
  | empty => exact ⟨⟨by simp [World.empty], by simp [World.empty]⟩, by simp [IdsUnique, World.empty]⟩
  | step w op _ hs ih =>
    cases op with
    | upload e reader header => exact inv_upload w e reader header hs.1 hs.2 ih.1 ih.2
    | delete e id => exact inv_delete w e id hs ih.1 ih.2

/-- C1: in every state reachable from the empty store by sequential uploads and
deletes whose calls all succeed, each storage record's reference count is the
number of file records carrying its hash and is at least 1, and every file
record's storage hash names an existing storage record. -/
theorem refcount_matches_files (w : World) (hr : Reachable w) :
    (∀ s ∈ w.storage, s.ReferenceCount = (w.refs s.Hash : Int) ∧ 1 ≤ s.ReferenceCount) ∧
    (∀ f ∈ w.files, ∃ s, w.blob f.storage_hash = some s) := by
  have h := (inv_reachable w hr).1
  refine ⟨h.1, ?_⟩
  intro f hf
  obtain ⟨s, hs, hsh⟩ := h.2 f hf
  exact blob_of_mem hs hsh

/-- C1 at the state reached by two uploads of the same content followed by a
delete of the first file. -/
theorem refcount_matches_files_witness :
    Reachable (step (step (step World.empty (.upload env1 helloWorld header1))
        (.upload env2 helloWorld header2)) (.delete env1 "f1")) ∧
    ((∀ s ∈ (step (step (step World.empty (.upload env1 helloWorld header1))
        (.upload env2 helloWorld header2)) (.delete env1 "f1")).storage,
        s.ReferenceCount = ((step (step (step World.empty (.upload env1 helloWorld header1))
        (.upload env2 helloWorld header2)) (.delete env1 "f1")).refs s.Hash : Int)
          ∧ 1 ≤ s.ReferenceCount) ∧
     (∀ f ∈ (step (step (step World.empty (.upload env1 helloWorld header1))
        (.upload env2 helloWorld header2)) (.delete env1 "f1")).files,
        ∃ s, (step (step (step World.empty (.upload env1 helloWorld header1))
        (.upload env2 helloWorld header2)) (.delete env1 "f1")).blob f.storage_hash = some s)) :=
  have hr : Reachable (step (step (step World.empty (.upload env1 helloWorld header1))
        (.upload env2 helloWorld header2)) (.delete env1 "f1")) :=
    Reachable.step _ _
      (Reachable.step _ _
        (Reachable.step _ _ Reachable.empty ⟨rfl, by decide⟩) ⟨rfl, by decide⟩) rfl
  ⟨hr, refcount_matches_files _ hr⟩

theorem lookup_none_of_forall {α : Type} (p : String) (l : List (String × α))
    (h : ∀ o ∈ l, o.1 ≠ p) : l.lookup p = none := by
  induction l with
  | nil => rfl
  | cons a l ih =>
    obtain ⟨k, v⟩ := a
    have hk : k ≠ p := h (k, v) (List.mem_cons_self _ _)
    have hpk : (p == k) = false := by simpa using Ne.symm hk
    rw [List.lookup_cons, hpk]
    exact ih (fun o ho => h o (List.mem_cons_of_mem _ ho))

theorem blob_append_new (w : World) (r : model.Storage) (st : List model.Storage)
    (hst : st = w.storage ++ [r]) (hb : w.blob r.Hash = none) :
    st.find? (fun s => s.Hash = r.Hash) = some r := by
  subst hst
  unfold World.blob at hb
  rw [List.find?_append, hb]
  simp

/-- C2: starting from a store with no blob for the content, two successive
uploads of the same bytes under two valid headers with different names return
two files with the same storage hash and different names, the blob then has
reference count 2, and the backend holds the content once, at the location of
the first upload: the candidate object of the second upload is gone. The two
candidate locations are distinct draws of `uuid.NewString()`. -/
theorem dedup_two_uploads (w : World) (e1 e2 : Env) (B : List UInt8)
    (h1 h2 : model.FileHeader)
    (hv1 : validator.ValidateFile h1 = none) (hv2 : validator.ValidateFile h2 = none)
    (hname : h1.Name ≠ h2.Name)
    (hf1 : e1.faults = Faults.none) (hf2 : e2.faults = Faults.none)
    (hpath : e1.path ≠ e2.path)
    (hb : w.blob (checksumOf B) = none) :
    ∃ f1 f2 s,
      (StorageService.Upload w e1 B h1).1 = .ok f1 ∧
      (StorageService.Upload (StorageService.Upload w e1 B h1).2 e2 B h2).1 = .ok f2 ∧
      f1.StorageHash = f2.StorageHash ∧ f1.Name ≠ f2.Name ∧
      (StorageService.Upload (StorageService.Upload w e1 B h1).2 e2 B h2).2.blob f1.StorageHash
        = some s ∧
      s.ReferenceCount = 2 ∧ s.StoragePath = e1.path ∧
      (StorageService.Upload (StorageService.Upload w e1 B h1).2 e2 B h2).2.objects
        = (e1.path, B) ::
            (w.objects.filter (fun o => o.1 ≠ e1.path)).filter (fun o => o.1 ≠ e2.path) ∧
      (StorageService.Upload (StorageService.Upload w e1 B h1).2 e2 B h2).2.object e2.path
        = none := by
  have hb1 : (StorageService.Upload w e1 B h1).2.blob (checksumOf B)
      = some (newRecord e1 h1 B) := by
    rw [upload_miss w e1 B h1 hv1 hf1 hb]
    exact blob_append_new w (newRecord e1 h1 B) _ rfl hb
  rw [upload_hit _ e2 B h2 (newRecord e1 h1 B) hv2 hf2 hb1]
  rw [upload_miss w e1 B h1 hv1 hf1 hb]
  refine ⟨_, _, FileRepository.incRow (checksumOf B) e2.dbNow (newRecord e1 h1 B),
    rfl, rfl, rfl, hname, ?_, ?_, ?_, ?_, ?_⟩
  · show List.find? _ (List.map _ _) = _
    have := find?_map_incRow (w.storage ++ [newRecord e1 h1 B]) (checksumOf B) e2.dbNow
    have hfind : (w.storage ++ [newRecord e1 h1 B]).find? (fun s => s.Hash = checksumOf B)
        = some (newRecord e1 h1 B) := blob_append_new w (newRecord e1 h1 B) _ rfl hb
    rw [hfind] at this
    exact this
  · simp [FileRepository.incRow, newRecord]
  · simp [FileRepository.incRow, newRecord]
  · simp [List.filter_cons, hpath]
  · apply lookup_none_of_forall
    intro o ho
    simp only [List.mem_filter, List.mem_cons] at ho
    simpa using ho.2

/-- C2 on the empty store with the content "Hello, World!" uploaded as
`file1.txt` then `file2.txt`. -/
theorem dedup_two_uploads_witness :
    validator.ValidateFile header1 = none ∧ validator.ValidateFile header2 = none ∧
    header1.Name ≠ header2.Name ∧ env1.path ≠ env2.path ∧
    World.empty.blob (checksumOf helloWorld) = none ∧
    ∃ f1 f2 s,
      (StorageService.Upload World.empty env1 helloWorld header1).1 = .ok f1 ∧
      (StorageService.Upload (StorageService.Upload World.empty env1 helloWorld header1).2
          env2 helloWorld header2).1 = .ok f2 ∧
      f1.StorageHash = f2.StorageHash ∧ f1.Name ≠ f2.Name ∧
      (StorageService.Upload (StorageService.Upload World.empty env1 helloWorld header1).2
          env2 helloWorld header2).2.blob f1.StorageHash = some s ∧
      s.ReferenceCount = 2 ∧ s.StoragePath = env1.path ∧
      (StorageService.Upload (StorageService.Upload World.empty env1 helloWorld header1).2
          env2 helloWorld header2).2.objects
        = (env1.path, helloWorld) ::
            (World.empty.objects.filter (fun o => o.1 ≠ env1.path)).filter
              (fun o => o.1 ≠ env2.path) ∧
      (StorageService.Upload (StorageService.Upload World.empty env1 helloWorld header1).2
          env2 helloWorld header2).2.object env2.path = none :=
  ⟨by decide, by decide, by decide, by decide, by decide,
    dedup_two_uploads World.empty env1 env2 helloWorld header1 header2
      (by decide) (by decide) (by decide) rfl rfl (by decide) (by decide)⟩

theorem find?_filter_id (l : List FileRow) (id id2 : String) (hne : id2 ≠ id) :
    (l.filter (fun f => f.id ≠ id)).find? (fun f => f.id = id2)
      = l.find? (fun f => f.id = id2) := by
  rw [List.find?_filter]
  congr 1
  funext f
  by_cases hf : f.id = id2
  · simp [hf, hne]
  · simp [hf]

theorem find?_hash_none (l : List model.Storage) (h : String)
    (hall : ∀ s ∈ l, s.Hash ≠ h) : l.find? (fun s => s.Hash = h) = none := by
  rw [List.find?_eq_none]
  intro s hs
  simpa using hall s hs

theorem lifecycle_aux (h : String) (hh : h ≠ "") (data : List UInt8) (path : String) :
    ∀ (reqs : List (Env × String)) (w : World) (s : model.Storage),
      w.blob h = some s → (∀ s2 ∈ w.storage, s2.Hash = h → s2 = s) →
      0 < s.ReferenceCount → s.StoragePath = path →
      w.object path = some data →
      (∀ r ∈ reqs, r.1.faults = Faults.none) →
      (reqs.map (fun r => r.2)).Nodup →
      (∀ r ∈ reqs, ∃ f, w.files.find? (fun f => f.id = r.2) = some f ∧ f.storage_hash = h) →
      (reqs.length : Int) ≤ s.ReferenceCount →
      ((reqs.length : Int) < s.ReferenceCount →
        ∃ s2, (deleteEach w reqs).blob h = some s2 ∧
          s2.ReferenceCount = s.ReferenceCount - reqs.length ∧ s2.StoragePath = path ∧
          (deleteEach w reqs).object path = some data) ∧
      ((reqs.length : Int) = s.ReferenceCount →
        (deleteEach w reqs).blob h = none ∧ (deleteEach w reqs).object path = none) := by
  intro reqs
  induction reqs with
  | nil =>
    intro w s hb _ hpos hpath hobj _ _ _ _
    refine ⟨fun _ => ⟨s, hb, by simp, hpath, hobj⟩, fun hk => ?_⟩
    simp at hk
    omega
  | cons r rest ih =>
    intro w s hb huniq hpos hpath hobj hfaults hnd hpoint hk
    obtain ⟨f, hfind, hfh⟩ := hpoint r (List.mem_cons_self _ _)
    have hf := hfaults r (List.mem_cons_self _ _)
    have hhf : f.storage_hash ≠ "" := by rw [hfh]; exact hh
    rw [← hfh] at hb
    simp only [List.length_cons, Nat.cast_add, Nat.cast_one] at hk ⊢
    rw [List.map_cons, List.nodup_cons] at hnd
    show (_ → ∃ s2, (deleteEach (StorageService.Delete w r.1 r.2).2 rest).blob h = some s2 ∧ _) ∧
      (_ → (deleteEach (StorageService.Delete w r.1 r.2).2 rest).blob h = none ∧ _)
    by_cases hc : s.ReferenceCount - 1 = 0
    · have hrest : rest = [] := by
        cases rest with
        | nil => rfl
        | cons a l => simp at hk; omega
      subst hrest
      obtain ⟨_, _, hstor, hobjs⟩ := delete_last w r.1 r.2 f s hf hfind hhf hb hc
      refine ⟨fun hlt => by simp at hlt; omega, fun _ => ⟨?_, ?_⟩⟩
      · show List.find? _ (StorageService.Delete w r.1 r.2).2.storage = none
        rw [hstor]
        apply find?_hash_none
        intro s2 hs2 hs2h
        rw [List.mem_filter, List.mem_map] at hs2
        obtain ⟨⟨s3, hs3, rfl⟩, hkeep⟩ := hs2
        rw [decRow_Hash] at hs2h
        have := huniq s3 hs3 hs2h
        subst this
        rw [← hfh] at hs2h
        simp [FileRepository.decRow, hs2h, hc] at hkeep
      · show List.lookup _ (StorageService.Delete w r.1 r.2).2.objects = none
        rw [hobjs, hpath]
        apply lookup_none_of_forall
        intro o ho
        simpa using (List.mem_filter.mp ho).2
    · obtain ⟨_, hfiles, hstor, hobjs⟩ := delete_shared w r.1 r.2 f s hf hfind hhf hb hc
      have hsh : s.Hash = f.storage_hash := (blob_mem hb).2
      have hb2 : (StorageService.Delete w r.1 r.2).2.blob h
          = some (FileRepository.decRow f.storage_hash r.1.dbNow s) := by
        show List.find? _ (StorageService.Delete w r.1 r.2).2.storage = _
        rw [hstor, ← hfh, find?_map_decRow]
        unfold World.blob at hb
        rw [hb]
        rfl
      have hrc : (FileRepository.decRow f.storage_hash r.1.dbNow s).ReferenceCount
          = s.ReferenceCount - 1 := by simp [FileRepository.decRow, hsh]
      have := ih (StorageService.Delete w r.1 r.2).2
        (FileRepository.decRow f.storage_hash r.1.dbNow s) hb2
        (by
          intro s2 hs2 hs2h
          rw [hstor, List.mem_map] at hs2
          obtain ⟨s3, hs3, rfl⟩ := hs2
          rw [decRow_Hash] at hs2h
          rw [huniq s3 hs3 hs2h])
        (by rw [hrc]; omega)
        (by rw [decRow_StoragePath]; exact hpath)
        (by show List.lookup _ (StorageService.Delete w r.1 r.2).2.objects = _
            rw [hobjs]; exact hobj)
        (fun r2 hr2 => hfaults r2 (List.mem_cons_of_mem _ hr2))
        hnd.2
        (by
          intro r2 hr2
          obtain ⟨f2, hf2, hf2h⟩ := hpoint r2 (List.mem_cons_of_mem _ hr2)
          refine ⟨f2, ?_, hf2h⟩
          rw [hfiles, find?_filter_id]
          · exact hf2
          · intro heq
            exact hnd.1 (heq ▸ List.mem_map_of_mem (fun r => r.2) hr2))
        (by rw [hrc]; omega)
      rw [hrc] at this
      refine ⟨fun hlt => ?_, fun heq => ?_⟩
      · obtain ⟨s2, h1, h2, h3⟩ := this.1 (by omega)
        exact ⟨s2, h1, by omega, h3⟩
      · exact this.2 (by omega)

/-- C3: for a blob with reference count `N > 0` whose physical object is in
the backend, deleting `k` distinct file records that point at it, every call
succeeding, leaves for `k < N` the blob present with count `N - k` and its
object in place, and for `k = N` no blob record for the hash and no object at
its storage path. -/
theorem reference_lifecycle (w : World) (h : String) (s : model.Storage) (data : List UInt8)
    (reqs : List (Env × String))
    (hh : h ≠ "")
    (hb : w.blob h = some s) (huniq : ∀ s2 ∈ w.storage, s2.Hash = h → s2 = s)
    (hpos : 0 < s.ReferenceCount)
    (hobj : w.object s.StoragePath = some data)
    (hfaults : ∀ r ∈ reqs, r.1.faults = Faults.none)
    (hnd : (reqs.map (fun r => r.2)).Nodup)
    (hpoint : ∀ r ∈ reqs, ∃ f, w.files.find? (fun f => f.id = r.2) = some f ∧ f.storage_hash = h)
    (hk : (reqs.length : Int) ≤ s.ReferenceCount) :
    ((reqs.length : Int) < s.ReferenceCount →
      ∃ s2, (deleteEach w reqs).blob h = some s2 ∧
        s2.ReferenceCount = s.ReferenceCount - reqs.length ∧
        s2.StoragePath = s.StoragePath ∧
        (deleteEach w reqs).object s.StoragePath = some data) ∧
    ((reqs.length : Int) = s.ReferenceCount →
      (deleteEach w reqs).blob h = none ∧ (deleteEach w reqs).object s.StoragePath = none) :=
  lifecycle_aux h hh data s.StoragePath reqs w s hb huniq hpos rfl hobj hfaults hnd hpoint hk

/-- C3 on the store with two files for "Hello, World!", deleting the first. -/
theorem reference_lifecycle_witness :
    (helloHash ≠ "" ∧ twoRefs.blob helloHash = some twoRefsBlob ∧
      (∀ s2 ∈ twoRefs.storage, s2.Hash = helloHash → s2 = twoRefsBlob) ∧
      0 < twoRefsBlob.ReferenceCount ∧
      twoRefs.object twoRefsBlob.StoragePath = some helloWorld ∧
      (∀ r ∈ [(env1, "f1")], r.1.faults = Faults.none) ∧
      ([(env1, "f1")].map (fun r => r.2)).Nodup ∧
      (∀ r ∈ [(env1, "f1")], ∃ f, twoRefs.files.find? (fun f => f.id = r.2) = some f ∧
        f.storage_hash = helloHash) ∧
      (([(env1, "f1")] : List (Env × String)).length : Int) ≤ twoRefsBlob.ReferenceCount) ∧
    (((([(env1, "f1")] : List (Env × String)).length : Int) < twoRefsBlob.ReferenceCount →
      ∃ s2, (deleteEach twoRefs [(env1, "f1")]).blob helloHash = some s2 ∧
        s2.ReferenceCount = twoRefsBlob.ReferenceCount
          - (([(env1, "f1")] : List (Env × String)).length : Int) ∧
        s2.StoragePath = twoRefsBlob.StoragePath ∧
        (deleteEach twoRefs [(env1, "f1")]).object twoRefsBlob.StoragePath
          = some helloWorld) ∧
     ((([(env1, "f1")] : List (Env × String)).length : Int) = twoRefsBlob.ReferenceCount →
      (deleteEach twoRefs [(env1, "f1")]).blob helloHash = none ∧
        (deleteEach twoRefs [(env1, "f1")]).object twoRefsBlob.StoragePath = none)) :=
  have h1 : helloHash ≠ "" := by decide
  have h2 : twoRefs.blob helloHash = some twoRefsBlob := by decide
  have h3 : ∀ s2 ∈ twoRefs.storage, s2.Hash = helloHash → s2 = twoRefsBlob := by decide
  have h4 : 0 < twoRefsBlob.ReferenceCount := by decide
  have h5 : twoRefs.object twoRefsBlob.StoragePath = some helloWorld := by decide
  have h6 : ∀ r ∈ [(env1, "f1")], r.1.faults = Faults.none := by decide
  have h7 : ([(env1, "f1")].map (fun r => r.2)).Nodup := by decide
  have h8 : ∀ r ∈ [(env1, "f1")], ∃ f, twoRefs.files.find? (fun f => f.id = r.2) = some f ∧
      f.storage_hash = helloHash := by
    intro r hr
    rw [List.mem_singleton] at hr
    subst hr
    exact ⟨⟨"f1", "file1.txt", helloHash, 10⟩, by decide, rfl⟩
  have h9 : (([(env1, "f1")] : List (Env × String)).length : Int)
      ≤ twoRefsBlob.ReferenceCount := by decide
  ⟨⟨h1, h2, h3, h4, h5, h6, h7, h8, h9⟩,
    reference_lifecycle twoRefs helloHash twoRefsBlob helloWorld [(env1, "f1")]
      h1 h2 h3 h4 h5 h6 h7 h8 h9⟩

theorem lookup_filter_none {α : Type} (k : String) (p : String × α → Bool)
    (l : List (String × α)) (h : l.lookup k = none) : (l.filter p).lookup k = none := by
  induction l with
  | nil => rfl
  | cons a l ih =>
    obtain ⟨k2, v⟩ := a
    rw [List.lookup_cons] at h
    cases hk : (k == k2) with
    | true => rw [hk] at h; simp at h
    | false =>
      rw [hk] at h
      rw [List.filter_cons]
      split
      · rw [List.lookup_cons, hk]; exact ih h
      · exact ih h

theorem lookup_filter_ne {α : Type} (k p : String) (l : List (String × α)) (hne : k ≠ p) :
    (l.filter (fun o => o.1 ≠ p)).lookup k = l.lookup k := by
  induction l with
  | nil => rfl
  | cons a l ih =>
    obtain ⟨k2, v⟩ := a
    by_cases h2 : k2 = p
    · have hk : (k == k2) = false := by rw [h2]; simpa using hne
      simp only [List.filter_cons, h2, ne_eq, not_true_eq_false, decide_False, List.lookup_cons]
      rw [← h2] at ih ⊢
      rw [hk]
      simpa using ih
    · simp only [List.filter_cons, h2, ne_eq, not_false_eq_true, decide_True, if_true,
        List.lookup_cons]
      cases hk : (k == k2) with
      | true => rfl
      | false => simpa using ih

/-- Download of a file whose record, blob and object are in place and whose
cache entry is absent, every call succeeding. -/
theorem download_of (w : World) (e : Env) (id : String) (r : FileRow) (s : model.Storage)
    (data : List UInt8)
    (hf : e.faults = Faults.none)
    (hcache : w.cache.lookup ("file:" ++ id) = none)
    (hrow : w.files.find? (fun f => f.id = id) = some r)
    (hblob : w.storage.find? (fun s => s.Hash = r.storage_hash) = some s)
    (hobj : w.objects.lookup s.StoragePath = some data) :
    (StorageService.Download w e id).1 = .ok (data, FileRepository.joined r s) := by
  unfold StorageService.Download
  simp [FileRepository.GetByID, FileRepository.cacheGet, hf, Faults.none, hcache,
    FileRepository.joinByID, hrow, hblob, Backend.Get, model.File.GetStoragePath,
    FileRepository.joined, FileRepository.cacheSet, World.record, hobj]

theorem find?_append_fresh (l : List FileRow) (r : FileRow)
    (hfresh : ∀ f ∈ l, f.id ≠ r.id) :
    (l ++ [r]).find? (fun f => f.id = r.id) = some r := by
  rw [List.find?_append]
  have : l.find? (fun f => f.id = r.id) = none := by
    rw [List.find?_eq_none]
    intro f hfm
    simpa using hfresh f hfm
  rw [this]
  simp

/-- C4: a download of the file returned by an upload, made right after that
upload, yields exactly the uploaded bytes and a file with the content type of
the file the upload returned, whether the upload created a new blob or hit an
existing one (whose object holds the same bytes at another location than the
fresh candidate location). -/
theorem download_after_upload (w : World) (e e2 : Env) (B : List UInt8)
    (header : model.FileHeader)
    (hv : validator.ValidateFile header = none)
    (hf : e.faults = Faults.none) (hf2 : e2.faults = Faults.none)
    (hfresh : ∀ f ∈ w.files, f.id ≠ e.fileID)
    (hcache : w.cache.lookup ("file:" ++ e.fileID) = none)
    (hstored : ∀ s, w.blob (checksumOf B) = some s →
      w.object s.StoragePath = some B ∧ s.StoragePath ≠ e.path) :
    ∃ f g,
      (StorageService.Upload w e B header).1 = .ok f ∧
      (StorageService.Download (StorageService.Upload w e B header).2 e2 f.ID).1
        = .ok (B, g) ∧
      g.GetContentType = f.GetContentType ∧ g.ID = f.ID ∧ g.Name = f.Name := by
  cases hb : w.blob (checksumOf B) with
  | none =>
    rw [upload_miss w e B header hv hf hb]
    refine ⟨missFile e header B,
      FileRepository.joined (rowOf (missFile e header B)) (newRecord e header B), rfl, ?_, ?_⟩
    · apply download_of _ e2 _ (rowOf (missFile e header B)) (newRecord e header B) B hf2
      · exact lookup_filter_none _ _ _ hcache
      · exact find?_append_fresh w.files (rowOf (missFile e header B)) hfresh
      · exact blob_append_new w (newRecord e header B) _ rfl hb
      · simp [newRecord, List.lookup_cons]
    · simp [FileRepository.joined, model.File.GetContentType, missFile, newRecord, rowOf]
  | some s =>
    obtain ⟨hobj, hpath⟩ := hstored s hb
    rw [upload_hit w e B header s hv hf hb]
    refine ⟨hitFile e header (checksumOf B) s,
      FileRepository.joined (rowOf (hitFile e header (checksumOf B) s))
        (FileRepository.incRow (checksumOf B) e.dbNow s), rfl, ?_, ?_⟩
    · apply download_of _ e2 _ (rowOf (hitFile e header (checksumOf B) s))
        (FileRepository.incRow (checksumOf B) e.dbNow s) B hf2
      · exact lookup_filter_none _ _ _ hcache
      · exact find?_append_fresh w.files (rowOf (hitFile e header (checksumOf B) s)) hfresh
      · show List.find? _ (List.map _ _) = _
        have := find?_map_incRow w.storage (checksumOf B) e.dbNow
        unfold World.blob at hb
        rw [hb] at this
        exact this
      · rw [incRow_StoragePath]
        show List.lookup _ (List.filter _ _) = _
        rw [lookup_filter_ne _ _ _ hpath]
        exact hobj
    · have : (FileRepository.incRow (checksumOf B) e.dbNow s).ContentType = s.ContentType := by
        unfold FileRepository.incRow; split <;> rfl
      simp [FileRepository.joined, model.File.GetContentType, hitFile, rowOf, this]

/-- C4 on the store that already holds "Hello, World!": the second upload hits
the existing blob and the download returns the bytes. -/
theorem download_after_upload_witness :
    (validator.ValidateFile header2 = none ∧ env2.faults = Faults.none ∧
      env3.faults = Faults.none ∧ (∀ f ∈ oneRef.files, f.id ≠ env2.fileID) ∧
      oneRef.cache.lookup ("file:" ++ env2.fileID) = none ∧
      (∀ s, oneRef.blob (checksumOf helloWorld) = some s →
        oneRef.object s.StoragePath = some helloWorld ∧ s.StoragePath ≠ env2.path)) ∧
    ∃ f g,
      (StorageService.Upload oneRef env2 helloWorld header2).1 = .ok f ∧
      (StorageService.Download (StorageService.Upload oneRef env2 helloWorld header2).2
          env3 f.ID).1 = .ok (helloWorld, g) ∧
      g.GetContentType = f.GetContentType ∧ g.ID = f.ID ∧ g.Name = f.Name :=
  have h1 : validator.ValidateFile header2 = none := by decide
  have h4 : ∀ f ∈ oneRef.files, f.id ≠ env2.fileID := by decide
  have h5 : oneRef.cache.lookup ("file:" ++ env2.fileID) = none := by decide
  have h6 : ∀ s, oneRef.blob (checksumOf helloWorld) = some s →
      oneRef.object s.StoragePath = some helloWorld ∧ s.StoragePath ≠ env2.path := by
    intro s hs
    have hb : oneRef.blob (checksumOf helloWorld) = some oneRefBlob := by decide
    rw [hb] at hs
    cases hs
    decide
  ⟨⟨h1, rfl, rfl, h4, h5, h6⟩,
    download_after_upload oneRef env2 env3 helloWorld header2 h1 rfl rfl h4 h5 h6⟩

/-- C5: for a valid header and content with no blob yet, every call
succeeding, `Upload` creates a blob record whose hash is the lowercase hex
SHA-256 of the content, with reference count 1, the byte count returned by
`Put` as size, the declared content type and the candidate location, and
returns a file with the header's name and that hash; for "Hello, World!" the
hash is dffd6021...986f and the size is 13. -/
theorem upload_creates_blob (w : World) (e : Env) (B : List UInt8) (header : model.FileHeader)
    (hv : validator.ValidateFile header = none) (hf : e.faults = Faults.none)
    (hb : w.blob (checksumOf B) = none) :
    (∃ f n,
      (StorageService.Upload w e B header).1 = .ok f ∧
      f.Name = header.Name ∧ f.StorageHash = hexEncodeToString (SHA256.sum256 B) ∧
      (Backend.Put w e.faults e.path B header.Size).1 = .ok n ∧
      (StorageService.Upload w e B header).2.blob (hexEncodeToString (SHA256.sum256 B))
        = some ⟨hexEncodeToString (SHA256.sum256 B), n, header.ContentType, e.path, 1,
            e.now, e.now⟩) ∧
    hexEncodeToString (SHA256.sum256 helloWorld)
      = "dffd6021bb2bd5b0af676290809ec3a53191dd81c7f70a4b28688a362182986f" ∧
    (StorageService.Upload World.empty env1 helloWorld header1).2.storage
      = [⟨"dffd6021bb2bd5b0af676290809ec3a53191dd81c7f70a4b28688a362182986f", 13,
          "text/plain", "p1", 1, 10, 10⟩] := by
  refine ⟨⟨missFile e header B, (B.length : Int), ?_, rfl, rfl, ?_, ?_⟩, by decide, by decide⟩
  · rw [upload_miss w e B header hv hf hb]
  · simp [Backend.Put, hf, Faults.none]
  · rw [upload_miss w e B header hv hf hb]
    exact blob_append_new w (newRecord e header B) _ rfl hb

/-- C5 on the empty store with "Hello, World!" uploaded as `file1.txt`. -/
theorem upload_creates_blob_witness :
    (validator.ValidateFile header1 = none ∧ env1.faults = Faults.none ∧
      World.empty.blob (checksumOf helloWorld) = none) ∧
    (∃ f n,
      (StorageService.Upload World.empty env1 helloWorld header1).1 = .ok f ∧
      f.Name = header1.Name ∧ f.StorageHash = hexEncodeToString (SHA256.sum256 helloWorld) ∧
      (Backend.Put World.empty env1.faults env1.path helloWorld header1.Size).1 = .ok n ∧
      (StorageService.Upload World.empty env1 helloWorld header1).2.blob
          (hexEncodeToString (SHA256.sum256 helloWorld))
        = some ⟨hexEncodeToString (SHA256.sum256 helloWorld), n, header1.ContentType,
            env1.path, 1, env1.now, env1.now⟩) :=
  ⟨⟨by decide, rfl, by decide⟩,
    (upload_creates_blob World.empty env1 helloWorld header1 (by decide) rfl (by decide)).1⟩

theorem keyTaken_of_blob {rows : List model.Storage} {hash : String} {s : model.Storage}
    (h : rows.find? (fun s => s.Hash = hash) = some s) :
    FileRepository.storageKeyTaken rows hash = true := by
  simp only [FileRepository.storageKeyTaken, List.any_eq_true]
  exact ⟨s, List.mem_of_find?_eq_some h, by simpa using List.find?_some h⟩

/-- C6: when a blob for the content's hash exists, the file returned by a
successful upload resolves its size, content type and storage path to those of
the existing blob, whatever the header declared. -/
theorem upload_hit_resolves_blob (w : World) (e : Env) (B : List UInt8)
    (header : model.FileHeader) (s : model.Storage) (f : model.File)
    (hb : w.blob (checksumOf B) = some s)
    (hok : (StorageService.Upload w e B header).1 = .ok f) :
    f.GetSize = s.Size ∧ f.GetContentType = s.ContentType ∧
    f.GetStoragePath = s.StoragePath := by
  unfold World.blob at hb
  have hk := keyTaken_of_blob hb
  unfold StorageService.Upload at hok
  cases hv : validator.ValidateFile header with
  | some msg => simp [hv] at hok
  | none =>
    cases hput : e.faults.put with
    | fails => simp [hv, Backend.Put, hput] at hok
    | failsAfter n => simp [hv, Backend.Put, hput] at hok
    | ok =>
      by_cases hg : e.faults.getStorageByHash = true
      · by_cases hcs : e.faults.createStorage = true
        · simp [hv, Backend.Put, hput, FileRepository.GetStorageByHash, hg, World.record,
            FileRepository.CreateStorage, hcs] at hok
        · simp [hv, Backend.Put, hput, FileRepository.GetStorageByHash, hg, World.record,
            FileRepository.CreateStorage, hcs, hk] at hok
      · by_cases hi : e.faults.incrementStorageRef = true
        · simp [hv, Backend.Put, hput, FileRepository.GetStorageByHash, hg, World.record, hb,
            FileRepository.IncrementStorageRef, hi] at hok
        · by_cases hc : e.faults.createFileReference = true
          · simp [hv, Backend.Put, hput, FileRepository.GetStorageByHash, hg, World.record, hb,
              FileRepository.IncrementStorageRef, hi, FileRepository.CreateFileReference,
              hc] at hok
          · simp [hv, Backend.Put, hput, FileRepository.GetStorageByHash, hg, World.record, hb,
              FileRepository.IncrementStorageRef, hi, FileRepository.CreateFileReference,
              hc] at hok
            subst hok
            simp [model.File.GetSize, model.File.GetContentType, model.File.GetStoragePath]

/-- C6 on the store that holds "Hello, World!" as 13 bytes of `text/plain`,
with a header declaring 99 bytes of `text/plain; charset=utf-8`. -/
theorem upload_hit_resolves_blob_witness :
    (oneRef.blob (checksumOf helloWorld) = some oneRefBlob ∧
      (StorageService.Upload oneRef env2 helloWorld headerOther).1
        = .ok (hitFile env2 headerOther helloHash oneRefBlob)) ∧
    ((hitFile env2 headerOther helloHash oneRefBlob).GetSize = oneRefBlob.Size ∧
      (hitFile env2 headerOther helloHash oneRefBlob).GetContentType = oneRefBlob.ContentType ∧
      (hitFile env2 headerOther helloHash oneRefBlob).GetStoragePath
        = oneRefBlob.StoragePath) :=
  ⟨⟨by decide, by decide⟩,
    upload_hit_resolves_blob oneRef env2 helloWorld headerOther oneRefBlob
      (hitFile env2 headerOther helloHash oneRefBlob) (by decide) (by decide)⟩

/-- C7 (what the code does): on the empty store, an upload of "Hello, World!"
during which only `CreateFileReference` fails calls `DeleteStorage`, whose
guard `reference_count = 0` does not match the row just created with count 1:
when `Upload` returns, the blob record is still there, with no file record and
no object at its storage path. -/
theorem failed_reference_leaves_blob :
    (StorageService.Upload World.empty envRefFails helloWorld header1).1
      = .error (.database "CreateFileReference") ∧
    (StorageService.Upload World.empty envRefFails helloWorld header1).2.blob helloHash
      = some ⟨helloHash, 13, "text/plain", "p2", 1, 20, 20⟩ ∧
    (StorageService.Upload World.empty envRefFails helloWorld header1).2.files = [] ∧
    (StorageService.Upload World.empty envRefFails helloWorld header1).2.object "p2" = none ∧
    Call.DeleteStorage helloHash
      ∈ (StorageService.Upload World.empty envRefFails helloWorld header1).2.log := by
  decide

/-- C8: on the hit path, when `CreateFileReference` fails after a successful
`IncrementStorageRef`, `Upload` returns that error and calls
`DecrementStorageRef` exactly once, after which (the decrement taking effect)
the blob's reference count is what it was before the upload; when
`IncrementStorageRef` fails, `Upload` returns its error, `CreateFileReference`
is not called and no row changes. -/
theorem hit_path_rollback (w : World) (e : Env) (B : List UInt8) (header : model.FileHeader)
    (s : model.Storage)
    (hv : validator.ValidateFile header = none)
    (hb : w.blob (checksumOf B) = some s)
    (hput : e.faults.put = .ok) (hg : e.faults.getStorageByHash = false) :
    (e.faults.incrementStorageRef = false → e.faults.createFileReference = true →
      e.faults.decrementStorageRef = false →
      (StorageService.Upload w e B header).1 = .error (.database "CreateFileReference") ∧
      (∃ s2, (StorageService.Upload w e B header).2.blob (checksumOf B) = some s2 ∧
        s2.ReferenceCount = s.ReferenceCount) ∧
      (StorageService.Upload w e B header).2.files = w.files ∧
      (StorageService.Upload w e B header).2.log
        = w.log ++ [.Put e.path header.Size, .GetStorageByHash (checksumOf B), .Delete e.path,
            .IncrementStorageRef (checksumOf B),
            .CreateFileReference (hitFile e header (checksumOf B) s),
            .DecrementStorageRef (checksumOf B)]) ∧
    (e.faults.incrementStorageRef = true →
      (StorageService.Upload w e B header).1 = .error (.database "IncrementStorageRef") ∧
      (StorageService.Upload w e B header).2.storage = w.storage ∧
      (StorageService.Upload w e B header).2.files = w.files ∧
      (StorageService.Upload w e B header).2.log
        = w.log ++ [.Put e.path header.Size, .GetStorageByHash (checksumOf B), .Delete e.path,
            .IncrementStorageRef (checksumOf B)]) := by
  unfold World.blob at hb
  have hinc := find?_map_incRow w.storage (checksumOf B) e.dbNow
  rw [hb] at hinc
  have hdec := find?_map_decRow (w.storage.map (FileRepository.incRow (checksumOf B) e.dbNow))
    (checksumOf B) e.dbNow
  rw [hinc] at hdec
  have hsh : s.Hash = checksumOf B := by simpa using List.find?_some hb
  constructor
  · intro hi hc hd
    have hst : (StorageService.Upload w e B header).1 = .error (.database "CreateFileReference") ∧
        (StorageService.Upload w e B header).2.storage
          = (w.storage.map (FileRepository.incRow (checksumOf B) e.dbNow)).map
              (FileRepository.decRow (checksumOf B) e.dbNow) ∧
        (StorageService.Upload w e B header).2.files = w.files ∧
        (StorageService.Upload w e B header).2.log
          = w.log ++ [.Put e.path header.Size, .GetStorageByHash (checksumOf B),
              .Delete e.path, .IncrementStorageRef (checksumOf B),
              .CreateFileReference (hitFile e header (checksumOf B) s),
              .DecrementStorageRef (checksumOf B)] := by
      unfold StorageService.Upload
      by_cases hbd : e.faults.backendDelete = true
      · simp [hv, Backend.Put, hput, FileRepository.GetStorageByHash, hg, World.record, hb,
          Backend.Delete, hbd, FileRepository.IncrementStorageRef, hi,
          FileRepository.CreateFileReference, hc, FileRepository.DecrementStorageRef, hd, hinc,
          hitFile, -List.map_map]
      · simp [hv, Backend.Put, hput, FileRepository.GetStorageByHash, hg, World.record, hb,
          Backend.Delete, hbd, FileRepository.IncrementStorageRef, hi,
          FileRepository.CreateFileReference, hc, FileRepository.DecrementStorageRef, hd, hinc,
          hitFile, -List.map_map]
    refine ⟨hst.1, ⟨FileRepository.decRow (checksumOf B) e.dbNow
      (FileRepository.incRow (checksumOf B) e.dbNow s), ?_, ?_⟩, hst.2.2.1, hst.2.2.2⟩
    · show List.find? _ (StorageService.Upload w e B header).2.storage = _
      rw [hst.2.1]
      exact hdec
    · simp [FileRepository.incRow, FileRepository.decRow, hsh]
  · intro hi
    unfold StorageService.Upload
    by_cases hbd : e.faults.backendDelete = true
    · simp [hv, Backend.Put, hput, FileRepository.GetStorageByHash, hg, World.record, hb,
        Backend.Delete, hbd, FileRepository.IncrementStorageRef, hi]
    · simp [hv, Backend.Put, hput, FileRepository.GetStorageByHash, hg, World.record, hb,
        Backend.Delete, hbd, FileRepository.IncrementStorageRef, hi]

/-- C8 on the store that holds "Hello, World!" once: an upload of the same
bytes during which only `CreateFileReference` fails leaves the count at 1. -/
theorem hit_path_rollback_witness :
    (validator.ValidateFile header2 = none ∧
      oneRef.blob (checksumOf helloWorld) = some oneRefBlob ∧
      envRefFails.faults.put = .ok ∧ envRefFails.faults.getStorageByHash = false) ∧
    ((StorageService.Upload oneRef envRefFails helloWorld header2).1
        = .error (.database "CreateFileReference") ∧
      (∃ s2, (StorageService.Upload oneRef envRefFails helloWorld header2).2.blob
          (checksumOf helloWorld) = some s2 ∧
        s2.ReferenceCount = oneRefBlob.ReferenceCount) ∧
      (StorageService.Upload oneRef envRefFails helloWorld header2).2.files = oneRef.files ∧
      (StorageService.Upload oneRef envRefFails helloWorld header2).2.log
        = oneRef.log ++ [.Put envRefFails.path header2.Size,
            .GetStorageByHash (checksumOf helloWorld), .Delete envRefFails.path,
            .IncrementStorageRef (checksumOf helloWorld),
            .CreateFileReference (hitFile envRefFails header2 (checksumOf helloWorld) oneRefBlob),
            .DecrementStorageRef (checksumOf helloWorld)]) :=
  ⟨⟨by decide, by decide, rfl, rfl⟩,
    (hit_path_rollback oneRef envRefFails helloWorld header2 oneRefBlob
      (by decide) (by decide) rfl rfl).1 rfl rfl rfl⟩

/-- C9 fails: on the empty store, an upload of the 13 bytes "Hello, World!"
under a header declaring 14 bytes succeeds and creates a blob and a file
record. -/
theorem size_mismatch_accepted :
    (Backend.Put World.empty env1.faults env1.path helloWorld header14.Size).1 = .ok 13 ∧
    header14.Size = 14 ∧
    (StorageService.Upload World.empty env1 helloWorld header14).1
      = .ok (missFile env1 header14 helloWorld) ∧
    (StorageService.Upload World.empty env1 helloWorld header14).2.storage
      = [⟨helloHash, 13, "text/plain", "p1", 1, 10, 10⟩] ∧
    (StorageService.Upload World.empty env1 helloWorld header14).2.files
      = [⟨"f1", "file1.txt", helloHash, 10⟩] := by
  decide

/-- C9 as amended: `Upload` does not compare the number of bytes written by
`Put` with the declared size. For every valid header and content whose length
differs from the declared size, every call succeeding, `Upload` returns a
file, adds its record, and the blob for the content exists afterwards; a blob
created by this upload records the number of bytes written as its size. -/
theorem size_mismatch_upload_succeeds (w : World) (e : Env) (B : List UInt8)
    (header : model.FileHeader)
    (hv : validator.ValidateFile header = none) (hf : e.faults = Faults.none)
    (_hsize : (Backend.Put w e.faults e.path B header.Size).1 ≠ .ok header.Size) :
    ∃ f s,
      (StorageService.Upload w e B header).1 = .ok f ∧
      (StorageService.Upload w e B header).2.files = w.files ++ [rowOf f] ∧
      (StorageService.Upload w e B header).2.blob (checksumOf B) = some s ∧
      (w.blob (checksumOf B) = none →
        (Backend.Put w e.faults e.path B header.Size).1 = .ok s.Size ∧
        f.GetSize = s.Size) := by
  cases hb : w.blob (checksumOf B) with
  | none =>
    rw [upload_miss w e B header hv hf hb]
    refine ⟨missFile e header B, newRecord e header B, rfl, rfl, ?_, ?_⟩
    · exact blob_append_new w (newRecord e header B) _ rfl hb
    · intro _
      simp [Backend.Put, hf, Faults.none, newRecord, missFile, model.File.GetSize]
  | some s =>
    rw [upload_hit w e B header s hv hf hb]
    refine ⟨hitFile e header (checksumOf B) s,
      FileRepository.incRow (checksumOf B) e.dbNow s, rfl, rfl, ?_, ?_⟩
    · show List.find? _ (List.map _ _) = _
      have := find?_map_incRow w.storage (checksumOf B) e.dbNow
      unfold World.blob at hb
      rw [hb] at this
      exact this
    · intro h
      simp at h

/-- C9 as amended, on the empty store with 13 bytes declared as 14. -/
theorem size_mismatch_upload_succeeds_witness :
    (validator.ValidateFile header14 = none ∧ env1.faults = Faults.none ∧
      (Backend.Put World.empty env1.faults env1.path helloWorld header14.Size).1
        ≠ .ok header14.Size) ∧
    ∃ f s,
      (StorageService.Upload World.empty env1 helloWorld header14).1 = .ok f ∧
      (StorageService.Upload World.empty env1 helloWorld header14).2.files
        = World.empty.files ++ [rowOf f] ∧
      (StorageService.Upload World.empty env1 helloWorld header14).2.blob
        (checksumOf helloWorld) = some s ∧
      (World.empty.blob (checksumOf helloWorld) = none →
        (Backend.Put World.empty env1.faults env1.path helloWorld header14.Size).1
          = .ok s.Size ∧
        f.GetSize = s.Size) :=
  ⟨⟨by decide, rfl, by decide⟩,
    size_mismatch_upload_succeeds World.empty env1 helloWorld header14
      (by decide) rfl (by decide)⟩

/-- C10 (what the code does): on the store where two files share the blob of
"Hello, World!", a delete of the first file during which `DecrementStorageRef`
fails reads the zero value as the new count and cleans up: the backend `Delete`
and `DeleteStorage` are called, the physical object is removed, while the blob
record (count still 2) and the second file record remain. -/
theorem failed_decrement_removes_object :
    twoRefs.object "p1" = some helloWorld ∧
    (StorageService.Delete twoRefs envDecFails "f1").1 = none ∧
    (StorageService.Delete twoRefs envDecFails "f1").2.object "p1" = none ∧
    (StorageService.Delete twoRefs envDecFails "f1").2.blob helloHash = some twoRefsBlob ∧
    (StorageService.Delete twoRefs envDecFails "f1").2.files
      = [⟨"f2", "file2.txt", helloHash, 20⟩] ∧
    (StorageService.Delete twoRefs envDecFails "f1").2.log
      = twoRefs.log ++ [.GetStorageHashByFileID "f1", .DeleteByID "f1",
          .DecrementStorageRef helloHash, .GetStorageByHash helloHash, .Delete "p1",
          .DeleteStorage helloHash] := by
  decide

/-- C11 (what the code does): the cache entry written by a first `GetByID` is
the JSON form of the file, which omits both `StoragePath` fields (tag
`json:"-"`). On the store holding "Hello, World!" at `p1`, the first download
of `f1` yields the bytes; the second one is answered from the cache with a
file whose `GetStoragePath()` is empty, while the durable store still gives
`p1`, and it opens the empty location instead of `p1`. -/
theorem cached_file_loses_storage_path :
    (StorageService.Download oneRef env3 "f1").1
      = .ok (helloWorld, FileRepository.joined ⟨"f1", "file1.txt", helloHash, 10⟩ oneRefBlob) ∧
    (FileRepository.joined ⟨"f1", "file1.txt", helloHash, 10⟩ oneRefBlob).GetStoragePath
      = "p1" ∧
    (FileRepository.GetByID oneRefRead Faults.none "f1").1
      = .ok (FileRepository.jsonFile
          (FileRepository.joined ⟨"f1", "file1.txt", helloHash, 10⟩ oneRefBlob)) ∧
    (FileRepository.jsonFile
      (FileRepository.joined ⟨"f1", "file1.txt", helloHash, 10⟩ oneRefBlob)).GetStoragePath
      = "" ∧
    FileRepository.joinByID oneRefRead "f1"
      = some (FileRepository.joined ⟨"f1", "file1.txt", helloHash, 10⟩ oneRefBlob) ∧
    (StorageService.Download oneRefRead env3 "f1").1 = .error (.notExist "") ∧
    Call.Get "" ∈ (StorageService.Download oneRefRead env3 "f1").2.log := by
  decide

/-- C12: when the lookup and the deletion of the file record succeed and
`DecrementStorageRef` returns a count greater than 0, `Delete` returns no
error and makes no further call: neither the backend `Delete` nor
`DeleteStorage` is called, the blob record remains with its count lowered by
exactly one, and the objects of the backend are untouched. -/
theorem delete_not_last_reference (w : World) (e : Env) (id : String) (f : FileRow)
    (s : model.Storage)
    (hg : e.faults.getStorageHashByFileID = false) (hd : e.faults.deleteByID = false)
    (hdec : e.faults.decrementStorageRef = false)
    (hrow : w.files.find? (fun f => f.id = id) = some f) (hh : f.storage_hash ≠ "")
    (hb : w.blob f.storage_hash = some s) (hc : 0 < s.ReferenceCount - 1) :
    (StorageService.Delete w e id).1 = none ∧
    (StorageService.Delete w e id).2.log
      = w.log ++ [.GetStorageHashByFileID id, .DeleteByID id,
          .DecrementStorageRef f.storage_hash] ∧
    (∃ s2, (StorageService.Delete w e id).2.blob f.storage_hash = some s2 ∧
      s2.ReferenceCount = s.ReferenceCount - 1 ∧ s2.StoragePath = s.StoragePath) ∧
    (StorageService.Delete w e id).2.objects = w.objects := by
  have hb2 := find?_map_decRow w.storage f.storage_hash e.dbNow
  unfold World.blob at hb
  rw [hb] at hb2
  have hne : s.ReferenceCount - 1 ≠ 0 := by omega
  have hsh : s.Hash = f.storage_hash := by simpa using List.find?_some hb
  have hall : (StorageService.Delete w e id).1 = none ∧
      (StorageService.Delete w e id).2.log
        = w.log ++ [.GetStorageHashByFileID id, .DeleteByID id,
            .DecrementStorageRef f.storage_hash] ∧
      (StorageService.Delete w e id).2.storage
        = w.storage.map (FileRepository.decRow f.storage_hash e.dbNow) ∧
      (StorageService.Delete w e id).2.objects = w.objects := by
    unfold StorageService.Delete
    by_cases hcd : e.faults.cacheDown = true
    · simp [FileRepository.GetStorageHashByFileID, hg, World.record, hrow, hh,
        FileRepository.DeleteByID, hd, FileRepository.cacheDel, hcd,
        FileRepository.DecrementStorageRef, hdec, hb, hne]
    · simp [FileRepository.GetStorageHashByFileID, hg, World.record, hrow, hh,
        FileRepository.DeleteByID, hd, FileRepository.cacheDel, hcd,
        FileRepository.DecrementStorageRef, hdec, hb, hne]
  refine ⟨hall.1, hall.2.1, ⟨FileRepository.decRow f.storage_hash e.dbNow s, ?_, ?_, ?_⟩,
    hall.2.2.2⟩
  · show List.find? _ (StorageService.Delete w e id).2.storage = _
    rw [hall.2.2.1]
    exact hb2
  · simp [FileRepository.decRow, hsh]
  · exact decRow_StoragePath _ _ _

/-- C12 on the store where two files share the blob of "Hello, World!". -/
theorem delete_not_last_reference_witness :
    (env3.faults.getStorageHashByFileID = false ∧ env3.faults.deleteByID = false ∧
      env3.faults.decrementStorageRef = false ∧
      twoRefs.files.find? (fun f => f.id = "f1") = some ⟨"f1", "file1.txt", helloHash, 10⟩ ∧
      helloHash ≠ "" ∧ twoRefs.blob helloHash = some twoRefsBlob ∧
      0 < twoRefsBlob.ReferenceCount - 1) ∧
    ((StorageService.Delete twoRefs env3 "f1").1 = none ∧
      (StorageService.Delete twoRefs env3 "f1").2.log
        = twoRefs.log ++ [.GetStorageHashByFileID "f1", .DeleteByID "f1",
            .DecrementStorageRef helloHash] ∧
      (∃ s2, (StorageService.Delete twoRefs env3 "f1").2.blob helloHash = some s2 ∧
        s2.ReferenceCount = twoRefsBlob.ReferenceCount - 1 ∧
        s2.StoragePath = twoRefsBlob.StoragePath) ∧
      (StorageService.Delete twoRefs env3 "f1").2.objects = twoRefs.objects) :=
  ⟨⟨rfl, rfl, rfl, by decide, by decide, by decide, by decide⟩,
    delete_not_last_reference twoRefs env3 "f1" ⟨"f1", "file1.txt", helloHash, 10⟩ twoRefsBlob
      rfl rfl rfl (by decide) (by decide) (by decide) (by decide)⟩

theorem log_GetStorageHashByFileID (w : World) (ft : Faults) (id : String) :
    (FileRepository.GetStorageHashByFileID w ft id).2.log
      = w.log ++ [.GetStorageHashByFileID id] := by
  unfold FileRepository.GetStorageHashByFileID
  simp only [World.record]
  split
  · rfl
  · split
    · rfl
    · split <;> rfl

theorem log_DeleteByID (w : World) (ft : Faults) (id : String) :
    (FileRepository.DeleteByID w ft id).2.log = w.log ++ [.DeleteByID id] := by
  unfold FileRepository.DeleteByID FileRepository.cacheDel
  simp only [World.record]
  by_cases h1 : ft.deleteByID = true <;> by_cases h2 : ft.cacheDown = true <;> simp [h1, h2]

theorem log_DecrementStorageRef (w : World) (e : Env) (h : String) :
    (FileRepository.DecrementStorageRef w e h).2.log = w.log ++ [.DecrementStorageRef h] := by
  unfold FileRepository.DecrementStorageRef
  simp only [World.record]
  split
  · rfl
  · split <;> rfl

theorem log_GetStorageByHash (w : World) (ft : Faults) (h : String) :
    (FileRepository.GetStorageByHash w ft h).2.log = w.log ++ [.GetStorageByHash h] := by
  unfold FileRepository.GetStorageByHash
  simp only [World.record]
  split
  · rfl
  · split <;> rfl

theorem log_BackendDelete (w : World) (ft : Faults) (path : String) :
    (Backend.Delete w ft path).2.log = w.log ++ [.Delete path] := by
  unfold Backend.Delete
  simp only [World.record]
  split <;> rfl

theorem log_DeleteStorage (w : World) (ft : Faults) (h : String) :
    (FileRepository.DeleteStorage w ft h).2.log = w.log ++ [.DeleteStorage h] := by
  unfold FileRepository.DeleteStorage
  simp only [World.record]
  split <;> rfl

/-- C13: when the file record has been looked up and deleted and
`DecrementStorageRef` returns 0, `Delete` looks the blob up by the file's hash
and, the blob being found, calls the backend `Delete` on its storage path,
then `DeleteStorage` on the hash, in this order and each exactly once, and
returns no error, whatever the outcome of the last two calls. -/
theorem delete_last_reference (w : World) (e : Env) (id h : String) (s : model.Storage)
    (hlookup : (FileRepository.GetStorageHashByFileID w e.faults id).1 = .ok h)
    (hdel : (FileRepository.DeleteByID (FileRepository.GetStorageHashByFileID w e.faults id).2
      e.faults id).1 = none)
    (hzero : (FileRepository.DecrementStorageRef
      (FileRepository.DeleteByID (FileRepository.GetStorageHashByFileID w e.faults id).2
        e.faults id).2 e h).1.1 = 0)
    (hblob : (FileRepository.GetStorageByHash
      (FileRepository.DecrementStorageRef
        (FileRepository.DeleteByID (FileRepository.GetStorageHashByFileID w e.faults id).2
          e.faults id).2 e h).2 e.faults h).1 = .ok s) :
    (StorageService.Delete w e id).1 = none ∧
    (StorageService.Delete w e id).2.log
      = w.log ++ [.GetStorageHashByFileID id, .DeleteByID id, .DecrementStorageRef h,
          .GetStorageByHash h, .Delete s.StoragePath, .DeleteStorage h] := by
  have l1 := log_GetStorageHashByFileID w e.faults id
  unfold StorageService.Delete
  cases hr : FileRepository.GetStorageHashByFileID w e.faults id with
  | mk r w1 =>
    rw [hr] at hlookup hdel hzero hblob l1
    simp only at hlookup hdel hzero hblob l1
    subst hlookup
    simp only
    have l2 := log_DeleteByID w1 e.faults id
    cases hr2 : FileRepository.DeleteByID w1 e.faults id with
    | mk r2 w2 =>
      rw [hr2] at hdel hzero hblob l2
      simp only at hdel hzero hblob l2
      subst hdel
      simp only
      have l3 := log_DecrementStorageRef w2 e h
      cases hr3 : FileRepository.DecrementStorageRef w2 e h with
      | mk p w3 =>
        obtain ⟨n, err⟩ := p
        rw [hr3] at hzero hblob l3
        simp only at hzero hblob l3
        subst hzero
        simp only [if_true]
        have l4 := log_GetStorageByHash w3 e.faults h
        cases hr4 : FileRepository.GetStorageByHash w3 e.faults h with
        | mk r4 w4 =>
          rw [hr4] at hblob l4
          simp only at hblob l4
          subst hblob
          simp only
          refine ⟨trivial, ?_⟩
          rw [log_DeleteStorage, log_BackendDelete, l4, l3, l2, l1]
          simp

/-- C13 on the store holding "Hello, World!" once, the physical delete and
`DeleteStorage` both failing. -/
theorem delete_last_reference_witness :
    ((FileRepository.GetStorageHashByFileID oneRef envPhysicalFails.faults "f1").1
        = .ok helloHash ∧
      (FileRepository.DeleteByID
        (FileRepository.GetStorageHashByFileID oneRef envPhysicalFails.faults "f1").2
        envPhysicalFails.faults "f1").1 = none ∧
      (FileRepository.DecrementStorageRef
        (FileRepository.DeleteByID
          (FileRepository.GetStorageHashByFileID oneRef envPhysicalFails.faults "f1").2
          envPhysicalFails.faults "f1").2 envPhysicalFails helloHash).1.1 = 0 ∧
      (FileRepository.GetStorageByHash
        (FileRepository.DecrementStorageRef
          (FileRepository.DeleteByID
            (FileRepository.GetStorageHashByFileID oneRef envPhysicalFails.faults "f1").2
            envPhysicalFails.faults "f1").2 envPhysicalFails helloHash).2
        envPhysicalFails.faults helloHash).1
        = .ok ⟨helloHash, 13, "text/plain", "p1", 0, 10, 31⟩) ∧
    ((StorageService.Delete oneRef envPhysicalFails "f1").1 = none ∧
      (StorageService.Delete oneRef envPhysicalFails "f1").2.log
        = oneRef.log ++ [.GetStorageHashByFileID "f1", .DeleteByID "f1",
            .DecrementStorageRef helloHash, .GetStorageByHash helloHash,
            .Delete (⟨helloHash, 13, "text/plain", "p1", 0, 10, 31⟩ : model.Storage).StoragePath,
            .DeleteStorage helloHash]) :=
  ⟨⟨by decide, by decide, by decide, by decide⟩,
    delete_last_reference oneRef envPhysicalFails "f1" helloHash
      ⟨helloHash, 13, "text/plain", "p1", 0, 10, 31⟩
      (by decide) (by decide) (by decide) (by decide)⟩

/-- C14: once the lookup has succeeded and `DeleteByID` has deleted the file
record, `Delete` returns no error, whatever the outcome of
`DecrementStorageRef`, of the blob lookup, of the backend `Delete` and of
`DeleteStorage`. -/
theorem delete_cleanup_never_fails (w : World) (e : Env) (id h : String)
    (hlookup : (FileRepository.GetStorageHashByFileID w e.faults id).1 = .ok h)
    (hdel : (FileRepository.DeleteByID (FileRepository.GetStorageHashByFileID w e.faults id).2
      e.faults id).1 = none) :
    (StorageService.Delete w e id).1 = none := by
  unfold StorageService.Delete
  cases hr : FileRepository.GetStorageHashByFileID w e.faults id with
  | mk r w1 =>
    rw [hr] at hlookup hdel
    simp only at hlookup hdel
    subst hlookup
    simp only
    cases hr2 : FileRepository.DeleteByID w1 e.faults id with
    | mk r2 w2 =>
      rw [hr2] at hdel
      simp only at hdel
      subst hdel
      simp only
      cases hr3 : FileRepository.DecrementStorageRef w2 e h with
      | mk p w3 =>
        obtain ⟨n, err⟩ := p
        simp only
        split
        · cases hr4 : FileRepository.GetStorageByHash w3 e.faults h with
          | mk r4 w4 => cases r4 <;> rfl
        · rfl

/-- C14 on the store with two files, every step after `DeleteByID` failing. -/
theorem delete_cleanup_never_fails_witness :
    ((FileRepository.GetStorageHashByFileID twoRefs envCleanupFails.faults "f1").1
        = .ok helloHash ∧
      (FileRepository.DeleteByID
        (FileRepository.GetStorageHashByFileID twoRefs envCleanupFails.faults "f1").2
        envCleanupFails.faults "f1").1 = none) ∧
    (StorageService.Delete twoRefs envCleanupFails "f1").1 = none :=
  ⟨⟨by decide, by decide⟩,
    delete_cleanup_never_fails twoRefs envCleanupFails "f1" helloHash (by decide) (by decide)⟩

/-- C15: when the lookup `GetStorageHashByFileID` fails, `Delete` returns that
error and the lookup is its only call: tables, cache and objects are as
before, and neither `DeleteByID`, `DecrementStorageRef`, `DeleteStorage` nor
the backend `Delete` is called. -/
theorem delete_lookup_failure (w : World) (e : Env) (id : String) (err : Err)
    (hlookup : (FileRepository.GetStorageHashByFileID w e.faults id).1 = .error err) :
    StorageService.Delete w e id
      = (some err, { w with log := w.log ++ [.GetStorageHashByFileID id] }) := by
  unfold StorageService.Delete
  unfold FileRepository.GetStorageHashByFileID at hlookup ⊢
  by_cases hg : e.faults.getStorageHashByFileID = true
  · simp [hg, World.record] at hlookup ⊢
    exact hlookup
  · cases hrow : w.files.find? (fun f => f.id = id) with
    | none =>
      simp [hg, World.record, hrow] at hlookup ⊢
      exact hlookup
    | some f =>
      by_cases hh : f.storage_hash = ""
      · simp [hg, World.record, hrow, hh] at hlookup ⊢
        exact hlookup
      · simp [hg, World.record, hrow, hh] at hlookup

/-- C15 on the store with two files, for an identifier that has no record. -/
theorem delete_lookup_failure_witness :
    (FileRepository.GetStorageHashByFileID twoRefs env3.faults "nope").1 = .error .noRows ∧
    StorageService.Delete twoRefs env3 "nope"
      = (some .noRows, { twoRefs with log := twoRefs.log ++ [.GetStorageHashByFileID "nope"] }) :=
  ⟨by decide, delete_lookup_failure twoRefs env3 "nope" .noRows (by decide)⟩

/-- C19: `DeleteStorage(hash)` removes a storage record only if its hash is
`hash` and its reference count is exactly 0, and when the statement runs it
removes every such record; when no record of that hash has count 0, every
record of both tables, the cache and the objects are left as they are. -/
theorem deleteStorage_only_at_zero (w : World) (ft : Faults) (hash : String) :
    (∀ s ∈ w.storage, s ∉ (FileRepository.DeleteStorage w ft hash).2.storage →
      s.Hash = hash ∧ s.ReferenceCount = 0) ∧
    (∀ s ∈ (FileRepository.DeleteStorage w ft hash).2.storage, s ∈ w.storage) ∧
    (ft.deleteStorage = false → ∀ s ∈ (FileRepository.DeleteStorage w ft hash).2.storage,
      ¬ (s.Hash = hash ∧ s.ReferenceCount = 0)) ∧
    ((∀ s ∈ w.storage, s.Hash = hash → s.ReferenceCount ≠ 0) →
      (FileRepository.DeleteStorage w ft hash).2
        = { w with log := w.log ++ [.DeleteStorage hash] }) ∧
    (FileRepository.DeleteStorage w ft hash).2.files = w.files := by
  unfold FileRepository.DeleteStorage
  by_cases hf : ft.deleteStorage = true
  · rw [if_pos hf]
    exact ⟨fun s hs hnot => absurd hs hnot, fun s hs => hs, fun h => by simp [hf] at h,
      fun _ => rfl, rfl⟩
  · rw [if_neg hf]
    refine ⟨?_, ?_, ?_, ?_, rfl⟩
    · intro s hs hnot
      by_contra hcon
      exact hnot (List.mem_filter.mpr ⟨hs, decide_eq_true hcon⟩)
    · intro s hs
      exact (List.mem_filter.mp hs).1
    · intro _ s hs
      exact of_decide_eq_true (List.mem_filter.mp hs).2
    · intro hall
      have : w.storage.filter (fun s => ¬ (s.Hash = hash ∧ s.ReferenceCount = 0)) = w.storage := by
        rw [List.filter_eq_self]
        intro s hs
        exact decide_eq_true (fun hcon => hall s hs hcon.1 hcon.2)
      simp only [World.record]
      rw [this]

theorem lookup_filter_self {α : Type} (k : String) (l : List (String × α)) :
    (l.filter (fun kv => kv.1 ≠ k)).lookup k = none := by
  apply lookup_none_of_forall
  intro o ho
  simpa using (List.mem_filter.mp ho).2

theorem rowOf_joined (f : FileRow) (s : model.Storage) :
    rowOf (FileRepository.joined f s) = f := rfl

theorem joined_rows (rows : List model.Storage) (l : List FileRow)
    (hall : ∀ f ∈ l, ∃ s, rows.find? (fun s => s.Hash = f.storage_hash) = some s) :
    (l.filterMap (fun f =>
        (rows.find? (fun s => s.Hash = f.storage_hash)).map (FileRepository.joined f))).map rowOf
      = l := by
  induction l with
  | nil => rfl
  | cons a l ih =>
    obtain ⟨s, hs⟩ := hall a (List.mem_cons_self _ _)
    rw [List.filterMap_cons, hs]
    simp only [Option.map_some', List.map_cons, rowOf_joined]
    rw [ih (fun f hf => hall f (List.mem_cons_of_mem _ hf))]

/-- A `List` that finds no cache entry is answered from the tables. -/
theorem list_from_store (w : World) (ft : Faults) (hl : ft.list = false)
    (hc : w.cache.lookup "file_list" = none) :
    (FileRepository.List w ft).1
      = .ok (FileRepository.orderByCreatedDesc (FileRepository.joinAll w)) := by
  unfold FileRepository.List FileRepository.cacheGet
  by_cases hcd : ft.cacheDown = true
  · simp [hcd, hl]
  · simp [hcd, hl, hc]

/-- The listed files are the file records, one for one, when none dangles. -/
theorem listed_rows_perm (w : World)
    (hall : ∀ f ∈ w.files, ∃ s, w.blob f.storage_hash = some s) :
    ((FileRepository.orderByCreatedDesc (FileRepository.joinAll w)).map rowOf).Perm w.files := by
  have h1 : (FileRepository.orderByCreatedDesc (FileRepository.joinAll w)).Perm
      (FileRepository.joinAll w) := List.perm_insertionSort _ _
  have h2 := List.Perm.map rowOf h1
  have h3 : (FileRepository.joinAll w).map rowOf = w.files := joined_rows w.storage w.files hall
  rw [h3] at h2
  exact h2

/-- When the cache answers during a successful `CreateFileReference` or
`DeleteByID`, the cache has no entry `file_list` afterwards, so the next `List`
is answered from the tables: it returns the joined rows of that moment, newest
first, which are the stored file records one for one when none dangles; and
after `DeleteByID(id)` the cache has no entry for `id`. -/
theorem invalidation_when_cache_answers (w : World) (ft ft2 : Faults) (file : model.File)
    (id : String) (hup : ft.cacheDown = false) (hl : ft2.list = false) :
    (ft.createFileReference = false →
      (FileRepository.CreateFileReference w ft file).1 = none ∧
      (FileRepository.CreateFileReference w ft file).2.cache.lookup "file_list" = none ∧
      (FileRepository.List (FileRepository.CreateFileReference w ft file).2 ft2).1
        = .ok (FileRepository.orderByCreatedDesc
            (FileRepository.joinAll (FileRepository.CreateFileReference w ft file).2)) ∧
      ((∀ f ∈ (FileRepository.CreateFileReference w ft file).2.files,
          ∃ s, (FileRepository.CreateFileReference w ft file).2.blob f.storage_hash = some s) →
        ((FileRepository.orderByCreatedDesc
            (FileRepository.joinAll (FileRepository.CreateFileReference w ft file).2)).map
              rowOf).Perm (FileRepository.CreateFileReference w ft file).2.files)) ∧
    (ft.deleteByID = false →
      (FileRepository.DeleteByID w ft id).1 = none ∧
      (FileRepository.DeleteByID w ft id).2.cache.lookup "file_list" = none ∧
      (FileRepository.DeleteByID w ft id).2.cache.lookup ("file:" ++ id) = none ∧
      (FileRepository.List (FileRepository.DeleteByID w ft id).2 ft2).1
        = .ok (FileRepository.orderByCreatedDesc
            (FileRepository.joinAll (FileRepository.DeleteByID w ft id).2)) ∧
      ((∀ f ∈ (FileRepository.DeleteByID w ft id).2.files,
          ∃ s, (FileRepository.DeleteByID w ft id).2.blob f.storage_hash = some s) →
        ((FileRepository.orderByCreatedDesc
            (FileRepository.joinAll (FileRepository.DeleteByID w ft id).2)).map
              rowOf).Perm (FileRepository.DeleteByID w ft id).2.files)) := by
  constructor
  · intro hc
    have hcache : (FileRepository.CreateFileReference w ft file).2.cache.lookup "file_list"
        = none := by
      simp only [FileRepository.CreateFileReference, hc, FileRepository.cacheDel, hup,
        World.record]
      exact lookup_filter_self "file_list" w.cache
    refine ⟨?_, hcache, list_from_store _ ft2 hl hcache, listed_rows_perm _⟩
    simp [FileRepository.CreateFileReference, hc]
  · intro hd
    have hcache : (FileRepository.DeleteByID w ft id).2.cache.lookup "file_list" = none := by
      simp only [FileRepository.DeleteByID, hd, FileRepository.cacheDel, hup, World.record]
      exact lookup_filter_self "file_list" _
    refine ⟨?_, hcache, ?_, list_from_store _ ft2 hl hcache, listed_rows_perm _⟩
    · simp [FileRepository.DeleteByID, hd]
    · simp only [FileRepository.DeleteByID, hd, FileRepository.cacheDel, hup, World.record]
      exact lookup_filter_none _ _ _ (lookup_filter_self ("file:" ++ id) w.cache)

/-- While the cache does not answer, a mutation leaves every cache entry as
it was. -/
theorem outage_leaves_cache (w : World) (ft : Faults) (file : model.File) (id : String)
    (hdown : ft.cacheDown = true) :
    (FileRepository.CreateFileReference w ft file).2.cache = w.cache ∧
    (FileRepository.DeleteByID w ft id).2.cache = w.cache := by
  constructor
  · unfold FileRepository.CreateFileReference FileRepository.cacheDel
    by_cases hc : ft.createFileReference = true <;> simp [hc, hdown, World.record]
  · unfold FileRepository.DeleteByID FileRepository.cacheDel
    by_cases hd : ft.deleteByID = true <;> simp [hd, hdown, World.record]

set_option maxRecDepth 100000 in
/-- C20 (what the code does): the cache holds the list and the entry of file
`f1`, both made before the mutation, and does not answer while the mutation
runs. `CreateFileReference` and `DeleteByID` return no error and both entries
stay. The next `List`, the cache answering again, returns the list cached
before the mutation: one file where two are stored, or the deleted file where
none is stored; and `GetByID` still returns the deleted file. -/
theorem outage_mutation_keeps_cached_list :
    oneRefCached.files = [⟨"f1", "file1.txt", helloHash, 10⟩] ∧
    oneRefCached.cache.lookup "file_list" = some (.list [cachedFirst]) ∧
    oneRefCached.cache.lookup "file:f1" = some (.file cachedFirst) ∧
    (FileRepository.CreateFileReference oneRefCached cacheOutage secondFile).1 = none ∧
    (FileRepository.CreateFileReference oneRefCached cacheOutage secondFile).2.files
      = [⟨"f1", "file1.txt", helloHash, 10⟩, ⟨"f2", "file2.txt", helloHash, 20⟩] ∧
    (FileRepository.CreateFileReference oneRefCached cacheOutage secondFile).2.cache.lookup
      "file_list" = some (.list [cachedFirst]) ∧
    (FileRepository.List
      (FileRepository.CreateFileReference oneRefCached cacheOutage secondFile).2 Faults.none).1
      = .ok [cachedFirst] ∧
    (FileRepository.joinAll
      (FileRepository.CreateFileReference oneRefCached cacheOutage secondFile).2).map
        (fun f => f.ID) = ["f1", "f2"] ∧
    (FileRepository.DeleteByID oneRefCached cacheOutage "f1").1 = none ∧
    (FileRepository.DeleteByID oneRefCached cacheOutage "f1").2.files = [] ∧
    (FileRepository.DeleteByID oneRefCached cacheOutage "f1").2.cache.lookup "file_list"
      = some (.list [cachedFirst]) ∧
    (FileRepository.DeleteByID oneRefCached cacheOutage "f1").2.cache.lookup "file:f1"
      = some (.file cachedFirst) ∧
    (FileRepository.List (FileRepository.DeleteByID oneRefCached cacheOutage "f1").2
      Faults.none).1 = .ok [cachedFirst] ∧
    (FileRepository.GetByID (FileRepository.DeleteByID oneRefCached cacheOutage "f1").2
      Faults.none "f1").1 = .ok cachedFirst := by
  decide

theorem splitSep_ne_nil (l : List Char) : filepath.splitSep l ≠ [] := by
  cases l with
  | nil => simp [filepath.splitSep]
  | cons c rest =>
    unfold filepath.splitSep
    split
    · simp
    · split <;> simp

theorem splitSep_no_sep (l : List Char) : ∀ e ∈ filepath.splitSep l, '/' ∉ e := by
  induction l with
  | nil => simp [filepath.splitSep]
  | cons c rest ih =>
    unfold filepath.splitSep
    by_cases hc : c = '/'
    · simp only [hc, if_true]
      intro e he
      rcases List.mem_cons.mp he with h | h
      · subst h; simp
      · exact ih e h
    · simp only [hc, if_false]
      cases hsplit : filepath.splitSep rest with
      | nil => exact absurd hsplit (splitSep_ne_nil rest)
      | cons x xs =>
        rw [hsplit] at ih
        intro e he
        rcases List.mem_cons.mp he with h | h
        · subst h
          intro hmem
          rcases List.mem_cons.mp hmem with h1 | h1
          · exact hc h1.symm
          · exact ih x (List.mem_cons_self _ _) h1
        · exact ih e (List.mem_cons_of_mem _ h)

theorem cleanStep_nameLike (rooted : Bool) (buf : List (List Char)) (elem : List Char)
    (hbuf : ∀ e ∈ buf, filepath.nameLike e) (helem : '/' ∉ elem) :
    ∀ e ∈ filepath.cleanStep rooted buf elem, filepath.nameLike e := by
  unfold filepath.cleanStep
  by_cases h1 : elem = [] ∨ elem = ['.']
  · simp only [h1, if_true]; exact hbuf
  · simp only [h1, if_false]
    have hne : elem ≠ [] := fun h => h1 (Or.inl h)
    have hpush : ∀ e ∈ elem :: buf, filepath.nameLike e := by
      intro e he
      rcases List.mem_cons.mp he with h | h
      · subst h; exact ⟨hne, helem⟩
      · exact hbuf e h
    by_cases h2 : elem = ['.', '.']
    · simp only [h2, if_true]
      cases buf with
      | nil =>
        cases rooted
        · simpa [h2] using hpush
        · simp
      | cons top rest =>
        simp only
        split
        · exact fun e he => hbuf e (List.mem_cons_of_mem _ he)
        · split
          · exact hbuf
          · rw [h2] at hpush; exact hpush
    · simp only [h2, if_false]; exact hpush

theorem foldl_cleanStep_nameLike (rooted : Bool) (elems : List (List Char)) :
    ∀ buf : List (List Char), (∀ e ∈ buf, filepath.nameLike e) → (∀ e ∈ elems, '/' ∉ e) →
      ∀ e ∈ elems.foldl (filepath.cleanStep rooted) buf, filepath.nameLike e := by
  induction elems with
  | nil => intro buf hbuf _; exact hbuf
  | cons x xs ih =>
    intro buf hbuf helems
    rw [List.foldl_cons]
    exact ih _ (cleanStep_nameLike rooted buf x hbuf (helems x (List.mem_cons_self _ _)))
      (fun e he => helems e (List.mem_cons_of_mem _ he))

theorem head_joinSep (l : List (List Char)) (h : ∀ e ∈ l, filepath.nameLike e) :
    (filepath.joinSep l).head? ≠ some '/' := by
  cases l with
  | nil => simp [filepath.joinSep]
  | cons x rest =>
    obtain ⟨hne, hsep⟩ := h x (List.mem_cons_self _ _)
    cases x with
    | nil => exact absurd rfl hne
    | cons c cs =>
      have hc : c ≠ '/' := fun hc => hsep (hc ▸ List.mem_cons_self _ _)
      cases rest with
      | nil => simpa [filepath.joinSep] using hc
      | cons y ys => simpa [filepath.joinSep] using hc

/-- The output of `Clean` is a relative part that does not start with a
separator, possibly after one leading separator. -/
theorem cleanChars_shape (path : List Char) :
    ∃ out : List Char, out.head? ≠ some '/' ∧
      (filepath.cleanChars path = out ∨ filepath.cleanChars path = '/' :: out) := by
  cases path with
  | nil => exact ⟨['.'], by simp, Or.inl rfl⟩
  | cons c rest =>
    have hinv := foldl_cleanStep_nameLike (decide (c = '/')) (filepath.splitSep (c :: rest)) []
      (by simp) (splitSep_no_sep (c :: rest))
    have hhead := head_joinSep
      ((filepath.splitSep (c :: rest)).foldl (filepath.cleanStep (decide (c = '/'))) []).reverse
      (fun e he => hinv e (List.mem_reverse.mp he))
    unfold filepath.cleanChars
    simp only
    by_cases hc : c = '/'
    · simp only [hc, decide_True, if_true] at hhead ⊢
      exact ⟨_, hhead, Or.inr rfl⟩
    · simp only [hc, decide_False, Bool.false_eq_true, if_false] at hhead ⊢
      split
      · exact ⟨['.'], by simp, Or.inl rfl⟩
      · exact ⟨_, hhead, Or.inl rfl⟩

theorem trimmed_clean_not_rooted (userPath : String) :
    validator.HasPrefix (TrimPrefix (filepath.Clean userPath) "/") "/" = false := by
  obtain ⟨out, hout, hshape⟩ := cleanChars_shape userPath.toList
  have hpre : ∀ l : List Char, l.head? ≠ some '/' → ['/'].isPrefixOf l = false := by
    intro l hl
    cases l with
    | nil => rfl
    | cons a as =>
      have : a ≠ '/' := by simpa using hl
      simp [List.isPrefixOf, this, Ne.symm this]
  have hslash : ("/" : String).toList = ['/'] := rfl
  unfold TrimPrefix validator.HasPrefix filepath.Clean
  simp only [hslash]
  rcases hshape with h | h
  · rw [h]
    show ['/'].isPrefixOf
      (if ['/'].isPrefixOf out = true then String.mk (List.drop 1 out) else String.mk out).data
        = false
    rw [hpre out hout]
    exact hpre out hout
  · rw [h]
    show ['/'].isPrefixOf
      (if ['/'].isPrefixOf ('/' :: out) = true then String.mk (List.drop 1 ('/' :: out))
        else String.mk ('/' :: out)).data = false
    have : ['/'].isPrefixOf ('/' :: out) = true := by simp [List.isPrefixOf]
    rw [this]
    exact hpre out hout

/-- The invalidation on a store whose cache holds a list made before the
mutation, the cache answering. -/
theorem invalidation_when_cache_answers_listed :
    (Faults.none.cacheDown = false ∧ Faults.none.list = false ∧
      oneRefListed.cache.lookup "file_list"
        = some (.list [FileRepository.jsonFile
            (FileRepository.joined ⟨"f1", "file1.txt", helloHash, 10⟩ oneRefBlob)])) ∧
    ((FileRepository.CreateFileReference oneRefListed Faults.none secondFile).1 = none ∧
      (FileRepository.CreateFileReference oneRefListed Faults.none secondFile).2.cache.lookup
        "file_list" = none ∧
      (FileRepository.List
        (FileRepository.CreateFileReference oneRefListed Faults.none secondFile).2
        Faults.none).1
        = .ok (FileRepository.orderByCreatedDesc (FileRepository.joinAll
            (FileRepository.CreateFileReference oneRefListed Faults.none secondFile).2))) ∧
    ((FileRepository.DeleteByID oneRefListed Faults.none "f1").2.cache.lookup "file_list" = none ∧
      (FileRepository.DeleteByID oneRefListed Faults.none "f1").2.cache.lookup
        ("file:" ++ "f1") = none) :=
  have h := invalidation_when_cache_answers oneRefListed Faults.none Faults.none secondFile "f1"
    rfl rfl
  ⟨⟨rfl, rfl, by decide⟩, ⟨(h.1 rfl).1, (h.1 rfl).2.1, (h.1 rfl).2.2.1⟩,
    ⟨(h.2 rfl).2.1, (h.2 rfl).2.2.1⟩⟩

/-- The inputs accepted by `sanitizePath`, and its result. -/
theorem sanitizePath_ok_iff (s : LocalStorage) (wd : Option String) (userPath c : String) :
    s.sanitizePath wd userPath = .ok c ↔
      (c = cleaned userPath ∧ validator.Contains (cleaned userPath) ".." = false ∧
        LocalStorage.sensitive (cleaned userPath) = false ∧
        resolvesInside s wd (cleaned userPath) = true) := by
  unfold LocalStorage.sanitizePath resolvesInside cleaned
  simp only
  cases hc : validator.Contains (TrimPrefix (filepath.Clean userPath) "/") ".." with
  | true => simp
  | false =>
    cases hs : LocalStorage.sensitive (TrimPrefix (filepath.Clean userPath) "/") with
    | true => simp
    | false =>
      cases hfull : filepath.Abs wd
          (filepath.Join [s.basePath, TrimPrefix (filepath.Clean userPath) "/"]) with
      | none => simp
      | some a =>
        cases hbase : filepath.Abs wd s.basePath with
        | none => simp
        | some b =>
          simp only [Bool.false_eq_true, if_false, true_and]
          cases hp : validator.HasPrefix a (b ++ "/") with
          | true => simp [eq_comm]
          | false =>
            by_cases hab : a = b
            · simp [hab, eq_comm]
            · simp [hab]

/-- A rejected path: the three operations return the error and make no system call. -/
theorem rejected_no_io (s : LocalStorage) (d : Disk) (ft : DiskFaults) (path err : String)
    (reader : List UInt8) (size : Int) (h : s.sanitizePath d.wd path = .error err) :
    s.Put d ft path reader size = ((0, some ("invalid path: " ++ err)), d) ∧
    s.Get d ft path = (.error ("invalid path: " ++ err), d) ∧
    s.Delete d ft path = (some ("invalid path: " ++ err), d) := by
  unfold LocalStorage.Put LocalStorage.Get LocalStorage.Delete
  simp [h]

/-- C16 fails: with root `/data`, the absolute input `/abs/x` is not rejected
(its leading separator is stripped and the file is written under the root),
and the input `a/../b`, which contains `..`, is accepted as `b`. -/
theorem absolute_and_dotdot_accepted :
    validator.HasPrefix "/abs/x" "/" = true ∧
    dataStore.Put emptyDisk DiskFaults.none "/abs/x" helloWorld 13
      = ((13, none), ⟨some "/", [("/data/abs/x", helloWorld)],
          [.MkdirAll "/data/abs", .Create "/data/abs/x"]⟩) ∧
    validator.Contains "a/../b" ".." = true ∧
    dataStore.sanitizePath (some "/") "a/../b" = .ok "b" ∧
    (dataStore.Get emptyDisk DiskFaults.none "a/../b").2.calls = [.Open "/data/b"] ∧
    (dataStore.Delete emptyDisk DiskFaults.none "a/../b").2.calls = [.Remove "/data/b"] := by
  decide

/-- C16 as amended: for every candidate location whose cleaned form
(`filepath.Clean`, then one leading separator removed) contains `..` or starts
with a system directory, or which does not resolve to the root or beneath it,
`Put`, `Get` and `Delete` fail with an invalid-path error and make no system
call. -/
theorem rejected_paths_no_io (s : LocalStorage) (d : Disk) (ft : DiskFaults) (path : String)
    (reader : List UInt8) (size : Int)
    (hrej : validator.Contains (cleaned path) ".." = true ∨
      LocalStorage.sensitive (cleaned path) = true ∨
      resolvesInside s d.wd (cleaned path) = false) :
    ∃ err,
      s.sanitizePath d.wd path = .error err ∧
      s.Put d ft path reader size = ((0, some ("invalid path: " ++ err)), d) ∧
      s.Get d ft path = (.error ("invalid path: " ++ err), d) ∧
      s.Delete d ft path = (some ("invalid path: " ++ err), d) := by
  cases hres : s.sanitizePath d.wd path with
  | error err => exact ⟨err, rfl, rejected_no_io s d ft path err reader size hres⟩
  | ok c =>
    exfalso
    obtain ⟨_, h1, h2, h3⟩ := (sanitizePath_ok_iff s d.wd path c).mp hres
    rcases hrej with h | h | h
    · rw [h1] at h; cases h
    · rw [h2] at h; cases h
    · rw [h3] at h; cases h

/-- C16 as amended, on the input `../x` with root `/data`. -/
theorem rejected_paths_no_io_witness :
    (validator.Contains (cleaned "../x") ".." = true ∨
      LocalStorage.sensitive (cleaned "../x") = true ∨
      resolvesInside dataStore emptyDisk.wd (cleaned "../x") = false) ∧
    ∃ err,
      dataStore.sanitizePath emptyDisk.wd "../x" = .error err ∧
      dataStore.Put emptyDisk DiskFaults.none "../x" helloWorld 13
        = ((0, some ("invalid path: " ++ err)), emptyDisk) ∧
      dataStore.Get emptyDisk DiskFaults.none "../x"
        = (.error ("invalid path: " ++ err), emptyDisk) ∧
      dataStore.Delete emptyDisk DiskFaults.none "../x"
        = (some ("invalid path: " ++ err), emptyDisk) :=
  ⟨Or.inl (by decide),
    rejected_paths_no_io dataStore emptyDisk DiskFaults.none "../x" helloWorld 13
      (Or.inl (by decide))⟩

/-- C17 fails: with root `/data`, the input `.` is accepted and `Put` calls
`os.MkdirAll` on `/`, the parent of the root, before the creation of the file
at the root itself fails. -/
theorem put_on_root_touches_parent :
    dataStore.sanitizePath (some "/") "." = .ok "." ∧
    (dataStore.Put emptyDisk createFailsOnly "." helloWorld 13).2.calls
      = [.MkdirAll "/", .Create "/data"] ∧
    validator.HasPrefix "/" ("/data" ++ "/") = false ∧ "/" ≠ "/data" := by
  decide

/-- C17 as amended: when `sanitizePath` succeeds, the clean path contains no
`..` and does not start with a separator, and the full path
`filepath.Join(basePath, cleanPath)` resolves to the base directory or to a
path beneath it; `Get` opens and `Delete` removes that path only, `Put`
creates and writes that path only, after `os.MkdirAll` on its `filepath.Dir`
(the parent of the base directory when the input resolves to the base
itself); no other file of the filesystem changes. -/
theorem accepted_path_confined (s : LocalStorage) (d : Disk) (ft : DiskFaults)
    (path c : String) (reader : List UInt8) (size : Int)
    (hok : s.sanitizePath d.wd path = .ok c) :
    validator.Contains c ".." = false ∧ validator.HasPrefix c "/" = false ∧
    resolvesInside s d.wd c = true ∧
    ((s.Put d ft path reader size).2.calls
        = d.calls ++ [.MkdirAll (filepath.Dir (filepath.Join [s.basePath, c]))] ∨
      (s.Put d ft path reader size).2.calls
        = d.calls ++ [.MkdirAll (filepath.Dir (filepath.Join [s.basePath, c])),
            .Create (filepath.Join [s.basePath, c])]) ∧
    (s.Get d ft path).2.calls = d.calls ++ [.Open (filepath.Join [s.basePath, c])] ∧
    (s.Delete d ft path).2.calls = d.calls ++ [.Remove (filepath.Join [s.basePath, c])] ∧
    (s.Get d ft path).2.files = d.files ∧
    (∀ q, q ≠ filepath.Join [s.basePath, c] →
      (s.Put d ft path reader size).2.files.lookup q = d.files.lookup q ∧
      (s.Delete d ft path).2.files.lookup q = d.files.lookup q) := by
  obtain ⟨hc, h1, _, h3⟩ := (sanitizePath_ok_iff s d.wd path c).mp hok
  refine ⟨by rw [hc]; exact h1, by rw [hc]; exact trimmed_clean_not_rooted path,
    by rw [hc]; exact h3, ?_, ?_, ?_, ?_, ?_⟩
  · unfold LocalStorage.Put
    simp only [hok, Disk.call]
    by_cases hm : ft.mkdirFails = true
    · left; simp [hm]
    · right
      by_cases hcr : ft.createFails = true
      · simp [hm, hcr]
      · cases hcp : ft.copyFails <;> simp [hm, hcr]
  · unfold LocalStorage.Get
    simp only [hok, Disk.call]
    by_cases ho : ft.openFails = true
    · simp [ho]
    · cases hl : d.files.lookup (filepath.Join [s.basePath, c]) <;> simp [ho]
  · unfold LocalStorage.Delete
    simp only [hok, Disk.call]
    by_cases hr : ft.removeFails = true
    · simp [hr]
    · cases hl : d.files.lookup (filepath.Join [s.basePath, c]) <;> simp [hr]
  · unfold LocalStorage.Get
    simp only [hok, Disk.call]
    by_cases ho : ft.openFails = true
    · simp [ho]
    · cases hl : d.files.lookup (filepath.Join [s.basePath, c]) <;> simp [ho]
  · intro q hq
    constructor
    · unfold LocalStorage.Put
      simp only [hok, Disk.call]
      by_cases hm : ft.mkdirFails = true
      · simp [hm]
      · by_cases hcr : ft.createFails = true
        · simp [hm, hcr]
        · have hqb : (q == filepath.Join [s.basePath, c]) = false := by simpa using hq
          have hlk := lookup_filter_ne q (filepath.Join [s.basePath, c]) d.files hq
          cases hcp : ft.copyFails <;>
            (simp [hm, hcr, List.lookup_cons, hqb]; simpa using hlk)
    · unfold LocalStorage.Delete
      simp only [hok, Disk.call]
      by_cases hr : ft.removeFails = true
      · simp [hr]
      · have hlk := lookup_filter_ne q (filepath.Join [s.basePath, c]) d.files hq
        cases hl : d.files.lookup (filepath.Join [s.basePath, c]) with
        | none => simp [hr]
        | some v => simp [hr]; simpa using hlk

/-- C17 as amended, on the input `x/y` with root `/data`. -/
theorem accepted_path_confined_witness :
    dataStore.sanitizePath emptyDisk.wd "x/y" = .ok "x/y" ∧
    (validator.Contains "x/y" ".." = false ∧ validator.HasPrefix "x/y" "/" = false ∧
      resolvesInside dataStore emptyDisk.wd "x/y" = true ∧
      ((dataStore.Put emptyDisk DiskFaults.none "x/y" helloWorld 13).2.calls
          = emptyDisk.calls ++ [.MkdirAll (filepath.Dir (filepath.Join [dataStore.basePath, "x/y"]))] ∨
        (dataStore.Put emptyDisk DiskFaults.none "x/y" helloWorld 13).2.calls
          = emptyDisk.calls ++ [.MkdirAll (filepath.Dir (filepath.Join [dataStore.basePath, "x/y"])),
              .Create (filepath.Join [dataStore.basePath, "x/y"])]) ∧
      (dataStore.Get emptyDisk DiskFaults.none "x/y").2.calls
        = emptyDisk.calls ++ [.Open (filepath.Join [dataStore.basePath, "x/y"])] ∧
      (dataStore.Delete emptyDisk DiskFaults.none "x/y").2.calls
        = emptyDisk.calls ++ [.Remove (filepath.Join [dataStore.basePath, "x/y"])] ∧
      (dataStore.Get emptyDisk DiskFaults.none "x/y").2.files = emptyDisk.files ∧
      (∀ q, q ≠ filepath.Join [dataStore.basePath, "x/y"] →
        (dataStore.Put emptyDisk DiskFaults.none "x/y" helloWorld 13).2.files.lookup q
          = emptyDisk.files.lookup q ∧
        (dataStore.Delete emptyDisk DiskFaults.none "x/y").2.files.lookup q
          = emptyDisk.files.lookup q)) :=
  ⟨by decide,
    accepted_path_confined dataStore emptyDisk DiskFaults.none "x/y" "x/y" helloWorld 13
      (by decide)⟩

/-- C18 fails: with root `/data`, the inputs `""`, `.` and `/` resolve to the
root directory itself and are accepted. -/
theorem root_inputs_accepted :
    dataStore.sanitizePath (some "/") "" = .ok "." ∧
    dataStore.sanitizePath (some "/") "." = .ok "." ∧
    dataStore.sanitizePath (some "/") "/" = .ok "" ∧
    filepath.Abs (some "/") (filepath.Join [dataStore.basePath, "."]) = some "/data" ∧
    filepath.Abs (some "/") (filepath.Join [dataStore.basePath, ""]) = some "/data" ∧
    filepath.Abs (some "/") dataStore.basePath = some "/data" := by
  decide

/-- C18 as amended: `sanitizePath` accepts an input whose full path resolves
to the root directory itself, provided its cleaned form contains no `..` and
starts with no system directory; and every accepted path resolves to the root
or beneath it. -/
theorem root_resolving_accepted (s : LocalStorage) (wd : Option String) (path a : String)
    (h1 : validator.Contains (cleaned path) ".." = false)
    (h2 : LocalStorage.sensitive (cleaned path) = false)
    (hfull : filepath.Abs wd (filepath.Join [s.basePath, cleaned path]) = some a)
    (hbase : filepath.Abs wd s.basePath = some a) :
    s.sanitizePath wd path = .ok (cleaned path) ∧
    ∀ p2 c2, s.sanitizePath wd p2 = .ok c2 → resolvesInside s wd c2 = true := by
  constructor
  · rw [sanitizePath_ok_iff]
    refine ⟨rfl, h1, h2, ?_⟩
    unfold resolvesInside
    rw [hfull, hbase]
    simp
  · intro p2 c2 h
    obtain ⟨hc, _, _, h3⟩ := (sanitizePath_ok_iff s wd p2 c2).mp h
    rw [hc]
    exact h3

/-- C18 as amended, on the input `.` with root `/data`. -/
theorem root_resolving_accepted_witness :
    (validator.Contains (cleaned ".") ".." = false ∧
      LocalStorage.sensitive (cleaned ".") = false ∧
      filepath.Abs (some "/") (filepath.Join [dataStore.basePath, cleaned "."]) = some "/data" ∧
      filepath.Abs (some "/") dataStore.basePath = some "/data") ∧
    (dataStore.sanitizePath (some "/") "." = .ok (cleaned ".") ∧
      ∀ p2 c2, dataStore.sanitizePath (some "/") p2 = .ok c2 →
        resolvesInside dataStore (some "/") c2 = true) :=
  ⟨⟨by decide, by decide, by decide, by decide⟩,
    root_resolving_accepted dataStore (some "/") "." "/data"
      (by decide) (by decide) (by decide) (by decide)⟩

/-- C21 fails: on the store that holds "Hello, World!", an upload of the same
bytes during which the backend `Delete` of the just-written duplicate fails
returns success, and the duplicate stays at the candidate location; and an
upload during which `CreateFileReference` and then the reversing
`DecrementStorageRef` fail returns only the `CreateFileReference` error while
the count stays at 2. -/
theorem compensation_failure_discarded :
    (StorageService.Upload oneRef envDeleteFails helloWorld header2).1
      = .ok (hitFile envDeleteFails header2 helloHash oneRefBlob) ∧
    (StorageService.Upload oneRef envDeleteFails helloWorld header2).2.object "p2"
      = some helloWorld ∧
    (StorageService.Upload oneRef envRefDecFail helloWorld header2).1
      = .error (.database "CreateFileReference") ∧
    ((StorageService.Upload oneRef envRefDecFail helloWorld header2).2.blob helloHash).map
      (fun s => s.ReferenceCount) = some 2 ∧
    (StorageService.Upload oneRef envRefDecFail helloWorld header2).2.files = oneRef.files := by
  decide

/-- C21 as amended: `Upload` discards the outcome of its compensating steps.
The value it returns, a file or the original error, is the one it returns
when the backend `Delete`, the reversing `DecrementStorageRef` and the
`DeleteStorage` of the rollback all succeed. -/
theorem upload_result_ignores_compensation (w : World) (e : Env) (B : List UInt8)
    (header : model.FileHeader) :
    (StorageService.Upload w e B header).1
      = (StorageService.Upload w (withoutCompensationFaults e) B header).1 := by
  unfold StorageService.Upload withoutCompensationFaults
  cases hv : validator.ValidateFile header with
  | some msg => rfl
  | none =>
    simp only
    cases hput : e.faults.put with
    | fails => simp [Backend.Put, hput]
    | failsAfter n => simp [Backend.Put, hput]
    | ok =>
      cases hfind : w.storage.find? (fun s => s.Hash = checksumOf B) <;>
      cases hk : FileRepository.storageKeyTaken w.storage (checksumOf B) <;>
      by_cases hg : e.faults.getStorageByHash = true <;>
      by_cases hi : e.faults.incrementStorageRef = true <;>
      by_cases hc : e.faults.createFileReference = true <;>
      by_cases hcs : e.faults.createStorage = true <;>
      by_cases hbd : e.faults.backendDelete = true <;>
      simp [Backend.Put, hput, FileRepository.GetStorageByHash, hg, World.record, hfind,
        Backend.Delete, hbd, FileRepository.IncrementStorageRef, hi,
        FileRepository.CreateFileReference, hc, FileRepository.CreateStorage, hcs, hk]

/-- C22 (what the code does): on the empty store, when `Put` fails after 5
bytes reached the candidate location, `Upload` returns the error at once: the
backend `Delete` is not called and the partial object stays; no record is
created. -/
theorem failed_put_leaves_partial_object :
    (StorageService.Upload World.empty envPutBreaks helloWorld header1).1
      = .error (.backend "Put") ∧
    (StorageService.Upload World.empty envPutBreaks helloWorld header1).2.log
      = [.Put "p1" 13] ∧
    (StorageService.Upload World.empty envPutBreaks helloWorld header1).2.object "p1"
      = some (helloWorld.take 5) ∧
    (StorageService.Upload World.empty envPutBreaks helloWorld header1).2.storage = [] ∧
    (StorageService.Upload World.empty envPutBreaks helloWorld header1).2.files = [] := by
  decide

/-- C23 (what the code does): with root `/data` and no file at `/data/x`, the
path `x` is accepted and `Delete` returns the error of `os.Remove`. -/
theorem local_delete_absent_fails :
    dataStore.sanitizePath emptyDisk.wd "x" = .ok "x" ∧
    emptyDisk.files.lookup (filepath.Join [dataStore.basePath, "x"]) = none ∧
    dataStore.Delete emptyDisk DiskFaults.none "x"
      = (some "failed to delete file", { emptyDisk with calls := [.Remove "/data/x"] }) := by
  decide

/-- C24: over the filesystem as a map from paths to bytes, for an accepted
path, a `Put` that returns no error returned the length of the content and is
followed by a `Get` (the open not failing) that yields exactly the content, and
by a `Delete` (the removal not failing) that returns no error, after which a
`Get` fails; on any filesystem a `Delete` that returns no error is followed by
a `Get` that fails, and it returns no error exactly when the removal does not
fail and the map holds a file at the resolved path. -/
theorem local_put_get_delete (s : LocalStorage) (d : Disk) (ft ft2 ft3 : DiskFaults)
    (path c : String) (B : List UInt8) (size : Int)
    (hacc : s.sanitizePath d.wd path = .ok c) :
    (∀ n, (s.Put d ft path B size).1 = (n, none) →
      n = B.length ∧
      (ft2.openFails = false → (s.Get (s.Put d ft path B size).2 ft2 path).1 = .ok B) ∧
      (ft2.removeFails = false →
        (s.Delete (s.Put d ft path B size).2 ft2 path).1 = none ∧
        ∃ err, (s.Get (s.Delete (s.Put d ft path B size).2 ft2 path).2 ft3 path).1
          = .error err)) ∧
    ((s.Delete d ft path).1 = none →
      ∃ err, (s.Get (s.Delete d ft path).2 ft2 path).1 = .error err) ∧
    ((s.Delete d ft path).1 = none ↔
      (ft.removeFails = false ∧
        (d.files.lookup (filepath.Join [s.basePath, c])).isSome = true)) := by
  have hdelget : ∀ (d0 : Disk) (f1 f2 : DiskFaults), s.sanitizePath d0.wd path = .ok c →
      (s.Delete d0 f1 path).1 = none →
      ∃ err, (s.Get (s.Delete d0 f1 path).2 f2 path).1 = .error err := by
    intro d0 f1 f2 hacc0 hdel
    unfold LocalStorage.Delete at hdel ⊢
    simp only [hacc0] at hdel ⊢
    by_cases hr : f1.removeFails = true
    · simp [hr] at hdel
    · cases hl : d0.files.lookup (filepath.Join [s.basePath, c]) with
      | none => simp [hr, hl] at hdel
      | some v =>
        simp only [hr, hl, Bool.false_eq_true, if_false]
        unfold LocalStorage.Get
        simp only [Disk.call, hacc0]
        have hself := lookup_filter_self (filepath.Join [s.basePath, c]) d0.files
        refine ⟨"failed to open file", ?_⟩
        by_cases ho : f2.openFails = true
        · simp only [ho, if_true]
        · simp only [ho, Bool.false_eq_true, if_false, hself]
  have hdeliff : ∀ (d0 : Disk) (f1 : DiskFaults), s.sanitizePath d0.wd path = .ok c →
      ((s.Delete d0 f1 path).1 = none ↔
        (f1.removeFails = false ∧
          (d0.files.lookup (filepath.Join [s.basePath, c])).isSome = true)) := by
    intro d0 f1 hacc0
    unfold LocalStorage.Delete
    simp only [hacc0]
    by_cases hr : f1.removeFails = true
    · simp [hr]
    · cases hl : d0.files.lookup (filepath.Join [s.basePath, c]) with
      | none => simp [hr]
      | some v => simp [hr]
  refine ⟨?_, hdelget d ft ft2 hacc, hdeliff d ft hacc⟩
  intro n hput
  have hwd : (s.Put d ft path B size).2.wd = d.wd := by
    unfold LocalStorage.Put
    simp only [hacc]
    by_cases hm : ft.mkdirFails = true
    · simp [hm, Disk.call]
    · by_cases hcr : ft.createFails = true
      · simp [hm, hcr, Disk.call]
      · cases hcp : ft.copyFails <;> simp [hm, hcr, Disk.call]
  have hfile : (s.Put d ft path B size).2.files.lookup (filepath.Join [s.basePath, c])
      = some B ∧ n = B.length := by
    unfold LocalStorage.Put at hput ⊢
    simp only [hacc] at hput ⊢
    by_cases hm : ft.mkdirFails = true
    · simp [hm] at hput
    · by_cases hcr : ft.createFails = true
      · simp [hm, hcr] at hput
      · cases hcp : ft.copyFails with
        | some k => simp [hm, hcr, hcp] at hput
        | none =>
          simp only [hm, hcr, hcp, Bool.false_eq_true, if_false] at hput ⊢
          exact ⟨by simp [Disk.call, List.lookup_cons], by simpa using hput.symm⟩
  have hacc1 : s.sanitizePath (s.Put d ft path B size).2.wd path = .ok c := by rw [hwd]; exact hacc
  refine ⟨hfile.2, ?_, ?_⟩
  · intro ho
    unfold LocalStorage.Get
    simp only [hacc1, ho, Bool.false_eq_true, if_false, hfile.1]
  · intro hr
    have hdel : (s.Delete (s.Put d ft path B size).2 ft2 path).1 = none :=
      (hdeliff _ ft2 hacc1).mpr ⟨hr, by rw [hfile.1]; rfl⟩
    exact ⟨hdel, hdelget _ ft2 ft3 hacc1 hdel⟩

/-- C24 with root `/data` on the empty filesystem, for the path `x/y`: the
content is written to `/data/x/y`, read back, deleted, and then not found. -/
theorem local_put_get_delete_witness :
    dataStore.sanitizePath emptyDisk.wd "x/y" = .ok "x/y" ∧
    (dataStore.Put emptyDisk DiskFaults.none "x/y" helloWorld 13).1 = (13, none) ∧
    (dataStore.Put emptyDisk DiskFaults.none "x/y" helloWorld 13).2.files
      = [("/data/x/y", helloWorld)] ∧
    (dataStore.Delete (dataStore.Put emptyDisk DiskFaults.none "x/y" helloWorld 13).2
      DiskFaults.none "x/y")
      = (none, ⟨some "/", [],
          [.MkdirAll "/data/x", .Create "/data/x/y", .Remove "/data/x/y"]⟩) ∧
    (dataStore.Get (dataStore.Delete
      (dataStore.Put emptyDisk DiskFaults.none "x/y" helloWorld 13).2 DiskFaults.none "x/y").2
        DiskFaults.none "x/y").1 = .error "failed to open file" ∧
    ((13 : Int) = helloWorld.length ∧
      (DiskFaults.none.openFails = false →
        (dataStore.Get (dataStore.Put emptyDisk DiskFaults.none "x/y" helloWorld 13).2
          DiskFaults.none "x/y").1 = .ok helloWorld) ∧
      (DiskFaults.none.removeFails = false →
        (dataStore.Delete (dataStore.Put emptyDisk DiskFaults.none "x/y" helloWorld 13).2
          DiskFaults.none "x/y").1 = none ∧
        ∃ err, (dataStore.Get (dataStore.Delete
          (dataStore.Put emptyDisk DiskFaults.none "x/y" helloWorld 13).2
            DiskFaults.none "x/y").2 DiskFaults.none "x/y").1 = .error err)) :=
  ⟨by decide, by decide, by decide, by decide, by decide,
    (local_put_get_delete dataStore emptyDisk DiskFaults.none DiskFaults.none DiskFaults.none
      "x/y" "x/y" helloWorld 13 (by decide)).1 13 (by decide)⟩

/-- C25: on a response to its DELETE request, `Delete` of both remote
backends returns no error exactly when the status is 404, 204 or 200. -/
theorem remote_delete_status (s1 : SeaweedFSSimpleStorage) (s2 : SeaweedFSStorage)
    (remote : Request → HTTPOutcome) (path : String) (status : Int)
    (body : Option (List DirectoryEntry))
    (h1 : remote ⟨"DELETE", s1.filerURL ++ "/" ++ path⟩ = .response status body)
    (h2 : remote ⟨"DELETE",
      String.mk (replaceFirst ":9333".toList ":8888".toList s2.masterURL.toList) ++ "/" ++ path⟩
        = .response status body) :
    (s1.Delete remote path = none ↔ (status = 404 ∨ status = 204 ∨ status = 200)) ∧
    (s2.Delete remote path = none ↔ (status = 404 ∨ status = 204 ∨ status = 200)) := by
  unfold SeaweedFSSimpleStorage.Delete SeaweedFSStorage.Delete
  simp only [h1, h2]
  by_cases h404 : status = 404
  · simp [h404]
  · by_cases h204 : status = 204
    · simp [h204]
    · by_cases h200 : status = 200
      · simp [h200]
      · simp [h404, h204, h200]

/-- C25 for a server that answers 404 to every request. -/
theorem remote_delete_status_witness :
    ((fun _ => HTTPOutcome.response 404 none) (⟨"DELETE", simpleStore.filerURL ++ "/" ++ "gone"⟩ : Request)
        = .response 404 none ∧
      (fun _ => HTTPOutcome.response 404 none) (⟨"DELETE",
        String.mk (replaceFirst ":9333".toList ":8888".toList fullStore.masterURL.toList)
          ++ "/" ++ "gone"⟩ : Request) = .response 404 none) ∧
    ((simpleStore.Delete (fun _ => .response 404 none) "gone" = none ↔
        ((404 : Int) = 404 ∨ (404 : Int) = 204 ∨ (404 : Int) = 200)) ∧
      (fullStore.Delete (fun _ => .response 404 none) "gone" = none ↔
        ((404 : Int) = 404 ∨ (404 : Int) = 204 ∨ (404 : Int) = 200))) :=
  ⟨⟨rfl, rfl⟩,
    remote_delete_status simpleStore fullStore (fun _ => .response 404 none) "gone" 404 none
      rfl rfl⟩

theorem collect_eq (pre : String) (entries : List DirectoryEntry) :
    ∀ files : List String,
      SeaweedFSSimpleStorage.collect pre files entries = files ++ listedPaths pre entries := by
  induction entries with
  | nil => intro files; simp [SeaweedFSSimpleStorage.collect, listedPaths]
  | cons en rest ih =>
    intro files
    unfold SeaweedFSSimpleStorage.collect
    by_cases hd : notDirectory en.Mode = true
    · by_cases hp : pre = "" ∨ validator.HasPrefix (TrimPrefix en.FullPath "/") pre = true
      · simp only [hd, hp, if_true]
        rw [ih]
        simp only [listedPaths] at *
        simp [List.filter_cons, hd, hp]
      · simp only [hd, hp, if_true, if_false]
        rw [ih]
        simp only [listedPaths] at *
        simp [List.filter_cons, hd, hp]
    · simp only [hd, if_false, Bool.false_eq_true]
      rw [ih]
      simp only [listedPaths] at *
      simp [List.filter_cons, hd]

/-- C26: on a directory listing received with status 200, `List` of the simple
remote backend returns, in response order, exactly the entries whose mode has
bit 0x4000 clear, each as its full path without one leading separator,
restricted for a non-empty prefix to the stripped paths that start with it;
every returned path comes from an entry that is not a directory; the test
listing with the empty prefix gives `["test-file"]`. -/
theorem simple_list_filters_directories (s : SeaweedFSSimpleStorage)
    (remote : Request → HTTPOutcome) (pre : String) (entries : List DirectoryEntry)
    (hresp : remote ⟨"GET", s.listURL pre⟩ = .response 200 (some entries)) :
    s.List remote pre = .ok (listedPaths pre entries) ∧
    (∀ p ∈ listedPaths pre entries, ∃ en ∈ entries,
      Int.land en.Mode 0x4000 = 0 ∧ p = TrimPrefix en.FullPath "/" ∧
      (pre = "" ∨ validator.HasPrefix p pre = true)) ∧
    simpleStore.List (fun _ => .response 200 (some [⟨"/test-file", 33188, 12, "test-file"⟩])) ""
      = .ok ["test-file"] := by
  refine ⟨?_, ?_, by decide⟩
  · unfold SeaweedFSSimpleStorage.List
    simp only [hresp]
    simp [collect_eq]
  · intro p hp
    simp only [listedPaths, List.mem_filter, List.mem_map] at hp
    obtain ⟨⟨en, ⟨hen, hnd⟩, rfl⟩, hpre⟩ := hp
    refine ⟨en, hen, ?_, rfl, ?_⟩
    · simpa [notDirectory] using hnd
    · simpa using hpre

/-- C26 on the listing of the test server. -/
theorem simple_list_filters_directories_witness :
    (fun _ => HTTPOutcome.response 200 (some testListing))
        (⟨"GET", simpleStore.listURL ""⟩ : Request) = .response 200 (some testListing) ∧
    simpleStore.List (fun _ => .response 200 (some testListing)) ""
      = .ok (listedPaths "" testListing) ∧
    listedPaths "" testListing = ["test-file"] :=
  ⟨rfl,
    (simple_list_filters_directories simpleStore (fun _ => .response 200 (some testListing)) ""
      testListing rfl).1,
    by decide⟩

/-- C27: for every error, `SanitizeError` returns one of the seven fixed
strings, none of which contains a separator; the result depends on the error
only through the branch taken. -/
theorem sanitizeError_fixed_messages (err : Option String) :
    errors.SanitizeError err ∈
      ["", "file operation failed", "database connection failed", "operation failed",
        "service unavailable", "request timeout", "internal server error"] ∧
    validator.Contains (errors.SanitizeError err) "/" = false ∧
    (∀ m ∈ errors.safeMessages, validator.Contains m "/" = false) := by
  have hall : ∀ m ∈ errors.safeMessages, validator.Contains m "/" = false := by decide
  have hmem : errors.SanitizeError err ∈ errors.safeMessages := by
    unfold errors.SanitizeError errors.safeMessages
    cases err with
    | none => simp
    | some errMsg =>
      simp only
      split
      · simp
      · split
        · simp
        · split
          · simp
          · split
            · simp
            · split <;> simp
  exact ⟨hmem, hall _ hmem, hall⟩

/-- C28: from the empty store, two valid uploads whose contents have different
SHA-256 digests, at two distinct candidate locations, return files with
different storage hashes; the backend then holds the two objects and each of
the two blobs has reference count 1. -/
theorem distinct_contents_not_deduplicated (e1 e2 : Env) (B1 B2 : List UInt8)
    (h1 h2 : model.FileHeader)
    (hv1 : validator.ValidateFile h1 = none) (hv2 : validator.ValidateFile h2 = none)
    (hf1 : e1.faults = Faults.none) (hf2 : e2.faults = Faults.none)
    (hpath : e1.path ≠ e2.path)
    (hdigest : hexEncodeToString (SHA256.sum256 B1) ≠ hexEncodeToString (SHA256.sum256 B2)) :
    ∃ f1 f2 s1 s2,
      (StorageService.Upload World.empty e1 B1 h1).1 = .ok f1 ∧
      (StorageService.Upload (StorageService.Upload World.empty e1 B1 h1).2 e2 B2 h2).1
        = .ok f2 ∧
      f1.StorageHash ≠ f2.StorageHash ∧
      (StorageService.Upload (StorageService.Upload World.empty e1 B1 h1).2 e2 B2 h2).2.objects
        = [(e2.path, B2), (e1.path, B1)] ∧
      (StorageService.Upload (StorageService.Upload World.empty e1 B1 h1).2 e2 B2 h2).2.blob
        f1.StorageHash = some s1 ∧
      (StorageService.Upload (StorageService.Upload World.empty e1 B1 h1).2 e2 B2 h2).2.blob
        f2.StorageHash = some s2 ∧
      s1.ReferenceCount = 1 ∧ s2.ReferenceCount = 1 ∧
      (StorageService.Upload (StorageService.Upload World.empty e1 B1 h1).2 e2 B2 h2).2.storage
        = [s1, s2] := by
  have hd : checksumOf B1 ≠ checksumOf B2 := hdigest
  have hb1 : World.empty.blob (checksumOf B1) = none := rfl
  have hb2 : (StorageService.Upload World.empty e1 B1 h1).2.blob (checksumOf B2) = none := by
    rw [upload_miss World.empty e1 B1 h1 hv1 hf1 hb1]
    simp [World.blob, World.empty, newRecord, hd]
  rw [upload_miss _ e2 B2 h2 hv2 hf2 hb2]
  rw [upload_miss World.empty e1 B1 h1 hv1 hf1 hb1]
  refine ⟨missFile e1 h1 B1, missFile e2 h2 B2, newRecord e1 h1 B1, newRecord e2 h2 B2,
    rfl, rfl, hd, ?_, ?_, ?_, rfl, rfl, rfl⟩
  · simp [World.empty, List.filter_cons, hpath]
  · simp [World.blob, World.empty, newRecord, missFile]
  · simp [World.blob, World.empty, newRecord, missFile, hd]

/-- C28 for "Hello, World!" and "Hello, Universe!". -/
theorem distinct_contents_not_deduplicated_witness :
    (validator.ValidateFile header1 = none ∧ validator.ValidateFile header2 = none ∧
      env1.path ≠ env2.path ∧
      hexEncodeToString (SHA256.sum256 helloWorld)
        ≠ hexEncodeToString (SHA256.sum256 helloUniverse)) ∧
    ∃ f1 f2 s1 s2,
      (StorageService.Upload World.empty env1 helloWorld header1).1 = .ok f1 ∧
      (StorageService.Upload (StorageService.Upload World.empty env1 helloWorld header1).2
        env2 helloUniverse header2).1 = .ok f2 ∧
      f1.StorageHash ≠ f2.StorageHash ∧
      (StorageService.Upload (StorageService.Upload World.empty env1 helloWorld header1).2
        env2 helloUniverse header2).2.objects
        = [(env2.path, helloUniverse), (env1.path, helloWorld)] ∧
      (StorageService.Upload (StorageService.Upload World.empty env1 helloWorld header1).2
        env2 helloUniverse header2).2.blob f1.StorageHash = some s1 ∧
      (StorageService.Upload (StorageService.Upload World.empty env1 helloWorld header1).2
        env2 helloUniverse header2).2.blob f2.StorageHash = some s2 ∧
      s1.ReferenceCount = 1 ∧ s2.ReferenceCount = 1 ∧
      (StorageService.Upload (StorageService.Upload World.empty env1 helloWorld header1).2
        env2 helloUniverse header2).2.storage = [s1, s2] :=
  ⟨⟨by decide, by decide, by decide, by decide⟩,
    distinct_contents_not_deduplicated env1 env2 helloWorld helloUniverse header1 header2
      (by decide) (by decide) rfl rfl (by decide) (by decide)⟩

set_option maxRecDepth 100000 in
/-- C30 (what the code does): for the 302-byte name `a.` followed by 300
letters `b`, whose extension has 301 bytes, `maxNameLen` is negative, the
truncation is skipped and `SanitizeFilename` returns the name unchanged, 302
bytes long, above `MaxFilenameLen` = 255. -/
theorem long_extension_not_truncated :
    longExtension.length = 302 ∧
    (validator.ExtBytes longExtension).length = 301 ∧
    validator.SanitizeFilename longExtension = longExtension ∧
    (validator.SanitizeFilename longExtension).length = 302 ∧
    validator.MaxFilenameLen = 255 := by
  decide

/-- Six calls of `uploadStep` from the entry are the function `Upload`. -/
theorem uploadRun_eq_Upload (w : World) (e : Env) (reader : List UInt8)
    (header : model.FileHeader) :
    uploadRun e reader header 6 w .put
      = (.returned (StorageService.Upload w e reader header).1,
          (StorageService.Upload w e reader header).2) := by
  unfold StorageService.Upload
  cases hv : validator.ValidateFile header with
  | some msg => simp [uploadRun, uploadStep, hv]
  | none =>
    cases hput : e.faults.put with
    | fails => simp [uploadRun, uploadStep, hv, Backend.Put, hput]
    | failsAfter n => simp [uploadRun, uploadStep, hv, Backend.Put, hput]
    | ok =>
      cases hfind : w.storage.find? (fun s => s.Hash = checksumOf reader) <;>
      cases hk : FileRepository.storageKeyTaken w.storage (checksumOf reader) <;>
      by_cases hg : e.faults.getStorageByHash = true <;>
      by_cases hi : e.faults.incrementStorageRef = true <;>
      by_cases hc : e.faults.createFileReference = true <;>
      by_cases hcs : e.faults.createStorage = true <;>
      simp [uploadRun, uploadStep, hv, Backend.Put, hput, FileRepository.GetStorageByHash, hg,
        World.record, hfind, FileRepository.IncrementStorageRef, hi,
        FileRepository.CreateFileReference, hc, FileRepository.CreateStorage, hcs, hk]

/-- A schedule that starts with `n` calls of the first upload. -/
theorem interleave_first (a b : UploadCall) (n : Nat) (rest : List Bool) :
    ∀ c : Concurrent, interleave a b (List.replicate n false ++ rest) c
      = interleave a b rest
          ⟨(uploadRun a.env a.reader a.header n c.world c.first).2,
            (uploadRun a.env a.reader a.header n c.world c.first).1, c.second⟩ := by
  induction n with
  | zero => intro c; rfl
  | succ n ih =>
    intro c
    rw [List.replicate_succ, List.cons_append, interleave, ih]
    rfl

/-- A schedule that starts with `n` calls of the second upload. -/
theorem interleave_second (a b : UploadCall) (n : Nat) (rest : List Bool) :
    ∀ c : Concurrent, interleave a b (List.replicate n true ++ rest) c
      = interleave a b rest
          ⟨(uploadRun b.env b.reader b.header n c.world c.second).2, c.first,
            (uploadRun b.env b.reader b.header n c.world c.second).1⟩ := by
  induction n with
  | zero => intro c; rfl
  | succ n ih =>
    intro c
    rw [List.replicate_succ, List.cons_append, interleave, ih]
    rfl

/-- Under the schedule that lets the first upload return before the second
starts, the two uploads are two calls of `Upload`, one after the other. -/
theorem serial_schedule_eq_uploads (a b : UploadCall) (w : World) :
    interleave a b (List.replicate 6 false ++ List.replicate 6 true) (Concurrent.start w)
      = ⟨(StorageService.Upload (StorageService.Upload w a.env a.reader a.header).2
            b.env b.reader b.header).2,
          .returned (StorageService.Upload w a.env a.reader a.header).1,
          .returned (StorageService.Upload (StorageService.Upload w a.env a.reader a.header).2
            b.env b.reader b.header).1⟩ := by
  rw [interleave_first]
  have h := interleave_second a b 6 []
  rw [List.append_nil] at h
  rw [h]
  simp only [Concurrent.start, uploadRun_eq_Upload, interleave]

/-- One call of an upload on a store that holds the blob of its content, no
call failing: the upload stays on the hit path and the count of the blob grows
by the increments the call adds. -/
theorem step_on_existing_blob (e : Env) (B : List UInt8) (header : model.FileHeader)
    (w : World) (pc : UploadAt) (k : Int) (hf : e.faults = Faults.none)
    (hv : validator.ValidateFile header = none) (hpc : pc.onHitPath = true)
    (hblob : ∃ s, w.blob (checksumOf B) = some s ∧ s.ReferenceCount = k + pc.increments) :
    (uploadStep e B header w pc).1.onHitPath = true ∧
    ∃ s, (uploadStep e B header w pc).2.blob (checksumOf B) = some s ∧
      s.ReferenceCount = k + (uploadStep e B header w pc).1.increments := by
  obtain ⟨s, hs, hk⟩ := hblob
  unfold World.blob at hs
  cases pc with
  | put =>
    refine ⟨?_, s, ?_, ?_⟩ <;>
    simp [uploadStep, hv, Backend.Put, hf, Faults.none, World.record, World.blob, hs,
      UploadAt.onHitPath, UploadAt.increments]
    simpa [UploadAt.increments] using hk
  | getStorageByHash size =>
    refine ⟨?_, s, ?_, ?_⟩ <;>
    simp [uploadStep, FileRepository.GetStorageByHash, hf, Faults.none, World.record,
      World.blob, hs, UploadAt.onHitPath, UploadAt.increments]
    simpa [UploadAt.increments] using hk
  | deleteDuplicate existing =>
    refine ⟨?_, s, ?_, ?_⟩ <;>
    simp [uploadStep, Backend.Delete, hf, Faults.none, World.record,
      World.blob, hs, UploadAt.onHitPath, UploadAt.increments]
    simpa [UploadAt.increments] using hk
  | incrementStorageRef existing =>
    refine ⟨?_, FileRepository.incRow (checksumOf B) e.dbNow s, ?_, ?_⟩
    · simp [uploadStep, FileRepository.IncrementStorageRef, hf, Faults.none,
        UploadAt.onHitPath]
    · simp only [uploadStep, FileRepository.IncrementStorageRef, hf, Faults.none,
        World.record, World.blob, Bool.false_eq_true, if_false]
      rw [find?_map_incRow, hs]
      rfl
    · have hh : s.Hash = checksumOf B := by
        have := List.find?_some hs
        simpa using this
      simp only [uploadStep, FileRepository.IncrementStorageRef, hf, Faults.none,
        Bool.false_eq_true, if_false, UploadAt.increments, FileRepository.incRow, hh, if_true]
      simp only [UploadAt.increments] at hk
      omega
  | createReference existing =>
    refine ⟨?_, s, ?_, ?_⟩ <;>
    simp [uploadStep, FileRepository.CreateFileReference, hf, Faults.none, World.record,
      FileRepository.cacheDel, World.blob, hs, UploadAt.onHitPath, UploadAt.increments]
    simpa [UploadAt.increments] using hk
  | returned r =>
    cases r with
    | error err => simp [UploadAt.onHitPath] at hpc
    | ok file =>
      exact ⟨by simp [uploadStep, UploadAt.onHitPath], s,
        by simp [uploadStep, World.blob, hs], by simpa [uploadStep] using hk⟩
  | decrementStorageRef err => simp [UploadAt.onHitPath] at hpc
  | createStorage size => simp [UploadAt.onHitPath] at hpc
  | createFile size => simp [UploadAt.onHitPath] at hpc
  | deleteStorage err => simp [UploadAt.onHitPath] at hpc
  | deleteObject err => simp [UploadAt.onHitPath] at hpc

/-- Two uploads of one content on a store that holds its blob, no call
failing: after every schedule both are on the hit path and the count of the
blob is the initial count plus the increments made so far. -/
theorem existing_blob_every_schedule (a b : UploadCall) (k : Int)
    (hsame : b.reader = a.reader)
    (hfa : a.env.faults = Faults.none) (hfb : b.env.faults = Faults.none)
    (hva : validator.ValidateFile a.header = none)
    (hvb : validator.ValidateFile b.header = none) (schedule : List Bool) :
    ∀ c : Concurrent, c.first.onHitPath = true → c.second.onHitPath = true →
      (∃ s, c.world.blob (checksumOf a.reader) = some s ∧
        s.ReferenceCount = k + c.first.increments + c.second.increments) →
      (interleave a b schedule c).first.onHitPath = true ∧
      (interleave a b schedule c).second.onHitPath = true ∧
      ∃ s, (interleave a b schedule c).world.blob (checksumOf a.reader) = some s ∧
        s.ReferenceCount = k + (interleave a b schedule c).first.increments
          + (interleave a b schedule c).second.increments := by
  induction schedule with
  | nil => intro c h1 h2 h3; exact ⟨h1, h2, h3⟩
  | cons x rest ih =>
    intro c h1 h2 h3
    obtain ⟨s, hs, hk⟩ := h3
    cases x with
    | false =>
      have hstep := step_on_existing_blob a.env a.reader a.header c.world c.first
        (k + c.second.increments) hfa hva h1 ⟨s, hs, by omega⟩
      obtain ⟨hp, s1, hs1, hk1⟩ := hstep
      exact ih _ hp h2 ⟨s1, hs1, by simp only; omega⟩
    | true =>
      have hcs : checksumOf b.reader = checksumOf a.reader := by rw [hsame]
      have hstep := step_on_existing_blob b.env b.reader b.header c.world c.second
        (k + c.first.increments) hfb hvb h2 ⟨s, by rw [hcs]; exact hs, by omega⟩
      obtain ⟨hp, s1, hs1, hk1⟩ := hstep
      rw [hcs] at hs1
      exact ih _ h1 hp ⟨s1, hs1, by simp only; omega⟩

/-- Two concurrent uploads of one content whose blob exists: under every
schedule after which both have returned, both have succeeded and the count
of the blob is the initial count plus 2. -/
theorem existing_blob_plus_two (a b : UploadCall) (w : World) (s0 : model.Storage)
    (hsame : b.reader = a.reader)
    (hfa : a.env.faults = Faults.none) (hfb : b.env.faults = Faults.none)
    (hva : validator.ValidateFile a.header = none)
    (hvb : validator.ValidateFile b.header = none)
    (hblob : w.blob (checksumOf a.reader) = some s0)
    (schedule : List Bool) (r1 r2 : Except Err model.File)
    (h1 : (interleave a b schedule (Concurrent.start w)).first = .returned r1)
    (h2 : (interleave a b schedule (Concurrent.start w)).second = .returned r2) :
    (∃ f1, r1 = .ok f1) ∧ (∃ f2, r2 = .ok f2) ∧
    ∃ s, (interleave a b schedule (Concurrent.start w)).world.blob (checksumOf a.reader)
        = some s ∧ s.ReferenceCount = s0.ReferenceCount + 2 := by
  have h := existing_blob_every_schedule a b s0.ReferenceCount hsame hfa hfb hva hvb schedule
    (Concurrent.start w) rfl rfl ⟨s0, hblob, by simp [Concurrent.start, UploadAt.increments]⟩
  obtain ⟨hp1, hp2, s, hs, hk⟩ := h
  rw [h1] at hp1 hk
  rw [h2] at hp2 hk
  cases r1 with
  | error e1 => simp [UploadAt.onHitPath] at hp1
  | ok f1 =>
    cases r2 with
    | error e2 => simp [UploadAt.onHitPath] at hp2
    | ok f2 =>
      refine ⟨⟨f1, rfl⟩, ⟨f2, rfl⟩, s, hs, ?_⟩
      simp only [UploadAt.increments] at hk
      omega

set_option maxRecDepth 100000 in
/-- On the store that holds "Hello, World!" once, two further uploads of it
whose calls alternate both succeed, and the count goes from 1 to 3. -/
theorem existing_blob_plus_two_alternating :
    (interleave call2 call3 alternatingSchedule (Concurrent.start oneRef)).world.storage
      = [⟨helloHash, 13, "text/plain", "p1", 3, 10, 31⟩] ∧
    ((∃ f1, (.ok (hitFile env2 header2 helloHash oneRefBlob) : Except Err model.File)
        = .ok f1) ∧
      (∃ f2, (.ok (hitFile env3 call3.header helloHash oneRefBlob) : Except Err model.File)
        = .ok f2) ∧
      ∃ s, (interleave call2 call3 alternatingSchedule (Concurrent.start oneRef)).world.blob
          (checksumOf call2.reader) = some s ∧
        s.ReferenceCount = oneRefBlob.ReferenceCount + 2) :=
  ⟨by decide,
    existing_blob_plus_two call2 call3 oneRef oneRefBlob rfl rfl rfl (by decide) (by decide)
      (by decide) alternatingSchedule (.ok (hitFile env2 header2 helloHash oneRefBlob))
      (.ok (hitFile env3 call3.header helloHash oneRefBlob)) (by decide) (by decide)⟩

set_option maxRecDepth 100000 in
/-- C29 (what the code does): two uploads of "Hello, World!" on the empty
store, no call failing. Under the schedule `Put`, `Put`, `GetStorageByHash`,
`GetStorageByHash`, `CreateStorage`, `CreateStorage` both lookups find no
blob, the second `CreateStorage` is rejected for the hash that the first has
just inserted, and the second upload deletes its candidate and returns that
error: the final state has one blob with reference count 1, not 2, and one
file record. Under the schedule that lets the first upload return before the
second starts the count is 2. -/
theorem concurrent_uploads_race :
    (interleave call1 call2 raceSchedule (Concurrent.start World.empty)).first
      = .returned (.ok (missFile env1 header1 helloWorld)) ∧
    (interleave call1 call2 raceSchedule (Concurrent.start World.empty)).second
      = .returned (.error .duplicateKey) ∧
    (interleave call1 call2 raceSchedule (Concurrent.start World.empty)).world.storage
      = [⟨helloHash, 13, "text/plain", "p1", 1, 10, 10⟩] ∧
    (interleave call1 call2 raceSchedule (Concurrent.start World.empty)).world.files
      = [⟨"f1", "file1.txt", helloHash, 10⟩] ∧
    (interleave call1 call2 raceSchedule (Concurrent.start World.empty)).world.objects
      = [("p1", helloWorld)] ∧
    (interleave call1 call2 raceSchedule (Concurrent.start World.empty)).world.log
      = [.Put "p1" 13, .Put "p2" 13, .GetStorageByHash helloHash, .GetStorageByHash helloHash,
          .CreateStorage (newRecord env1 header1 helloWorld),
          .CreateStorage (newRecord env2 header2 helloWorld), .Delete "p2",
          .CreateFileReference (missFile env1 header1 helloWorld)] ∧
    (interleave call1 call2 serialSchedule (Concurrent.start World.empty)).first
      = .returned (.ok (missFile env1 header1 helloWorld)) ∧
    (interleave call1 call2 serialSchedule (Concurrent.start World.empty)).second
      = .returned (.ok (hitFile env2 header2 helloHash
          ⟨helloHash, 13, "text/plain", "p1", 1, 10, 10⟩)) ∧
    (interleave call1 call2 serialSchedule (Concurrent.start World.empty)).world.storage
      = [⟨helloHash, 13, "text/plain", "p1", 2, 10, 21⟩] ∧
    (interleave call1 call2 serialSchedule (Concurrent.start World.empty)).world.files
      = [⟨"f1", "file1.txt", helloHash, 10⟩, ⟨"f2", "file2.txt", helloHash, 20⟩] := by
  decide

end PotPlay
